import Mathlib

/-!
# Software rasterizer (`corse/manager.cpp`): depth test, clipping, culling, traversal

A shallow embedding of the rendering core of `SceneManager`.

Modelling conventions.
* C++ `float` values are exact rationals (`ℚ`): rounding error, infinities and NaN are
  outside the model, except for `BoundingBox::intersect`, which is also embedded with every
  operation rounded (`BoundingBox.intersectFl`, binary32 rounding `fl32`).  `int` values are
  `Int`.
* `std::vector<std::vector<float>> depthBuffer` is a `List (List ℚ)`; reading a cell outside
  the vector (undefined behaviour in C++) is the failure `none`.
* `eps` is a constant of `scene_manager.h`, a header that is not part of the sources at hand:
  it is a field of the state and every statement holds for each value it may have.
* the helpers of `bary.h` (`toBarycentric`, `baryCentricInterpolation`) are parameters of the
  rasterizer, bundled in `Bary`.
-/

set_option autoImplicit false

/-! ## Data model -/

/-- Three-component vector of the renderer (`Vec3f`). -/
structure Vec3f where
  x : ℚ
  y : ℚ
  z : ℚ
  deriving DecidableEq

/-- Vertex: homogeneous position `pos` with `invW`, normal and texture coordinate. -/
structure Vertex where
  pos : Vec3f
  invW : ℚ
  normal : Vec3f
  texcoord : Vec3f
  deriving DecidableEq

/-- Camera, of which the culling test reads the position only. -/
structure Camera where
  position : Vec3f
  deriving DecidableEq

/-- One `setPixelColor (x, y, color)` call on the image. -/
structure PixelWrite where
  x : Int
  y : Int
  color : Vec3f
  deriving DecidableEq

/-- The image since its last `fill`: the `setPixelColor` calls made on it, newest first. -/
abbrev QImage := List PixelWrite

/-- The largest finite `float`, `std::numeric_limits<float>::max()`. -/
def FLT_MAX : ℚ := 340282346638528859811704183484516925440

/-- The part of `SceneManager` that the rendering core reads and writes. -/
structure SceneManager where
  width : Int
  height : Int
  eps : ℚ
  depthBuffer : List (List ℚ)
  img : QImage
  camers : List Camera
  curr_camera : Nat
  pixel_shader : Vertex → Vertex → Vertex → Vec3f → Vec3f

/-- Function `std::round`: nearest integer, halfway cases away from zero. -/
def cround (q : ℚ) : Int :=
  if 0 ≤ q then ⌊q + 1 / 2⌋ else ⌈q - 1 / 2⌉

/-- Read `depthBuffer[x][y]`; `none` when an index is outside its vector. -/
def getDepth (buf : List (List ℚ)) (x y : Int) : Option ℚ :=
  if x < 0 ∨ y < 0 then none
  else match buf[x.toNat]? with
    | none => none
    | some row => row[y.toNat]?

/-- Write `depthBuffer[x][y] = z`. -/
def setDepth (buf : List (List ℚ)) (x y : Int) (z : ℚ) : List (List ℚ) :=
  buf.modify (fun row => row.set y.toNat z) x.toNat

namespace SceneManager

/-- The depth buffer has `width` rows of `height` cells. -/
def WF (s : SceneManager) : Prop :=
  s.depthBuffer.length = s.width.toNat ∧ ∀ row ∈ s.depthBuffer, row.length = s.height.toNat

/-- Method `SceneManager::testAndSet`: the result and the state after the call. -/
def testAndSet (s : SceneManager) (p : Vec3f) : Option (Bool × SceneManager) :=
  let x := cround p.x
  let y := cround p.y
  if x ≥ s.width ∨ y ≥ s.height ∨ x < 0 ∨ y < 0 then some (false, s)
  else match getDepth s.depthBuffer x y with
    | none => none
    | some d =>
      if p.z < d ∨ |p.z - d| < s.eps then
        some (true, { s with depthBuffer := setDepth s.depthBuffer x y p.z })
      else some (false, s)

/-- The opening statements of `SceneManager::render_all`: `img.fill(Qt::black)` and the
`std::fill` of every row of the depth buffer with the largest float. -/
def clearFrame (s : SceneManager) : SceneManager :=
  { s with img := [], depthBuffer := s.depthBuffer.map (fun vec => vec.map (fun _ => FLT_MAX)) }

/-- A run of `testAndSet` calls on one frame, in submission order (the results are dropped:
only the depth buffer is followed). -/
def submitAll (s : SceneManager) : List Vec3f → Option SceneManager
  | [] => some s
  | p :: ps =>
    match s.testAndSet p with
    | none => none
    | some (_, s') => submitAll s' ps

end SceneManager

/-- The minimum of a list of candidate depths (none of which exceeds the largest float). -/
def minDepth (zs : List ℚ) : ℚ := zs.foldr min FLT_MAX

/-! ## Vector helpers -/

namespace Vec3f

/-- Modelled from the spec: `Vec3f::operator-` lives in a header that is not among the
sources; it is the componentwise difference used for the "edge vectors" of section 4.2. -/
def sub (a b : Vec3f) : Vec3f := ⟨a.x - b.x, a.y - b.y, a.z - b.z⟩

instance : Sub Vec3f := ⟨Vec3f.sub⟩

/-- Modelled from the spec: `Vec3f::cross` lives in a header that is not among the sources;
it is the "cross product of two edge vectors" of section 4.2. -/
def cross (a b : Vec3f) : Vec3f :=
  ⟨a.y * b.z - a.z * b.y, a.z * b.x - a.x * b.z, a.x * b.y - a.y * b.x⟩

/-- Modelled from the spec: `Vec3f::dot` lives in a header that is not among the sources;
it is the "dot product" of section 4.2. -/
def dot (a b : Vec3f) : ℚ := a.x * b.x + a.y * b.y + a.z * b.z

/-- Modelled from the spec: `Vec3f::operator*(float)` lives in a header that is not among the
sources; the shaded colour "is then scaled to the output color range" (section 4.5). -/
def scale (a : Vec3f) (k : ℚ) : Vec3f := ⟨a.x * k, a.y * k, a.z * k⟩

end Vec3f

/-! ## Culling, clipping, screen conversion -/

namespace SceneManager

/-- Method `SceneManager::backfaceCulling`; `none` when `curr_camera` does not index `camers`. -/
def backfaceCulling (s : SceneManager) (a b c : Vertex) : Option Bool :=
  match s.camers[s.curr_camera]? with
  | none => none
  | some cam =>
    let face_normal := Vec3f.cross (b.pos - a.pos) (c.pos - a.pos)
    let res1 := Vec3f.dot face_normal (a.pos - cam.position)
    let res2 := Vec3f.dot face_normal (b.pos - cam.position)
    let res3 := Vec3f.dot face_normal (c.pos - cam.position)
    if (res1 > 0) ∧ (res2 > 0) ∧ (res3 > 0) then some true else some false

/-- Method `SceneManager::clip`. -/
def clip (s : SceneManager) (v : Vertex) : Bool :=
  let w : ℚ := 1 / v.invW
  decide ((v.pos.x > -w ∨ |v.pos.x + w| < s.eps) ∧
          (v.pos.x < w ∨ |v.pos.x - w| < s.eps) ∧
          (v.pos.y > -w ∨ |v.pos.y + w| < s.eps) ∧
          (v.pos.y < w ∨ |v.pos.y - w| < s.eps) ∧
          (v.pos.z > 0 ∨ |v.pos.z| < s.eps) ∧
          (v.pos.z < w ∨ |v.pos.z - w| < s.eps))

end SceneManager

/-- Macro `NDCX_TO_RASTER`: `(ndc_x + 1.0f) * (width >> 1)`. -/
def NDCX_TO_RASTER (ndc_x : ℚ) (width : Int) : ℚ := (ndc_x + 1) * ((width >>> (1 : Nat) : Int) : ℚ)

/-- Macro `NDCY_TO_RASTER`: `(1.0f - ndc_y) * (height >> 1)`. -/
def NDCY_TO_RASTER (ndc_y : ℚ) (height : Int) : ℚ := (1 - ndc_y) * ((height >>> (1 : Nat) : Int) : ℚ)

/-- Function `denormolize`: perspective division of `x`, `y` and mapping to pixel coordinates. -/
def denormolize (width height : Int) (v : Vertex) : Vertex :=
  let x := v.pos.x * v.invW
  let y := v.pos.y * v.invW
  { v with pos := { v.pos with x := NDCX_TO_RASTER x width, y := NDCY_TO_RASTER y height } }

/-! ## Rasterizer -/

/-- The two helpers of `bary.h`, a header that is not among the sources: they are parameters
of the rasterizer. -/
structure Bary where
  toBarycentric : Vec3f → Vec3f → Vec3f → Vec3f → Vec3f
  baryCentricInterpolation : Vec3f → Vec3f → Vec3f → Vec3f → Vec3f

/-- Modelled from the spec: `bary.h` is not among the sources. `toBarycentric` gives the
"weights (u,v,w) expressing a point as a convex combination of a triangle's three vertices"
(in the screen plane, summing to 1); `baryCentricInterpolation` combines the three positions
with those weights. -/
def specBary : Bary where
  toBarycentric := fun p1 p2 p3 p =>
    let den := (p2.y - p3.y) * (p1.x - p3.x) + (p3.x - p2.x) * (p1.y - p3.y)
    let u := ((p2.y - p3.y) * (p.x - p3.x) + (p3.x - p2.x) * (p.y - p3.y)) / den
    let v := ((p3.y - p1.y) * (p.x - p3.x) + (p1.x - p3.x) * (p.y - p3.y)) / den
    ⟨u, v, 1 - u - v⟩
  baryCentricInterpolation := fun p1 p2 p3 bary =>
    ⟨p1.x * bary.x + p2.x * bary.y + p3.x * bary.z,
     p1.y * bary.x + p2.y * bary.y + p3.y * bary.z,
     p1.z * bary.x + p2.z * bary.y + p3.z * bary.z⟩

/-- The integers `lo, lo+1, ..., hi-1` in order: the values of `for (int i = lo; i < hi; i++)`. -/
def intRange (lo hi : Int) : List Int :=
  (List.range (hi - lo).toNat).map (fun (k : Nat) => lo + (k : Int))

/-- The acceptance test on the three barycentric weights in `rasterBarTriangle`. -/
def baryInside (eps : ℚ) (bary : Vec3f) : Bool :=
  decide ((bary.x > 0 ∨ |bary.x| < eps) ∧ (bary.x < 1 ∨ |bary.x - 1| < eps) ∧
          (bary.y > 0 ∨ |bary.y| < eps) ∧ (bary.y < 1 ∨ |bary.y - 1| < eps) ∧
          (bary.z > 0 ∨ |bary.z| < eps) ∧ (bary.z < 1 ∨ |bary.z - 1| < eps))

namespace SceneManager

/-- The candidate handed to `testAndSet` for pixel `(x, y)`: the interpolated position with
its `x` and `y` overwritten by the pixel coordinates. -/
def candidate (B : Bary) (p1 p2 p3 : Vec3f) (x y : Int) : Vec3f :=
  let bary := B.toBarycentric p1 p2 p3 ⟨(x : ℚ), (y : ℚ), 0⟩
  let interpolated := B.baryCentricInterpolation p1 p2 p3 bary
  { interpolated with x := (x : ℚ), y := (y : ℚ) }

/-- Body of the inner loop of `rasterBarTriangle` for the pixel `(x, y)`; the vertices are
already in screen space. -/
def rasterPixel (B : Bary) (s : SceneManager) (p1_ p2_ p3_ : Vertex) (x y : Int) :
    Option SceneManager :=
  let p1 := p1_.pos
  let p2 := p2_.pos
  let p3 := p3_.pos
  let bary := B.toBarycentric p1 p2 p3 ⟨(x : ℚ), (y : ℚ), 0⟩
  if baryInside s.eps bary then
    match s.testAndSet (candidate B p1 p2 p3 x y) with
    | none => none
    | some (true, s') =>
      let pixel_color := (s'.pixel_shader p1_ p2_ p3_ bary).scale 255
      some { s' with img := ⟨x, y, pixel_color⟩ :: s'.img }
    | some (false, s') => some s'
  else some s

/-- The inner loop: the pixels of row `y` in the order of `xs`. -/
def rasterRow (B : Bary) (p1_ p2_ p3_ : Vertex) (y : Int) :
    List Int → SceneManager → Option SceneManager
  | [], s => some s
  | x :: xs, s =>
    match rasterPixel B s p1_ p2_ p3_ x y with
    | none => none
    | some s' => rasterRow B p1_ p2_ p3_ y xs s'

/-- The outer loop: the rows in the order of `ys`, each over the columns `xs`. -/
def rasterRows (B : Bary) (p1_ p2_ p3_ : Vertex) (xs : List Int) :
    List Int → SceneManager → Option SceneManager
  | [], s => some s
  | y :: ys, s =>
    match rasterRow B p1_ p2_ p3_ y xs s with
    | none => none
    | some s' => rasterRows B p1_ p2_ p3_ xs ys s'

/-- The part of `rasterBarTriangle` after screen conversion: bounding box and traversal. -/
def traverse (B : Bary) (s : SceneManager) (p1_ p2_ p3_ : Vertex) : Option SceneManager :=
  let p1 := p1_.pos
  let p2 := p2_.pos
  let p3 := p3_.pos
  let sx : Int := ⌊min (min p1.x p2.x) p3.x⌋
  let ex : Int := ⌈max (max p1.x p2.x) p3.x⌉
  let sy : Int := ⌊min (min p1.y p2.y) p3.y⌋
  let ey : Int := ⌈max (max p1.y p2.y) p3.y⌉
  rasterRows B p1_ p2_ p3_ (intRange sx ex) (intRange sy ey) s

/-- Method `SceneManager::rasterBarTriangle`: the clip gate, then screen conversion and
traversal. -/
def rasterBarTriangle (B : Bary) (s : SceneManager) (p1_ p2_ p3_ : Vertex) :
    Option SceneManager :=
  if (!s.clip p1_ && !s.clip p2_ && !s.clip p3_) then some s
  else
    traverse B s (denormolize s.width s.height p1_) (denormolize s.width s.height p2_)
      (denormolize s.width s.height p3_)

end SceneManager

namespace SceneManager

/-- The single test that C23 compares `backfaceCulling` with: cull exactly when the face
normal `n = (b - a) x (c - a)` has a positive dot product with `a - cam`. -/
def backfaceCullingSingle (s : SceneManager) (a b c : Vertex) : Option Bool :=
  match s.camers[s.curr_camera]? with
  | none => none
  | some cam =>
    some (decide (Vec3f.dot (Vec3f.cross (b.pos - a.pos) (c.pos - a.pos))
      (a.pos - cam.position) > 0))

end SceneManager

/-! ## Geometry primitives (`corse/primitive.cpp`)

`quadraticRoots` works on `double` and calls `sqrt`: it is embedded over an arbitrary ordered
field `K` with the square-root function as an argument, so that it runs on `ℚ` and is stated
on `ℝ` with `Real.sqrt`. `BoundingBox::intersect` works on `float`: `interval` and
`intersect` are its body with exact operations on `ℚ`, `intervalFl` and `intersectFl`
further down the same body with every operation rounded. -/

/-- Macro `SIGN`: `-1` for a negative argument, `1` otherwise. -/
def SIGN {K : Type} [LinearOrderedField K] (x : K) : Int := if x < 0 then -1 else 1

/-- Function `quadraticRoots`: the count returned and the array `roots[2]` after the call
(`roots` is the array before the call). -/
def quadraticRoots {K : Type} [LinearOrderedField K] (sqrt : K → K) (A B C : K)
    (roots : K × K) : Nat × (K × K) :=
  if A = 0 then
    if B = 0 then (0, roots)
    else (1, (-C / B, roots.2))
  else
    let D := B * B - 4 * A * C
    if D < 0 then (0, roots)
    else
      let q := -(B + ((SIGN B : Int) : K) * sqrt D) / 2
      let r0 := q / A
      if q ≠ 0 then (2, (r0, C / q))
      else (2, (r0, r0))

/-- Ray of `primitive.h`, with the members `BoundingBox::intersect` reads: origin, inverse
direction and the three sign entries (`int sign[3]`), next to the direction they come from. -/
structure Ray where
  origin : Vec3f
  direction : Vec3f
  invdirection : Vec3f
  sign0 : Int
  sign1 : Int
  sign2 : Int
  deriving DecidableEq

/-- Axis-aligned box: the two corners `bounds[0]` (minimum) and `bounds[1]` (maximum). -/
structure BoundingBox where
  bounds0 : Vec3f
  bounds1 : Vec3f
  deriving DecidableEq

namespace BoundingBox

/-- Read `bounds[i]`; `none` when `i` is outside the two-element array. -/
def boundsAt (b : BoundingBox) (i : Int) : Option Vec3f :=
  if i = 0 then some b.bounds0 else if i = 1 then some b.bounds1 else none

/-- The body of `BoundingBox::intersect` up to its last statement, with exact operations
(`intervalFl` at the identity for rounding): `none` when a sign entry indexes outside
`bounds`, `some none` when one of the two early `return false` is taken,
`some (some (tmin, tmax))` with the values `tmin`, `tmax` have at the final `return`. -/
def interval (b : BoundingBox) (r : Ray) : Option (Option (ℚ × ℚ)) :=
  match b.boundsAt r.sign0, b.boundsAt (1 - r.sign0), b.boundsAt r.sign1,
      b.boundsAt (1 - r.sign1) with
  | some bx0, some bx1, some by0, some by1 =>
    let tmin := (bx0.x - r.origin.x) * r.invdirection.x
    let tmax := (bx1.x - r.origin.x) * r.invdirection.x
    let tymin := (by0.y - r.origin.y) * r.invdirection.y
    let tymax := (by1.y - r.origin.y) * r.invdirection.y
    if (tmin > tymax) ∨ (tymin > tmax) then some none
    else
      let tmin := if tymin > tmin then tymin else tmin
      let tmax := if tymax < tmax then tymax else tmax
      match b.boundsAt r.sign2, b.boundsAt (1 - r.sign2) with
      | some bz0, some bz1 =>
        let tzmin := (bz0.z - r.origin.z) * r.invdirection.z
        let tzmax := (bz1.z - r.origin.z) * r.invdirection.z
        if (tmin > tzmax) ∨ (tzmin > tmax) then some none
        else
          let tmin := if tzmin > tmin then tzmin else tmin
          let tmax := if tzmax < tmax then tzmax else tmax
          some (some (tmin, tmax))
      | _, _ => none
  | _, _, _, _ => none

/-- Method `BoundingBox::intersect` with exact operations: the early returns give false, the
final statement is `return (SIGN(tmin) == SIGN(tmax))`. -/
def intersect (b : BoundingBox) (r : Ray) : Option Bool :=
  match b.interval r with
  | none => none
  | some none => some false
  | some (some (tmin, tmax)) => some (decide (SIGN tmin = SIGN tmax))

end BoundingBox

/-- The ray's precomputed members agree with its direction: every direction component is
non-zero, the inverse direction is its reciprocal, and a sign entry is 1 when the inverse
component is negative and 0 otherwise. -/
def Ray.Consistent (r : Ray) : Prop :=
  (r.direction.x ≠ 0 ∧ r.direction.y ≠ 0 ∧ r.direction.z ≠ 0) ∧
  (r.invdirection.x = 1 / r.direction.x ∧ r.invdirection.y = 1 / r.direction.y ∧
    r.invdirection.z = 1 / r.direction.z) ∧
  (r.sign0 = (if r.invdirection.x < 0 then 1 else 0) ∧
    r.sign1 = (if r.invdirection.y < 0 then 1 else 0) ∧
    r.sign2 = (if r.invdirection.z < 0 then 1 else 0))

/-- The box has `min < max` on each axis. -/
def BoundingBox.Proper (b : BoundingBox) : Prop :=
  b.bounds0.x < b.bounds1.x ∧ b.bounds0.y < b.bounds1.y ∧ b.bounds0.z < b.bounds1.z

/-- The point lies strictly inside the box. -/
def BoundingBox.StrictlyInside (b : BoundingBox) (p : Vec3f) : Prop :=
  (b.bounds0.x < p.x ∧ p.x < b.bounds1.x) ∧ (b.bounds0.y < p.y ∧ p.y < b.bounds1.y) ∧
  (b.bounds0.z < p.z ∧ p.z < b.bounds1.z)

/-- The point lies in the closed box. -/
def BoundingBox.Contains (b : BoundingBox) (p : Vec3f) : Prop :=
  (b.bounds0.x ≤ p.x ∧ p.x ≤ b.bounds1.x) ∧ (b.bounds0.y ≤ p.y ∧ p.y ≤ b.bounds1.y) ∧
  (b.bounds0.z ≤ p.z ∧ p.z ≤ b.bounds1.z)

/-- The point of the ray at parameter `t`. -/
def Ray.pointAt (r : Ray) (t : ℚ) : Vec3f :=
  ⟨r.origin.x + t * r.direction.x, r.origin.y + t * r.direction.y,
   r.origin.z + t * r.direction.z⟩

/-- The box has `min <= max` on each axis. -/
def BoundingBox.Ordered (b : BoundingBox) : Prop :=
  b.bounds0.x ≤ b.bounds1.x ∧ b.bounds0.y ≤ b.bounds1.y ∧ b.bounds0.z ≤ b.bounds1.z

/-! ## Rounded arithmetic (`float`)

`BoundingBox::intersect` computes in `float`. Where a statement is about what the rounding of
the operations does to the result, the operations are rounded by a function `fl`; `fl32` is
the rounding of IEEE 754 binary32 (to nearest, ties to even, with gradual underflow).
Overflow to an infinity is outside the model. -/

/-- Rounding to the nearest integer, ties to the even one. -/
def roundEven (x : ℚ) : Int :=
  if x - (⌊x⌋ : ℚ) < 1 / 2 then ⌊x⌋
  else if x - (⌊x⌋ : ℚ) > 1 / 2 then ⌊x⌋ + 1
  else if ⌊x⌋ % 2 = 0 then ⌊x⌋ else ⌊x⌋ + 1

/-- The spacing of the binary32 numbers around `x`: `2 ^ (e - 23)` for
`2 ^ e <= |x| < 2 ^ (e + 1)`, and `2 ^ (-149)` below the smallest normal number. -/
def ulp32 (x : ℚ) : ℚ := (2 : ℚ) ^ (max (Int.log 2 |x|) (-126) - 23)

/-- The binary32 number nearest to `x`, ties to even. -/
def fl32 (x : ℚ) : ℚ := (roundEven (x / ulp32 x) : ℚ) * ulp32 x

namespace BoundingBox

/-- The body of `BoundingBox::intersect` up to its last statement, every subtraction and
multiplication rounded by `fl`: `none` when a sign entry indexes outside `bounds`,
`some none` when one of the two early `return false` is taken, `some (some (tmin, tmax))`
with the values `tmin`, `tmax` have at the final `return`. -/
def intervalFl (fl : ℚ → ℚ) (b : BoundingBox) (r : Ray) : Option (Option (ℚ × ℚ)) :=
  match b.boundsAt r.sign0, b.boundsAt (1 - r.sign0), b.boundsAt r.sign1,
      b.boundsAt (1 - r.sign1) with
  | some bx0, some bx1, some by0, some by1 =>
    let tmin := fl (fl (bx0.x - r.origin.x) * r.invdirection.x)
    let tmax := fl (fl (bx1.x - r.origin.x) * r.invdirection.x)
    let tymin := fl (fl (by0.y - r.origin.y) * r.invdirection.y)
    let tymax := fl (fl (by1.y - r.origin.y) * r.invdirection.y)
    if (tmin > tymax) ∨ (tymin > tmax) then some none
    else
      let tmin := if tymin > tmin then tymin else tmin
      let tmax := if tymax < tmax then tymax else tmax
      match b.boundsAt r.sign2, b.boundsAt (1 - r.sign2) with
      | some bz0, some bz1 =>
        let tzmin := fl (fl (bz0.z - r.origin.z) * r.invdirection.z)
        let tzmax := fl (fl (bz1.z - r.origin.z) * r.invdirection.z)
        if (tmin > tzmax) ∨ (tzmin > tmax) then some none
        else
          let tmin := if tzmin > tmin then tzmin else tmin
          let tmax := if tzmax < tmax then tzmax else tmax
          some (some (tmin, tmax))
      | _, _ => none
  | _, _, _, _ => none

/-- Method `BoundingBox::intersect` with every operation rounded by `fl`. -/
def intersectFl (fl : ℚ → ℚ) (b : BoundingBox) (r : Ray) : Option Bool :=
  match b.intervalFl fl r with
  | none => none
  | some none => some false
  | some (some (tmin, tmax)) => some (decide (SIGN tmin = SIGN tmax))

end BoundingBox

/-- The sign entries agree with the inverse direction: an entry is 1 when the inverse
component is negative and 0 otherwise. -/
def Ray.SignsConsistent (r : Ray) : Prop :=
  r.sign0 = (if r.invdirection.x < 0 then 1 else 0) ∧
  r.sign1 = (if r.invdirection.y < 0 then 1 else 0) ∧
  r.sign2 = (if r.invdirection.z < 0 then 1 else 0)

/-- Enumeration `Light::light_type`. -/
inductive Light.light_type where
  | ambient
  | point
  | directional
  deriving DecidableEq

/-- The enumerators of `trans_type` that occur in `manager.cpp`. -/
inductive trans_type where
  | shift_x | shift_y | shift_z
  | rot_x | rot_y | rot_z
  | scale_x | scale_y | scale_z
  | up_y | down_y
  deriving DecidableEq

/-- Face of a model: three vertices `a`, `b`, `c`. -/
structure Face where
  a : Vertex
  b : Vertex
  c : Vertex
  deriving DecidableEq

/-- A model of the collection (`Model*`, possibly a `Light`): the members the manager touches.
`uid` is what `getUid()` returns, `is_object` what `isObject()` returns (false for a `Light`),
`t` and `color_intensity` are the `Light` members, `body` stands for the rest of the object
(transform, colour), which only the model's own methods touch. -/
structure Model where
  uid : Nat
  is_object : Bool
  faces : List Face
  has_texture : Bool
  texture : QImage
  specular : ℚ
  reflective : ℚ
  refractive : ℚ
  t : Light.light_type
  color_intensity : Vec3f
  body : List ℚ
  deriving DecidableEq

/-- What the manager calls but the sources do not show. -/
structure Externals where
  bary : Bary
  shiftX : Model → ℚ → Model
  shiftY : Model → ℚ → Model
  shiftZ : Model → ℚ → Model
  rotateX : Model → ℚ → Model
  rotateY : Model → ℚ → Model
  rotateZ : Model → ℚ → Model
  scaleX : Model → ℚ → Model
  scaleY : Model → ℚ → Model
  scaleZ : Model → ℚ → Model
  setColor : Model → Vec3f → Model
  newModel : String → Nat → Int → Model
  newLight : Light.light_type → String → Nat → Model
  vertex_shader : Vertex → Model → Camera → Vertex
  geom_shader : Vertex → Camera → Vertex
  colorShader : Vertex → Vertex → Vertex → Vec3f → Vec3f
  textureShader : QImage → Vertex → Vertex → Vertex → Vec3f → Vec3f

/-- The whole `SceneManager` object: the rendering core above, the model collection with its
counters, and two observations of the display side: the image last handed to `show` and the
number of `render_all` calls made so far. -/
structure Manager where
  core : SceneManager
  models : List Model
  models_index : Nat
  current_model : Nat
  presented : QImage
  render_calls : Nat

namespace SceneManager

/-- Method `SceneManager::rasterize`, the loop over the faces of the model. -/
def rasterizeFaces (X : Externals) (model : Model) (cam : Camera) :
    List Face → SceneManager → Option SceneManager
  | [], s => some s
  | face :: rest, s =>
    let a := X.vertex_shader face.a model cam
    let b := X.vertex_shader face.b model cam
    let c := X.vertex_shader face.c model cam
    match s.backfaceCulling a b c with
    | none => none
    | some true => rasterizeFaces X model cam rest s
    | some false =>
      match s.rasterBarTriangle X.bary (X.geom_shader a cam) (X.geom_shader b cam)
          (X.geom_shader c cam) with
      | none => none
      | some s' => rasterizeFaces X model cam rest s'

/-- Method `SceneManager::rasterize`; `none` when `curr_camera` does not index `camers`. -/
def rasterize (X : Externals) (s : SceneManager) (model : Model) : Option SceneManager :=
  match s.camers[s.curr_camera]? with
  | none => none
  | some cam => rasterizeFaces X model cam model.faces s

/-- The loop of `render_all` over the models: ambient lights are skipped, every other model
selects the pixel shader and is rasterized. -/
def renderModels (X : Externals) : List Model → SceneManager → Option SceneManager
  | [], s => some s
  | model :: rest, s =>
    if !model.is_object && decide (model.t = Light.light_type.ambient) then
      renderModels X rest s
    else
      let s1 : SceneManager :=
        { s with pixel_shader :=
            (if model.has_texture then X.textureShader model.texture else X.colorShader) }
      match rasterize X s1 model with
      | none => none
      | some s2 => renderModels X rest s2

/-- Method `SceneManager::show`: the image is handed to the display. -/
def showFrame (m : Manager) : Manager := { m with presented := m.core.img }

/-- Method `SceneManager::render_all`: clear the image and the depth buffer, draw the models,
show the result. -/
def render_all (X : Externals) (m : Manager) : Option Manager :=
  match renderModels X m.models m.core.clearFrame with
  | none => none
  | some core' =>
    some (showFrame { m with core := core', render_calls := m.render_calls + 1 })

/-- Apply `f` to `models[current_model]`; `none` when the index is outside the collection. -/
def onCurrent (m : Manager) (f : Model → Model) : Option Manager :=
  match m.models[m.current_model]? with
  | none => none
  | some model => some { m with models := m.models.set m.current_model (f model) }

/-- Method `SceneManager::shift`. -/
def shift (X : Externals) (m : Manager) (t : trans_type) (val : ℚ) : Option Manager :=
  let moved : Option Manager :=
    match t with
    | trans_type.shift_x => onCurrent m (fun model => X.shiftX model val)
    | trans_type.shift_y => onCurrent m (fun model => X.shiftY model val)
    | trans_type.shift_z => onCurrent m (fun model => X.shiftZ model val)
    | _ => some m
  moved.bind (render_all X)

/-- Method `SceneManager::rotate`. -/
def rotate (X : Externals) (m : Manager) (t : trans_type) (angle : ℚ) : Option Manager :=
  let moved : Option Manager :=
    match t with
    | trans_type.rot_x => onCurrent m (fun model => X.rotateX model angle)
    | trans_type.rot_y => onCurrent m (fun model => X.rotateY model angle)
    | trans_type.rot_z => onCurrent m (fun model => X.rotateZ model angle)
    | _ => some m
  moved.bind (render_all X)

/-- Method `SceneManager::scale`. -/
def scale (X : Externals) (m : Manager) (t : trans_type) (factor : ℚ) : Option Manager :=
  let moved : Option Manager :=
    match t with
    | trans_type.scale_x => onCurrent m (fun model => X.scaleX model factor)
    | trans_type.scale_y => onCurrent m (fun model => X.scaleY model factor)
    | trans_type.scale_z => onCurrent m (fun model => X.scaleZ model factor)
    | _ => some m
  moved.bind (render_all X)

/-- Method `SceneManager::setColor`. -/
def setColor (X : Externals) (m : Manager) (color : Vec3f) : Option Manager :=
  (onCurrent m (fun model => X.setColor model color)).bind (render_all X)

/-- Method `SceneManager::setTexture`. -/
def setTexture (X : Externals) (m : Manager) (img : QImage) : Option Manager :=
  (onCurrent m (fun model =>
      { (X.setColor { model with has_texture := true } ⟨1, 1, 1⟩) with texture := img })).bind
    (render_all X)

/-- Method `SceneManager::setFlagTexture`. -/
def setFlagTexture (X : Externals) (m : Manager) (flag : Bool) (color : Vec3f) :
    Option Manager :=
  (onCurrent m (fun model => X.setColor { model with has_texture := flag } color)).bind
    (render_all X)

/-- Method `SceneManager::setSpecular`. -/
def setSpecular (X : Externals) (m : Manager) (val : ℚ) : Option Manager :=
  (onCurrent m (fun model => { model with specular := val })).bind (render_all X)

/-- Method `SceneManager::setReflective`. -/
def setReflective (X : Externals) (m : Manager) (val : ℚ) : Option Manager :=
  (onCurrent m (fun model => { model with reflective := val })).bind (render_all X)

/-- Method `SceneManager::setRefraction`. -/
def setRefraction (X : Externals) (m : Manager) (refract : ℚ) : Option Manager :=
  (onCurrent m (fun model => { model with refractive := refract })).bind (render_all X)

/-- Method `SceneManager::setIntensity`; `none` when the current model is not a `Light` (the
`dynamic_cast` gives a null pointer, which is then written through). -/
def setIntensity (X : Externals) (m : Manager) (intens : ℚ) : Option Manager :=
  match m.models[m.current_model]? with
  | none => none
  | some model =>
    if model.is_object then none
    else
      render_all X { m with models :=
        (m.models.set m.current_model
          { model with color_intensity := ⟨intens, intens, intens⟩ }) }

/-- Method `SceneManager::setAmbIntensity`: every ambient light gets the intensity; the
function ends with the loop. -/
def setAmbIntensity (m : Manager) (intensity : ℚ) : Manager :=
  { m with models :=
      (m.models.map (fun model =>
        if model.is_object then model
        else if model.t = Light.light_type.ambient then
          { model with color_intensity := ⟨intensity, intensity, intensity⟩ }
        else model)) }

end SceneManager

/-- Constant `cube_n`. -/
def cube_n : Int := 512

/-- Constant `other_n`. -/
def other_n : Int := 20

/-- Constant `pyramid_n`. -/
def pyramid_n : Int := 512

namespace SceneManager

/-- The table `files` of `uploadModel`: model name to path. -/
def modelFiles : List (String × String) :=
  [("Куб", "C:\\Users\\gimna\\Desktop\\BMSTU\\KG\\Praktika\\Frolov\\programm\\models\\cube.obj"),
   ("Сфера",
    "C:\\Users\\gimna\\Desktop\\BMSTU\\KG\\Praktika\\Frolov\\programm\\models\\less_sphere.obj"),
   ("Пирамида",
    "C:\\Users\\gimna\\Desktop\\BMSTU\\KG\\Praktika\\Frolov\\programm\\models\\pyr.obj"),
   ("Конус",
    "C:\\Users\\gimna\\Desktop\\BMSTU\\KG\\Praktika\\Frolov\\programm\\models\\conus_.obj"),
   ("Цилиндр",
    "C:\\Users\\gimna\\Desktop\\BMSTU\\KG\\Praktika\\Frolov\\programm\\models\\cyl_new.obj")]

/-- The table `n_power` of `uploadModel`. -/
def n_power : List (String × Int) :=
  [("Куб", cube_n), ("Сфера", other_n), ("Пирамида", pyramid_n), ("Конус", other_n),
   ("Цилиндр", other_n)]

/-- The table `files` of `uploadLight`: light name to path. -/
def lightFiles : List (String × String) :=
  [("Точечный источник",
    "C:\\Users\\gimna\\Desktop\\BMSTU\\KG\\Praktika\\Frolov\\programm\\models\\icosphere.obj"),
   ("Направленный",
    "C:\\Users\\gimna\\Desktop\\BMSTU\\KG\\Praktika\\Frolov\\programm\\models\\arrow.obj")]

/-- Method `SceneManager::uploadModel`: the state and the caller's `uid` after the call;
`n_power.at(name)` throws for a name missing from `n_power`, which is `none`. -/
def uploadModel (X : Externals) (m : Manager) (name : String) (uid : Nat) :
    Option (Manager × Nat) :=
  match modelFiles.lookup name with
  | none => some (m, uid)
  | some path =>
    let uid' := m.models_index
    let m1 : Manager := { m with models_index := (m.models_index + 1) % 2 ^ 32 }
    match n_power.lookup name with
    | none => none
    | some n =>
      match render_all X { m1 with models := m1.models ++ [X.newModel path uid' n] } with
      | none => none
      | some m2 => some (m2, uid')

/-- Method `SceneManager::uploadLight`: the state and the caller's `uid` after the call. -/
def uploadLight (X : Externals) (m : Manager) (name : String) (uid : Nat) :
    Option (Manager × Nat) :=
  match lightFiles.lookup name with
  | none => some (m, uid)
  | some path =>
    let uid' := m.models_index
    let m1 : Manager := { m with models_index := (m.models_index + 1) % 2 ^ 32 }
    let m2 : Manager :=
      if name = "Точечный источник" then
        { m1 with models := m1.models ++ [X.newLight Light.light_type.point path uid'] }
      else if name = "Направленный" then
        { m1 with models := m1.models ++ [X.newLight Light.light_type.directional path uid'] }
      else m1
    match render_all X m2 with
    | none => none
    | some m3 => some (m3, uid')

/-- A run of uploads, each a light (`true`) or a model (`false`) with its name: the final
state and the uids handed out, oldest first (a call that leaves the caller's `uid` alone
hands out none). -/
def uploadAll (X : Externals) : List (Bool × String) → Manager → Option (Manager × List Nat)
  | [], m => some (m, [])
  | (isLight, name) :: rest, m =>
    let known := if isLight then (lightFiles.lookup name).isSome
      else (modelFiles.lookup name).isSome
    match (if isLight then uploadLight X m name 0 else uploadModel X m name 0) with
    | none => none
    | some (m', uid) =>
      match uploadAll X rest m' with
      | none => none
      | some (m'', uids) => some (m'', if known then uid :: uids else uids)

end SceneManager

namespace SceneManager

/-- The loop of `setCurrentModel`: the value of the counter `i` when the loop stops, having
started at `i` with the models still to visit. -/
def firstWithUid (uid : Nat) : List Model → Nat → Nat
  | [], i => i
  | model :: rest, i => if model.uid = uid then i else firstWithUid uid rest (i + 1)

/-- Method `SceneManager::setCurrentModel`. -/
def setCurrentModel (m : Manager) (uid : Nat) : Manager :=
  { m with current_model := firstWithUid uid m.models 0 }

/-- Method `SceneManager::removeModel`; `none` when `models.begin() + current_model` is not
the position of an element. -/
def removeModel (X : Externals) (m : Manager) : Option Manager :=
  if m.current_model < m.models.length then
    render_all X { m with models := m.models.eraseIdx m.current_model }
  else none

end SceneManager

/-! ## Mesh loader (`corse/OBJ_Loader.h`)

`std::string` is a Lean `String`, one `Char` standing for one `char`; `size_t` arithmetic is
taken modulo `2^64`; a thrown C++ exception is the `Except.error` of the result. -/

namespace objl

/-- Structure `Vector2`. -/
structure Vector2 where
  X : ℚ
  Y : ℚ
  deriving DecidableEq

/-- Structure `Vector3`. -/
structure Vector3 where
  X : ℚ
  Y : ℚ
  Z : ℚ
  deriving DecidableEq

/-- Structure `Vertex` of the loader: position, normal, texture coordinate. -/
structure Vertex where
  Position : Vector3
  Normal : Vector3
  TextureCoordinate : Vector2
  deriving DecidableEq

/-- Structure `Material`. -/
structure Material where
  name : String
  Ka : Vector3
  Kd : Vector3
  Ks : Vector3
  Ns : ℚ
  Ni : ℚ
  d : ℚ
  illum : Int
  map_Ka : String
  map_Kd : String
  map_Ks : String
  map_Ns : String
  map_d : String
  map_bump : String
  deriving DecidableEq

/-- Structure `Mesh`: name, vertices, indices (`unsigned int`), material. -/
structure Mesh where
  MeshName : String
  Vertices : List Vertex
  Indices : List Nat
  MeshMaterial : Material
  deriving DecidableEq

/-- The data members of class `Loader`. -/
structure Loader where
  LoadedMeshes : List Mesh
  LoadedVertices : List Vertex
  LoadedIndices : List Nat
  LoadedMaterials : List Material
  deriving DecidableEq

/-- The C++ exceptions the modelled code can throw. -/
inductive Exception where
  | out_of_range
  deriving DecidableEq

/-- Member `std::string::substr(pos, len)`: throws `std::out_of_range` when `pos` exceeds the
size, otherwise gives the at most `len` characters from `pos` on. -/
def substr (s : String) (pos len : Nat) : Except Exception String :=
  if pos > s.length then Except.error Exception.out_of_range
  else Except.ok (String.mk ((s.data.drop pos).take len))

/-- Subtraction of `size_t` values: unsigned, modulo `2^64`. -/
def size_sub (a b : Nat) : Nat := (a + 2 ^ 64 - b % 2 ^ 64) % 2 ^ 64

/-- Method `Loader::LoadFile` from the point where `Path.substr(Path.size() - 4, 4)` has been
evaluated to `r`: an exception propagates; otherwise the extension test and the test that the
file opens. What follows these two guards, from the three `clear()` calls to the final
`return`, is the argument `body`, and the file system is the argument `openFile` (the lines
of the file when it opens). -/
def Loader.LoadFile_from (openFile : String → Option (List String))
    (body : Loader → List String → Except Exception (Bool × Loader)) (L : Loader)
    (Path : String) (r : Except Exception String) : Except Exception (Bool × Loader) :=
  match r with
  | Except.error e => Except.error e
  | Except.ok ext =>
    if ext ≠ ".obj" then Except.ok (false, L)
    else
      match openFile Path with
      | none => Except.ok (false, L)
      | some lines => body L lines

/-- Method `Loader::LoadFile`. -/
def Loader.LoadFile (openFile : String → Option (List String))
    (body : Loader → List String → Except Exception (Bool × Loader)) (L : Loader)
    (Path : String) : Except Exception (Bool × Loader) :=
  Loader.LoadFile_from openFile body L Path (substr Path (size_sub Path.length 4) 4)

end objl

/-! ## Mesh loader: vectors, index lookup, splitting, triangulation (`corse/OBJ_Loader.h`)

`sqrtf` and `acosf` of `<cmath>` and `std::stoi` are arguments of the functions that call
them. Division of a vector by a zero magnitude (an infinity or NaN in `float`) is outside the
model: the statements below reach `ProjV3` only with a normal of non-zero magnitude or with
a zero numerator. -/

namespace objl

/-- Operator `Vector3::operator+`. -/
def Vector3.add (a right : Vector3) : Vector3 := ⟨a.X + right.X, a.Y + right.Y, a.Z + right.Z⟩

/-- Operator `Vector3::operator-`. -/
def Vector3.sub (a right : Vector3) : Vector3 := ⟨a.X - right.X, a.Y - right.Y, a.Z - right.Z⟩

/-- Operator `Vector3::operator*(float)`. -/
def Vector3.mul (a : Vector3) (other : ℚ) : Vector3 := ⟨a.X * other, a.Y * other, a.Z * other⟩

/-- Operator `Vector3::operator/(float)`. -/
def Vector3.div (a : Vector3) (other : ℚ) : Vector3 := ⟨a.X / other, a.Y / other, a.Z / other⟩

instance : Add Vector3 := ⟨Vector3.add⟩

instance : Sub Vector3 := ⟨Vector3.sub⟩

instance : HMul Vector3 ℚ Vector3 := ⟨Vector3.mul⟩

instance : HDiv Vector3 ℚ Vector3 := ⟨Vector3.div⟩

/-- A default-constructed `Vertex`: all members zero. -/
def Vertex.zero : Vertex := ⟨⟨0, 0, 0⟩, ⟨0, 0, 0⟩, ⟨0, 0⟩⟩

/-- Conversion `int(n)` of a `size_t` value: the low 32 bits read as a signed number. -/
def int_cast (n : Nat) : Int := (((n + 2 ^ 31) % 2 ^ 32 : Nat) : Int) - 2 ^ 31

namespace math

/-- Function `math::CrossV3`. -/
def CrossV3 (a b : Vector3) : Vector3 :=
  ⟨a.Y * b.Z - a.Z * b.Y, a.Z * b.X - a.X * b.Z, a.X * b.Y - a.Y * b.X⟩

/-- Function `math::MagnitudeV3`. -/
def MagnitudeV3 (sqrtf : ℚ → ℚ) (v : Vector3) : ℚ := sqrtf (v.X ^ 2 + v.Y ^ 2 + v.Z ^ 2)

/-- Function `math::DotV3`. -/
def DotV3 (a b : Vector3) : ℚ := (a.X * b.X) + (a.Y * b.Y) + (a.Z * b.Z)

/-- Function `math::AngleBetweenV3`. -/
def AngleBetweenV3 (sqrtf acosf : ℚ → ℚ) (a b : Vector3) : ℚ :=
  acosf (DotV3 a b / (MagnitudeV3 sqrtf a * MagnitudeV3 sqrtf b))

/-- Function `math::ProjV3`. -/
def ProjV3 (sqrtf : ℚ → ℚ) (a b : Vector3) : Vector3 :=
  let bn : Vector3 := b / MagnitudeV3 sqrtf b
  bn * DotV3 a bn

end math

namespace algorithm

/-- Function `algorithm::SameSide`. -/
def SameSide (p1 p2 a b : Vector3) : Bool :=
  let cp1 := math.CrossV3 (b - a) (p1 - a)
  let cp2 := math.CrossV3 (b - a) (p2 - a)
  if math.DotV3 cp1 cp2 ≥ 0 then true else false

/-- Function `algorithm::GenTriNormal`. -/
def GenTriNormal (t1 t2 t3 : Vector3) : Vector3 :=
  let u := t2 - t1
  let v := t3 - t1
  math.CrossV3 u v

/-- Function `algorithm::inTriangle`. -/
def inTriangle (sqrtf : ℚ → ℚ) (point tri1 tri2 tri3 : Vector3) : Bool :=
  let within_tri_prisim := SameSide point tri1 tri2 tri3 && SameSide point tri2 tri1 tri3
    && SameSide point tri3 tri1 tri2
  if !within_tri_prisim then false
  else
    let n := GenTriNormal tri1 tri2 tri3
    let proj := math.ProjV3 sqrtf point n
    if math.MagnitudeV3 sqrtf proj = 0 then true else false

/-- The loop of `algorithm::split` from index `i` on, with `out` and `temp` as they stand;
one unit of `fuel` per iteration, `none` when it runs out. After `i += token.size() - 1` the
loop's own `i++` leaves `i + token.size()`. -/
def split_loop (inp token : String) :
    Nat → Nat → List String → String → Option (Except Exception (List String))
  | 0, _, _, _ => none
  | fuel + 1, i, out, temp =>
    if (i : Int) < int_cast inp.length then
      match substr inp i token.length with
      | Except.error e => some (Except.error e)
      | Except.ok test =>
        if test = token then
          if temp ≠ "" then split_loop inp token fuel (i + token.length) (out ++ [temp]) ""
          else split_loop inp token fuel (i + 1) (out ++ [""]) temp
        else if i + token.length ≥ inp.length then
          some (Except.ok (out ++ [temp ++ test]))
        else split_loop inp token fuel (i + 1) out (temp ++ String.mk ((inp.data.drop i).take 1))
    else some (Except.ok out)

/-- Function `algorithm::split`: the vector `out` after the call. -/
def split (fuel : Nat) (inp token : String) : Option (Except Exception (List String)) :=
  split_loop inp token fuel 0 [] ""

/-- The position `getElement` addresses in a vector of `n` elements: `idx` at the last
statement. -/
def getElement_idx (stoi : String → Int) (n : Nat) (index : String) : Int :=
  let idx := stoi index
  if idx < 0 then int_cast n + idx else idx - 1

/-- Function `algorithm::getElement`; `none` when the position is outside the vector. -/
def getElement {T : Type} (stoi : String → Int) (elements : List T) (index : String) :
    Option T :=
  let idx := getElement_idx stoi elements.length index
  if 0 ≤ idx then elements[idx.toNat]? else none

end algorithm

/-- The loops of `VertexTriangluation` that create a triangle: for each `j` in turn, `j` is
pushed once for each of the three positions that `iVerts[j].Position` equals. -/
def pushMatches (p1 p2 p3 : Vector3) : List Vertex → Nat → List Nat → List Nat
  | [], _, oIndices => oIndices
  | v :: rest, j, oIndices =>
    let o1 := if v.Position = p1 then oIndices ++ [j] else oIndices
    let o2 := if v.Position = p2 then o1 ++ [j] else o1
    let o3 := if v.Position = p3 then o2 ++ [j] else o2
    pushMatches p1 p2 p3 rest (j + 1) o3

/-- The `while (true)` loop of `VertexTriangluation` with its inner `for` loop, at index `i`
of the `for` loop: one unit of `fuel` per iteration of the `for` loop and per new round of
the `while` loop, `none` when it runs out. `tVerts[k]` is read for `k` below the size only.
After `i = -1` the loop's own `i++` leaves 0. -/
def triangulate_loop (sqrtf acosf : ℚ → ℚ) (iVerts : List Vertex) :
    Nat → Nat → List Nat → List Vertex → Option (List Nat)
  | 0, _, _, _ => none
  | fuel + 1, i, oIndices, tVerts =>
    if i < tVerts.length then
      let pPrev := if i = 0 then tVerts.getD (tVerts.length - 1) Vertex.zero
        else tVerts.getD (i - 1) Vertex.zero
      let pCur := tVerts.getD i Vertex.zero
      let pNext := if i = tVerts.length - 1 then tVerts.getD 0 Vertex.zero
        else tVerts.getD (i + 1) Vertex.zero
      if tVerts.length = 3 then
        some (pushMatches pCur.Position pPrev.Position pNext.Position
          (iVerts.take tVerts.length) 0 oIndices)
      else if tVerts.length = 4 then
        let o1 := pushMatches pCur.Position pPrev.Position pNext.Position iVerts 0 oIndices
        let tempVec : Vector3 :=
          match tVerts.find? (fun v => v.Position != pCur.Position
              && v.Position != pPrev.Position && v.Position != pNext.Position) with
          | some v => v.Position
          | none => ⟨0, 0, 0⟩
        some (pushMatches pPrev.Position pNext.Position tempVec iVerts 0 o1)
      else
        let angle := math.AngleBetweenV3 sqrtf acosf (pPrev.Position - pCur.Position)
          (pNext.Position - pCur.Position) * (180 / 3.14159265359)
        if angle ≤ 0 ∧ angle ≥ 180 then
          triangulate_loop sqrtf acosf iVerts fuel (i + 1) oIndices tVerts
        else
          let inTri := iVerts.any (fun v =>
            algorithm.inTriangle sqrtf v.Position pPrev.Position pCur.Position pNext.Position
              && v.Position != pPrev.Position && v.Position != pCur.Position
              && v.Position != pNext.Position)
          if inTri then triangulate_loop sqrtf acosf iVerts fuel (i + 1) oIndices tVerts
          else
            triangulate_loop sqrtf acosf iVerts fuel 0
              (pushMatches pCur.Position pPrev.Position pNext.Position iVerts 0 oIndices)
              (tVerts.eraseP (fun v => v.Position == pCur.Position))
    else if oIndices.length = 0 then some oIndices
    else if tVerts.length = 0 then some oIndices
    else triangulate_loop sqrtf acosf iVerts fuel 0 oIndices tVerts

/-- Method `Loader::VertexTriangluation`: the vector `oIndices` after the call, `none` when
`fuel` iterations do not reach the end. -/
def Loader.VertexTriangluation (sqrtf acosf : ℚ → ℚ) (fuel : Nat) (oIndices : List Nat)
    (iVerts : List Vertex) : Option (List Nat) :=
  if iVerts.length < 3 then some oIndices
  else if iVerts.length = 3 then some (oIndices ++ [0, 1, 2])
  else triangulate_loop sqrtf acosf iVerts fuel 0 oIndices iVerts

end objl

/-! ## Auxiliary notions for the statements -/

/-- The content of one depth cell after the candidate depth `z` met the stored depth `d`. -/
def depthStep (eps d z : ℚ) : ℚ := if z < d ∨ |z - d| < eps then z else d

/-- The content of one depth cell after the candidate depths `zs` met it in order. -/
def depthRun (eps : ℚ) (d : ℚ) (zs : List ℚ) : ℚ := zs.foldl (depthStep eps) d

/-- Pixel `(x, y)` lies inside a `width` x `height` frame. -/
def inFrame (width height x y : Int) : Prop := (0 ≤ x ∧ x < width) ∧ (0 ≤ y ∧ y < height)

namespace SceneManager

/-- Two states agree on everything but the depth buffer and the image. -/
def SameSetup (s s' : SceneManager) : Prop :=
  s'.width = s.width ∧ s'.height = s.height ∧ s'.eps = s.eps ∧
  s'.camers = s.camers ∧ s'.curr_camera = s.curr_camera ∧ s'.pixel_shader = s.pixel_shader

/-- Effect of a stretch of rasterization confined to the pixels satisfying `P`: the buffer
keeps its shape, the setup is untouched, every new image write is at a pixel of `P`, and the
depth of every pixel outside `P` is what it was. -/
def Confined (P : Int → Int → Prop) (s s' : SceneManager) : Prop :=
  s'.WF ∧ s.SameSetup s' ∧
  (∃ new : List PixelWrite, s'.img = new ++ s.img ∧ ∀ w ∈ new, P w.x w.y) ∧
  (∀ i j, ¬P i j → getDepth s'.depthBuffer i j = getDepth s.depthBuffer i j)

end SceneManager

namespace BoundingBox

/-- The corner a ray enters first on an axis whose inverse direction component is `inv`:
`bounds[sign]` with `sign = 1` for a negative `inv`. -/
def near (b : BoundingBox) (inv : ℚ) : Vec3f := if inv < 0 then b.bounds1 else b.bounds0

/-- The corner a ray leaves last on an axis whose inverse direction component is `inv`:
`bounds[1 - sign]`. -/
def far (b : BoundingBox) (inv : ℚ) : Vec3f := if inv < 0 then b.bounds0 else b.bounds1

/-- Entry parameter of the `x` slab. -/
def txmin (b : BoundingBox) (r : Ray) : ℚ :=
  ((b.near r.invdirection.x).x - r.origin.x) * r.invdirection.x

/-- Exit parameter of the `x` slab. -/
def txmax (b : BoundingBox) (r : Ray) : ℚ :=
  ((b.far r.invdirection.x).x - r.origin.x) * r.invdirection.x

/-- Entry parameter of the `y` slab. -/
def tymin (b : BoundingBox) (r : Ray) : ℚ :=
  ((b.near r.invdirection.y).y - r.origin.y) * r.invdirection.y

/-- Exit parameter of the `y` slab. -/
def tymax (b : BoundingBox) (r : Ray) : ℚ :=
  ((b.far r.invdirection.y).y - r.origin.y) * r.invdirection.y

/-- Entry parameter of the `z` slab. -/
def tzmin (b : BoundingBox) (r : Ray) : ℚ :=
  ((b.near r.invdirection.z).z - r.origin.z) * r.invdirection.z

/-- Exit parameter of the `z` slab. -/
def tzmax (b : BoundingBox) (r : Ray) : ℚ :=
  ((b.far r.invdirection.z).z - r.origin.z) * r.invdirection.z

end BoundingBox

/-- The rendering core can draw: the depth buffer has the frame's shape and `curr_camera`
indexes `camers`. -/
def SceneManager.Ready (s : SceneManager) : Prop :=
  s.WF ∧ s.curr_camera < s.camers.length

/-- The characters of the fields `out`, each field followed by the separator `c`. -/
def objl.fieldsThen (c : Char) : List String → List Char
  | [] => []
  | s :: rest => s.data ++ c :: fieldsThen c rest

namespace BoundingBox

/-- Entry parameter of the `x` slab as computed with rounding `fl`. -/
def txminFl (fl : ℚ → ℚ) (b : BoundingBox) (r : Ray) : ℚ :=
  fl (fl ((b.near r.invdirection.x).x - r.origin.x) * r.invdirection.x)

/-- Exit parameter of the `x` slab as computed with rounding `fl`. -/
def txmaxFl (fl : ℚ → ℚ) (b : BoundingBox) (r : Ray) : ℚ :=
  fl (fl ((b.far r.invdirection.x).x - r.origin.x) * r.invdirection.x)

/-- Entry parameter of the `y` slab as computed with rounding `fl`. -/
def tyminFl (fl : ℚ → ℚ) (b : BoundingBox) (r : Ray) : ℚ :=
  fl (fl ((b.near r.invdirection.y).y - r.origin.y) * r.invdirection.y)

/-- Exit parameter of the `y` slab as computed with rounding `fl`. -/
def tymaxFl (fl : ℚ → ℚ) (b : BoundingBox) (r : Ray) : ℚ :=
  fl (fl ((b.far r.invdirection.y).y - r.origin.y) * r.invdirection.y)

/-- Entry parameter of the `z` slab as computed with rounding `fl`. -/
def tzminFl (fl : ℚ → ℚ) (b : BoundingBox) (r : Ray) : ℚ :=
  fl (fl ((b.near r.invdirection.z).z - r.origin.z) * r.invdirection.z)

/-- Exit parameter of the `z` slab as computed with rounding `fl`. -/
def tzmaxFl (fl : ℚ → ℚ) (b : BoundingBox) (r : Ray) : ℚ :=
  fl (fl ((b.far r.invdirection.z).z - r.origin.z) * r.invdirection.z)

/-- No operation of `intersect` on `b` and `r` is changed by the rounding `fl`: the six
differences and the six products are values that `fl` leaves alone. -/
def ExactRun (fl : ℚ → ℚ) (b : BoundingBox) (r : Ray) : Prop :=
  (∀ c : Vec3f, c = b.bounds0 ∨ c = b.bounds1 →
    fl (c.x - r.origin.x) = c.x - r.origin.x ∧
    fl (c.y - r.origin.y) = c.y - r.origin.y ∧
    fl (c.z - r.origin.z) = c.z - r.origin.z ∧
    fl ((c.x - r.origin.x) * r.invdirection.x) = (c.x - r.origin.x) * r.invdirection.x ∧
    fl ((c.y - r.origin.y) * r.invdirection.y) = (c.y - r.origin.y) * r.invdirection.y ∧
    fl ((c.z - r.origin.z) * r.invdirection.z) = (c.z - r.origin.z) * r.invdirection.z)

end BoundingBox

/-! ## Example scenes -/

/-- A flat white pixel shader. -/
def whiteShader : Vertex → Vertex → Vertex → Vec3f → Vec3f := fun _ _ _ _ => ⟨1, 1, 1⟩

/-- A 2 x 2 frame in the middle of a pass: cell `(0, 0)` holds depth 5, cell `(0, 1)` depth 7. -/
def scene2 : SceneManager where
  width := 2
  height := 2
  eps := 1 / 100000
  depthBuffer := [[5, 7], [FLT_MAX, FLT_MAX]]
  img := []
  camers := [⟨⟨0, 0, -1⟩⟩]
  curr_camera := 0
  pixel_shader := whiteShader

/-- A 64 x 64 frame right after the per-frame reset. -/
def scene64 : SceneManager where
  width := 64
  height := 64
  eps := 1 / 100000
  depthBuffer := List.replicate 64 (List.replicate 64 FLT_MAX)
  img := []
  camers := [⟨⟨0, 0, -1⟩⟩]
  curr_camera := 0
  pixel_shader := whiteShader

/-- A vertex at clip-space position `(x, y, z)` with `invW = 1`. -/
def vtx (x y z : ℚ) : Vertex := ⟨⟨x, y, z⟩, 1, ⟨0, 0, 1⟩, ⟨0, 0, 0⟩⟩

/-- Clip-space vertex of the test triangle that `denormolize 64 64` sends to `(10, 10)`. -/
def triA : Vertex := vtx (-11 / 16) (11 / 16) (1 / 2)

/-- Clip-space vertex of the test triangle that `denormolize 64 64` sends to `(50, 10)`. -/
def triB : Vertex := vtx (9 / 16) (11 / 16) (1 / 2)

/-- Clip-space vertex of the test triangle that `denormolize 64 64` sends to `(10, 50)`. -/
def triC : Vertex := vtx (-11 / 16) (-9 / 16) (1 / 2)

/-- The box `[0, 2] x [0, 2] x [0, 2]`. -/
def box2 : BoundingBox := ⟨⟨0, 0, 0⟩, ⟨2, 2, 2⟩⟩

/-- A ray from the centre `(1, 1, 1)` of `box2` with direction `(1, -2, 4)`. -/
def rayInside : Ray where
  origin := ⟨1, 1, 1⟩
  direction := ⟨1, -2, 4⟩
  invdirection := ⟨1, -1 / 2, 1 / 4⟩
  sign0 := 0
  sign1 := 1
  sign2 := 0

/-- A ray from `(3, -1, 0)`, outside `box2`, with direction `(-2, 2, 1)`: it is at the centre
`(1, 1, 1)` for `t = 1`. -/
def rayCentre : Ray where
  origin := ⟨3, -1, 0⟩
  direction := ⟨-2, 2, 1⟩
  invdirection := ⟨-1 / 2, 1 / 2, 1⟩
  sign0 := 1
  sign1 := 0
  sign2 := 0

/-- An ambient light with intensity 1, as `init` puts one into the collection. -/
def ambientLight : Model where
  uid := 0
  is_object := false
  faces := []
  has_texture := false
  texture := []
  specular := 0
  reflective := 0
  refractive := 0
  t := Light.light_type.ambient
  color_intensity := ⟨1, 1, 1⟩
  body := []

/-- Plain stand-ins for the externals: model methods that record their argument in `body`,
constructors that store the uid they are given, shaders that pass vertices through. -/
def plainExternals : Externals where
  bary := specBary
  shiftX := fun model val => { model with body := val :: model.body }
  shiftY := fun model val => { model with body := val :: model.body }
  shiftZ := fun model val => { model with body := val :: model.body }
  rotateX := fun model val => { model with body := val :: model.body }
  rotateY := fun model val => { model with body := val :: model.body }
  rotateZ := fun model val => { model with body := val :: model.body }
  scaleX := fun model val => { model with body := val :: model.body }
  scaleY := fun model val => { model with body := val :: model.body }
  scaleZ := fun model val => { model with body := val :: model.body }
  setColor := fun model color => { model with body := [color.x, color.y, color.z] }
  newModel := fun _ uid _ => { ambientLight with uid := uid, is_object := true }
  newLight := fun kind _ uid => { ambientLight with uid := uid, t := kind }
  vertex_shader := fun v _ _ => v
  geom_shader := fun v _ => v
  colorShader := whiteShader
  textureShader := fun _ => whiteShader

/-- A manager right after `init`: the 2 x 2 core, the ambient light as the only and current
model, one `render_all` call made. -/
def manager0 : Manager where
  core := scene2
  models := [ambientLight]
  models_index := 1
  current_model := 0
  presented := []
  render_calls := 1

/-- A reader of decimal integers with an optional leading minus sign, standing for
`std::stoi` in the examples. -/
def readInt (s : String) : Int :=
  match s.data with
  | '-' :: ds => -((ds.foldl (fun acc d => 10 * acc + (d.toNat - 48)) 0 : Nat) : Int)
  | ds => ((ds.foldl (fun acc d => 10 * acc + (d.toNat - 48)) 0 : Nat) : Int)

/-- An executable stand-in for `sqrtf` on rationals, exact on squares: the integer square
roots of numerator and denominator. -/
def sqrtq (x : ℚ) : ℚ := (Nat.sqrt x.num.toNat : ℚ) / (Nat.sqrt x.den : ℚ)

/-- A loader vertex at `(x, y, 0)` with normal `(0, 0, 1)`. -/
def pvert (x y : ℚ) : objl.Vertex := ⟨⟨x, y, 0⟩, ⟨0, 0, 1⟩, ⟨0, 0⟩⟩

/-- A face of six vertices in the plane `z = 0`. -/
def hexFace : List objl.Vertex :=
  [pvert 0 0, pvert 1 1, pvert 1 2, pvert 1 0, pvert 0 2, pvert 2 0]

/-- The five vertices of `hexFace` left when `(1, 1, 0)` has been clipped. -/
def pentFace : List objl.Vertex := [pvert 0 0, pvert 1 2, pvert 1 0, pvert 0 2, pvert 2 0]

/-- The box `[0, 1] x [0, 1] x [0, 1]`. -/
def box1 : BoundingBox := ⟨⟨0, 0, 0⟩, ⟨1, 1, 1⟩⟩

/-- A ray from `(-16777220, -16777218, 1/2)` with direction `(1, 1, 2^-30)`: its line is in
the `x` slab of `box1` for `t` from `16777220` to `16777221` and in the `y` slab for `t` from
`16777218` to `16777219`. All members are binary32 numbers, the inverse direction exact. -/
def rayGraze : Ray where
  origin := ⟨-16777220, -16777218, 1 / 2⟩
  direction := ⟨1, 1, 1 / 1073741824⟩
  invdirection := ⟨1, 1, 1073741824⟩
  sign0 := 0
  sign1 := 0
  sign2 := 0

theorem cround_intCast (n : Int) : cround (n : ℚ) = n := by
  unfold cround
  split
  · rw [Int.floor_eq_iff]; constructor <;> linarith
  · rw [Int.ceil_eq_iff]; constructor <;> linarith

theorem cround_zero : cround 0 = 0 := by simpa using cround_intCast 0

theorem cround_one : cround 1 = 1 := by simpa using cround_intCast 1

/-! ## Depth buffer cells -/

theorem getDepth_setDepth_same (buf : List (List ℚ)) (x y : Int) (z d : ℚ)
    (h : getDepth buf x y = some d) : getDepth (setDepth buf x y z) x y = some z := by
  unfold getDepth at h ⊢
  split at h
  · exact absurd h (by simp)
  · rename_i hneg
    rw [if_neg hneg]
    cases hrow : buf[x.toNat]? with
    | none => rw [hrow] at h; exact absurd h (by simp)
    | some row =>
      rw [hrow] at h
      simp only at h
      have hlt : y.toNat < row.length := by
        rcases List.getElem?_eq_some_iff.mp h with ⟨hl, _⟩
        exact hl
      simp [setDepth, List.getElem?_modify_eq, hrow, List.getElem?_set, hlt]

theorem getDepth_setDepth_other (buf : List (List ℚ)) (x y i j : Int) (z : ℚ)
    (hx : 0 ≤ x) (hy : 0 ≤ y) (hne : ¬(i = x ∧ j = y)) :
    getDepth (setDepth buf x y z) i j = getDepth buf i j := by
  unfold getDepth
  by_cases hneg : i < 0 ∨ j < 0
  · simp [hneg]
  · rw [if_neg hneg, if_neg hneg]
    push_neg at hneg
    by_cases hix : i = x
    · subst hix
      have hjy : j ≠ y := fun e => hne ⟨rfl, e⟩
      have hjn : y.toNat ≠ j.toNat := by
        intro e
        apply hjy
        have h1 := Int.toNat_of_nonneg hy
        have h2 := Int.toNat_of_nonneg hneg.2
        omega
      cases hrow : buf[i.toNat]? with
      | none => simp [setDepth, List.getElem?_modify_eq, hrow]
      | some row => simp [setDepth, List.getElem?_modify_eq, hrow, List.getElem?_set_ne hjn]
    · have hin : x.toNat ≠ i.toNat := by
        intro e
        apply hix
        have h1 := Int.toNat_of_nonneg hx
        have h2 := Int.toNat_of_nonneg hneg.1
        omega
      simp [setDepth, List.getElem?_modify_ne _ _ hin]

theorem setDepth_length (buf : List (List ℚ)) (x y : Int) (z : ℚ) :
    (setDepth buf x y z).length = buf.length := by
  simp [setDepth]

theorem setDepth_rows (buf : List (List ℚ)) (x y : Int) (z : ℚ) (h : Nat)
    (hrows : ∀ row ∈ buf, row.length = h) : ∀ row ∈ setDepth buf x y z, row.length = h := by
  intro row hmem
  obtain ⟨n, hn⟩ := List.getElem?_of_mem hmem
  rw [setDepth, List.getElem?_modify] at hn
  cases hb : buf[n]? with
  | none => rw [hb] at hn; exact absurd hn (by simp)
  | some r =>
    rw [hb] at hn
    have hr : r.length = h := hrows r (List.getElem?_mem hb)
    simp only [Option.map_eq_map, Option.map_some', Option.some.injEq] at hn
    rw [← hn]
    split <;> simp [hr]

theorem getDepth_of_rows (buf : List (List ℚ)) (w h : Int) (x y : Int)
    (hlen : buf.length = w.toNat) (hrows : ∀ row ∈ buf, row.length = h.toNat)
    (hx : 0 ≤ x ∧ x < w) (hy : 0 ≤ y ∧ y < h) :
    ∃ row d, buf[x.toNat]? = some row ∧ y.toNat < row.length ∧ getDepth buf x y = some d := by
  have hxl : x.toNat < buf.length := by
    rw [hlen]; omega
  have hrow : buf[x.toNat]? = some buf[x.toNat] := List.getElem?_eq_getElem hxl
  have hyl : y.toNat < (buf[x.toNat]).length := by
    rw [hrows _ (List.getElem_mem hxl)]; omega
  refine ⟨buf[x.toNat], (buf[x.toNat])[y.toNat], hrow, hyl, ?_⟩
  have hneg : ¬(x < 0 ∨ y < 0) := by omega
  simp only [getDepth, if_neg hneg, hrow]
  exact List.getElem?_eq_getElem hyl

theorem getDepth_inside (buf : List (List ℚ)) (w h : Int) (x y : Int) (d : ℚ)
    (hlen : buf.length = w.toNat) (hrows : ∀ row ∈ buf, row.length = h.toNat)
    (hd : getDepth buf x y = some d) : (0 ≤ x ∧ x < w) ∧ (0 ≤ y ∧ y < h) := by
  unfold getDepth at hd
  split at hd
  · exact absurd hd (by simp)
  · rename_i hneg
    push_neg at hneg
    cases hrow : buf[x.toNat]? with
    | none => rw [hrow] at hd; exact absurd hd (by simp)
    | some row =>
      rw [hrow] at hd
      simp only at hd
      obtain ⟨hxl, _⟩ := List.getElem?_eq_some_iff.mp hrow
      obtain ⟨hyl, _⟩ := List.getElem?_eq_some_iff.mp hd
      rw [hrows row (List.getElem?_mem hrow)] at hyl
      rw [hlen] at hxl
      omega

/-! ## The depth test -/

/-- C1: for a candidate whose rounded coordinates are inside the buffer, `testAndSet` returns
true exactly when `p.z` is below the stored depth `d` or within `eps` of it; on true the cell
holds `p.z` afterwards (whether or not `p.z` is above `d`), on false the state is the one
before the call, and no other cell of the depth buffer changes in either case. -/
theorem SceneManager.testAndSet_inside (s : SceneManager) (p : Vec3f) (d : ℚ)
    (hx : 0 ≤ cround p.x ∧ cround p.x < s.width)
    (hy : 0 ≤ cround p.y ∧ cround p.y < s.height)
    (hd : getDepth s.depthBuffer (cround p.x) (cround p.y) = some d) :
    ∃ s', s.testAndSet p = some (decide (p.z < d ∨ |p.z - d| < s.eps), s') ∧
      ((p.z < d ∨ |p.z - d| < s.eps) →
        getDepth s'.depthBuffer (cround p.x) (cround p.y) = some p.z) ∧
      (¬(p.z < d ∨ |p.z - d| < s.eps) →
        s' = s ∧ getDepth s'.depthBuffer (cround p.x) (cround p.y) = some d) ∧
      (∀ i j, ¬(i = cround p.x ∧ j = cround p.y) →
        getDepth s'.depthBuffer i j = getDepth s.depthBuffer i j) := by
  have hguard : ¬(cround p.x ≥ s.width ∨ cround p.y ≥ s.height ∨ cround p.x < 0 ∨
      cround p.y < 0) := by
    rintro (h | h | h | h) <;> omega
  by_cases hacc : p.z < d ∨ |p.z - d| < s.eps
  · refine ⟨{ s with depthBuffer := setDepth s.depthBuffer (cround p.x) (cround p.y) p.z },
      ?_, ?_, ?_, ?_⟩
    · simp only [SceneManager.testAndSet, if_neg hguard, hd, if_pos hacc, decide_eq_true hacc]
    · intro _
      exact getDepth_setDepth_same _ _ _ _ _ hd
    · intro h
      exact absurd hacc h
    · intro i j hij
      exact getDepth_setDepth_other _ _ _ _ _ _ hx.1 hy.1 hij
  · refine ⟨s, ?_, ?_, ?_, ?_⟩
    · simp only [SceneManager.testAndSet, if_neg hguard, hd, if_neg hacc, decide_eq_false hacc]
    · intro h
      exact absurd h hacc
    · intro _
      exact ⟨rfl, hd⟩
    · intro i j _
      rfl

/-- C1 at a concrete candidate: on `scene2` the candidate `(0, 1, 7 + 1/200000)` lies above the
stored depth 7 by less than `eps`, is accepted and replaces it. -/
theorem SceneManager.testAndSet_inside_witness :
    (0 ≤ cround (0 : ℚ) ∧ cround (0 : ℚ) < scene2.width) ∧
    (0 ≤ cround (1 : ℚ) ∧ cround (1 : ℚ) < scene2.height) ∧
    getDepth scene2.depthBuffer (cround (0 : ℚ)) (cround (1 : ℚ)) = some 7 ∧
    ∃ s', scene2.testAndSet ⟨0, 1, 7 + 1 / 200000⟩ =
        some (decide ((7 + 1 / 200000 : ℚ) < 7 ∨ |(7 + 1 / 200000 : ℚ) - 7| < scene2.eps), s') ∧
      (((7 + 1 / 200000 : ℚ) < 7 ∨ |(7 + 1 / 200000 : ℚ) - 7| < scene2.eps) →
        getDepth s'.depthBuffer (cround (0 : ℚ)) (cround (1 : ℚ)) = some (7 + 1 / 200000)) ∧
      (¬((7 + 1 / 200000 : ℚ) < 7 ∨ |(7 + 1 / 200000 : ℚ) - 7| < scene2.eps) →
        s' = scene2 ∧ getDepth s'.depthBuffer (cround (0 : ℚ)) (cround (1 : ℚ)) = some 7) ∧
      (∀ i j, ¬(i = cround (0 : ℚ) ∧ j = cround (1 : ℚ)) →
        getDepth s'.depthBuffer i j = getDepth scene2.depthBuffer i j) :=
  have hx : 0 ≤ cround (0 : ℚ) ∧ cround (0 : ℚ) < scene2.width := by
    rw [cround_zero]; simp [scene2]
  have hy : 0 ≤ cround (1 : ℚ) ∧ cround (1 : ℚ) < scene2.height := by
    rw [cround_one]; simp [scene2]
  have hd : getDepth scene2.depthBuffer (cround (0 : ℚ)) (cround (1 : ℚ)) = some 7 := by
    rw [cround_zero, cround_one]; simp [scene2, getDepth]
  ⟨hx, hy, hd, SceneManager.testAndSet_inside scene2 ⟨0, 1, 7 + 1 / 200000⟩ 7 hx hy hd⟩

theorem SceneManager.sameSetup_refl (s : SceneManager) : s.SameSetup s :=
  ⟨rfl, rfl, rfl, rfl, rfl, rfl⟩

theorem SceneManager.sameSetup_trans {s t u : SceneManager} (h1 : s.SameSetup t)
    (h2 : t.SameSetup u) : s.SameSetup u := by
  obtain ⟨hw, hh, he, hc, hi, hp⟩ := h1
  obtain ⟨hw', hh', he', hc', hi', hp'⟩ := h2
  refine ⟨?_, ?_, ?_, ?_, ?_, ?_⟩
  · rw [hw', hw]
  · rw [hh', hh]
  · rw [he', he]
  · rw [hc', hc]
  · rw [hi', hi]
  · rw [hp', hp]

/-- On a well-formed buffer `testAndSet` always returns; acceptance happens inside the frame
only, leaves the image alone and touches no cell but the candidate's. -/
theorem SceneManager.testAndSet_frame (s : SceneManager) (p : Vec3f) (hwf : s.WF) :
    ∃ b s', s.testAndSet p = some (b, s') ∧ s'.WF ∧ s.SameSetup s' ∧ s'.img = s.img ∧
      (b = true → inFrame s.width s.height (cround p.x) (cround p.y)) ∧
      (b = false → s' = s) ∧
      (∀ i j, ¬(i = cround p.x ∧ j = cround p.y) →
        getDepth s'.depthBuffer i j = getDepth s.depthBuffer i j) := by
  by_cases hguard : cround p.x ≥ s.width ∨ cround p.y ≥ s.height ∨ cround p.x < 0 ∨
      cround p.y < 0
  · refine ⟨false, s, ?_, hwf, SceneManager.sameSetup_refl s, rfl, ?_, fun _ => rfl,
      fun _ _ _ => rfl⟩
    · simp only [SceneManager.testAndSet, if_pos hguard]
    · intro h; exact absurd h (by simp)
  · have hx : 0 ≤ cround p.x ∧ cround p.x < s.width := by
      constructor <;> by_contra hc <;> apply hguard <;> omega
    have hy : 0 ≤ cround p.y ∧ cround p.y < s.height := by
      constructor <;> by_contra hc <;> apply hguard <;> omega
    obtain ⟨_, d, _, _, hd⟩ := getDepth_of_rows s.depthBuffer s.width s.height _ _ hwf.1 hwf.2 hx hy
    by_cases hacc : p.z < d ∨ |p.z - d| < s.eps
    · refine ⟨true, { s with depthBuffer := setDepth s.depthBuffer (cround p.x) (cround p.y) p.z },
        ?_, ?_, SceneManager.sameSetup_refl s, rfl, fun _ => ⟨hx, hy⟩, ?_, ?_⟩
      · simp only [SceneManager.testAndSet, if_neg hguard, hd, if_pos hacc]
      · exact ⟨(setDepth_length _ _ _ _).trans hwf.1, setDepth_rows _ _ _ _ _ hwf.2⟩
      · intro h; exact absurd h (by simp)
      · intro i j hij
        exact getDepth_setDepth_other _ _ _ _ _ _ hx.1 hy.1 hij
    · refine ⟨false, s, ?_, hwf, SceneManager.sameSetup_refl s, rfl, ?_, fun _ => rfl,
        fun _ _ _ => rfl⟩
      · simp only [SceneManager.testAndSet, if_neg hguard, hd, if_neg hacc]
      · intro h; exact absurd h (by simp)

/-- The cell addressed by a candidate inside the frame follows `depthStep`. -/
theorem SceneManager.testAndSet_cell (s : SceneManager) (p : Vec3f) (d : ℚ) (hwf : s.WF)
    (hd : getDepth s.depthBuffer (cround p.x) (cround p.y) = some d) :
    ∃ b s', s.testAndSet p = some (b, s') ∧ s'.WF ∧ s.SameSetup s' ∧
      getDepth s'.depthBuffer (cround p.x) (cround p.y) = some (depthStep s.eps d p.z) := by
  obtain ⟨hx, hy⟩ := getDepth_inside _ _ _ _ _ _ hwf.1 hwf.2 hd
  have hguard : ¬(cround p.x ≥ s.width ∨ cround p.y ≥ s.height ∨ cround p.x < 0 ∨
      cround p.y < 0) := by
    rintro (h | h | h | h) <;> omega
  by_cases hacc : p.z < d ∨ |p.z - d| < s.eps
  · refine ⟨true, { s with depthBuffer := setDepth s.depthBuffer (cround p.x) (cround p.y) p.z },
      ?_, ?_, SceneManager.sameSetup_refl s, ?_⟩
    · simp only [SceneManager.testAndSet, if_neg hguard, hd, if_pos hacc]
    · exact ⟨(setDepth_length _ _ _ _).trans hwf.1, setDepth_rows _ _ _ _ _ hwf.2⟩
    · simp only [depthStep, if_pos hacc]
      exact getDepth_setDepth_same _ _ _ _ _ hd
  · refine ⟨false, s, ?_, hwf, SceneManager.sameSetup_refl s, ?_⟩
    · simp only [SceneManager.testAndSet, if_neg hguard, hd, if_neg hacc]
    · simp only [depthStep, if_neg hacc]
      exact hd

/-- C3: `testAndSet` returns false and leaves the state as it was whenever the rounded `x` is
negative or at least `width`, or the rounded `y` is negative or at least `height`; and when the
depth buffer has `width` rows of `height` cells, a candidate that passes the guard addresses an
existing row and an existing cell of it, so the call returns and the buffer keeps its shape. -/
theorem SceneManager.testAndSet_bounds (s : SceneManager) (p : Vec3f) :
    ((cround p.x < 0 ∨ s.width ≤ cround p.x ∨ cround p.y < 0 ∨ s.height ≤ cround p.y) →
      s.testAndSet p = some (false, s)) ∧
    (s.WF →
      ¬(cround p.x < 0 ∨ s.width ≤ cround p.x ∨ cround p.y < 0 ∨ s.height ≤ cround p.y) →
      ∃ row d, s.depthBuffer[(cround p.x).toNat]? = some row ∧
        (cround p.y).toNat < row.length ∧
        getDepth s.depthBuffer (cround p.x) (cround p.y) = some d ∧
        ∃ b s', s.testAndSet p = some (b, s') ∧ s'.WF) := by
  constructor
  · intro h
    have hguard : cround p.x ≥ s.width ∨ cround p.y ≥ s.height ∨ cround p.x < 0 ∨
        cround p.y < 0 := by
      rcases h with h | h | h | h
      · exact Or.inr (Or.inr (Or.inl h))
      · exact Or.inl h
      · exact Or.inr (Or.inr (Or.inr h))
      · exact Or.inr (Or.inl h)
    simp only [SceneManager.testAndSet, if_pos hguard]
  · intro hwf hin
    have hx : 0 ≤ cround p.x ∧ cround p.x < s.width := by
      constructor <;> by_contra hc <;> apply hin <;> omega
    have hy : 0 ≤ cround p.y ∧ cround p.y < s.height := by
      constructor <;> by_contra hc <;> apply hin <;> omega
    obtain ⟨row, d, hrow, hlt, hd⟩ :=
      getDepth_of_rows s.depthBuffer s.width s.height _ _ hwf.1 hwf.2 hx hy
    obtain ⟨b, s', hts, hwf', _⟩ := SceneManager.testAndSet_frame s p hwf
    exact ⟨row, d, hrow, hlt, hd, b, s', hts, hwf'⟩

/-- C3 at concrete candidates on `scene2`: `(2, 0, 1)` has `x = width` and is rejected with
the state untouched; `(1, 1, 3)` passes the guard and addresses an existing cell. -/
theorem SceneManager.testAndSet_bounds_witness :
    ((cround (2 : ℚ) < 0 ∨ scene2.width ≤ cround (2 : ℚ) ∨ cround (0 : ℚ) < 0 ∨
        scene2.height ≤ cround (0 : ℚ)) ∧
      scene2.testAndSet ⟨2, 0, 1⟩ = some (false, scene2)) ∧
    (scene2.WF ∧
      ¬(cround (1 : ℚ) < 0 ∨ scene2.width ≤ cround (1 : ℚ) ∨ cround (1 : ℚ) < 0 ∨
        scene2.height ≤ cround (1 : ℚ)) ∧
      ∃ row d, scene2.depthBuffer[(cround (1 : ℚ)).toNat]? = some row ∧
        (cround (1 : ℚ)).toNat < row.length ∧
        getDepth scene2.depthBuffer (cround (1 : ℚ)) (cround (1 : ℚ)) = some d ∧
        ∃ b s', scene2.testAndSet ⟨1, 1, 3⟩ = some (b, s') ∧ s'.WF) :=
  have h2 : cround (2 : ℚ) = 2 := by simpa using cround_intCast 2
  have hout : cround (2 : ℚ) < 0 ∨ scene2.width ≤ cround (2 : ℚ) ∨ cround (0 : ℚ) < 0 ∨
      scene2.height ≤ cround (0 : ℚ) := by
    rw [h2]; exact Or.inr (Or.inl (by simp [scene2]))
  have hwf : scene2.WF := by simp [SceneManager.WF, scene2]
  have hin : ¬(cround (1 : ℚ) < 0 ∨ scene2.width ≤ cround (1 : ℚ) ∨ cround (1 : ℚ) < 0 ∨
      scene2.height ≤ cround (1 : ℚ)) := by
    rw [cround_one]; simp [scene2]
  ⟨⟨hout, (SceneManager.testAndSet_bounds scene2 ⟨2, 0, 1⟩).1 hout⟩,
    ⟨hwf, hin, (SceneManager.testAndSet_bounds scene2 ⟨1, 1, 3⟩).2 hwf hin⟩⟩

/-! ## Depth of one pixel over a frame -/

theorem depthStep_le (eps d z : ℚ) : depthStep eps d z ≤ z := by
  unfold depthStep
  split
  · exact le_refl z
  · rename_i h
    push_neg at h
    have h2 := h.2
    rw [abs_of_nonneg (by linarith [h.1])] at h2
    linarith

theorem depthStep_le_add (eps d z : ℚ) (heps : 0 ≤ eps) : depthStep eps d z ≤ d + eps := by
  unfold depthStep
  split
  · rename_i h
    rcases h with h | h
    · linarith
    · have := (abs_lt.mp h).2
      linarith
  · linarith

theorem depthStep_eq (eps d z : ℚ) : depthStep eps d z = d ∨ depthStep eps d z = z := by
  unfold depthStep
  split
  · exact Or.inr rfl
  · exact Or.inl rfl

theorem depthStep_reset (eps z : ℚ) (heps : 0 < eps) (hz : z ≤ FLT_MAX) :
    depthStep eps FLT_MAX z = z := by
  unfold depthStep
  rcases lt_or_eq_of_le hz with h | h
  · rw [if_pos (Or.inl h)]
  · rw [if_pos (Or.inr (by rw [h]; simpa using heps))]

theorem depthRun_cons (eps d z : ℚ) (zs : List ℚ) :
    depthRun eps d (z :: zs) = depthRun eps (depthStep eps d z) zs := rfl

/-- What a run of candidates leaves in a cell: at most `eps` per candidate above the initial
content, at most `eps` per later candidate above each candidate, and a value that was there
or was submitted. -/
theorem depthRun_bounds (eps : ℚ) (heps : 0 ≤ eps) (zs : List ℚ) : ∀ d : ℚ,
    depthRun eps d zs ≤ d + (zs.length : ℚ) * eps ∧
    (∀ z ∈ zs, depthRun eps d zs ≤ z + ((zs.length : ℚ) - 1) * eps) ∧
    (depthRun eps d zs = d ∨ depthRun eps d zs ∈ zs) := by
  induction zs with
  | nil =>
    intro d
    simp [depthRun]
  | cons z t ih =>
    intro d
    obtain ⟨h1, h2, h3⟩ := ih (depthStep eps d z)
    rw [depthRun_cons]
    have hle := depthStep_le eps d z
    have hadd := depthStep_le_add eps d z heps
    have hlen : (((z :: t).length : Nat) : ℚ) = (t.length : ℚ) + 1 := by
      simp
    have hnn : 0 ≤ (t.length : ℚ) * eps := mul_nonneg (Nat.cast_nonneg _) heps
    refine ⟨?_, ?_, ?_⟩
    · rw [hlen]; linarith
    · intro z' hz'
      rw [hlen]
      rcases List.mem_cons.mp hz' with h | h
      · subst h; linarith
      · have := h2 z' h
        linarith
    · rcases h3 with h | h
      · rcases depthStep_eq eps d z with e | e
        · exact Or.inl (h.trans e)
        · exact Or.inr (by rw [h, e]; exact List.mem_cons_self _ _)
      · exact Or.inr (List.mem_cons_of_mem _ h)

theorem minDepth_le (zs : List ℚ) : ∀ z ∈ zs, minDepth zs ≤ z := by
  induction zs with
  | nil => intro z hz; exact absurd hz (List.not_mem_nil z)
  | cons a t ih =>
    intro z hz
    have hcons : minDepth (a :: t) = min a (minDepth t) := rfl
    rw [hcons]
    rcases List.mem_cons.mp hz with h | h
    · subst h; exact min_le_left _ _
    · exact le_trans (min_le_right _ _) (ih z h)

theorem minDepth_mem (zs : List ℚ) (hne : zs ≠ []) (hmax : ∀ z ∈ zs, z ≤ FLT_MAX) :
    minDepth zs ∈ zs := by
  induction zs with
  | nil => exact absurd rfl hne
  | cons a t ih =>
    have hcons : minDepth (a :: t) = min a (minDepth t) := rfl
    rw [hcons]
    by_cases ht : t = []
    · subst ht
      have ha : a ≤ FLT_MAX := hmax a (List.mem_cons_self _ _)
      have : min a (minDepth []) = a := min_eq_left ha
      rw [this]; exact List.mem_cons_self _ _
    · have hmem := ih ht (fun z hz => hmax z (List.mem_cons_of_mem _ hz))
      rcases min_choice a (minDepth t) with h | h
      · rw [h]; exact List.mem_cons_self _ _
      · rw [h]; exact List.mem_cons_of_mem _ hmem

theorem SceneManager.clearFrame_WF (s : SceneManager) (hwf : s.WF) : s.clearFrame.WF := by
  refine ⟨?_, ?_⟩
  · simpa [SceneManager.clearFrame] using hwf.1
  · intro row hrow
    simp only [SceneManager.clearFrame, List.mem_map] at hrow
    obtain ⟨r, hr, rfl⟩ := hrow
    simpa using hwf.2 r hr

theorem SceneManager.clearFrame_getDepth (s : SceneManager) (hwf : s.WF) (x y : Int)
    (hin : inFrame s.width s.height x y) :
    getDepth s.clearFrame.depthBuffer x y = some FLT_MAX := by
  obtain ⟨row, d, hrow, hlt, _⟩ :=
    getDepth_of_rows s.depthBuffer s.width s.height x y hwf.1 hwf.2 hin.1 hin.2
  have hneg : ¬(x < 0 ∨ y < 0) := by
    have := hin.1.1
    have := hin.2.1
    omega
  simp only [getDepth, if_neg hneg, SceneManager.clearFrame, List.getElem?_map, hrow,
    Option.map_some']
  rw [List.getElem?_eq_getElem (by simpa using hlt)]
  simp

/-- A run of candidates that all round to the pixel `(x, y)` drives its cell by `depthRun`. -/
theorem SceneManager.submitAll_cell (x y : Int) (ps : List Vec3f) :
    ∀ (s : SceneManager) (d : ℚ), s.WF → getDepth s.depthBuffer x y = some d →
      (∀ p ∈ ps, cround p.x = x ∧ cround p.y = y) →
      ∃ s', s.submitAll ps = some s' ∧ s'.WF ∧ s.SameSetup s' ∧
        getDepth s'.depthBuffer x y = some (depthRun s.eps d (ps.map (fun p => p.z))) := by
  induction ps with
  | nil =>
    intro s d hwf hd _
    exact ⟨s, rfl, hwf, SceneManager.sameSetup_refl s, by simpa [depthRun] using hd⟩
  | cons p t ih =>
    intro s d hwf hd hps
    obtain ⟨hpx, hpy⟩ := hps p (List.mem_cons_self _ _)
    have hd2 : getDepth s.depthBuffer (cround p.x) (cround p.y) = some d := by
      rw [hpx, hpy]; exact hd
    obtain ⟨b, s1, hts, hwf1, hsame1, hcell⟩ := SceneManager.testAndSet_cell s p d hwf hd2
    rw [hpx, hpy] at hcell
    obtain ⟨s2, hrun, hwf2, hsame2, hfin⟩ :=
      ih s1 _ hwf1 hcell (fun q hq => hps q (List.mem_cons_of_mem _ hq))
    refine ⟨s2, ?_, hwf2, SceneManager.sameSetup_trans hsame1 hsame2, ?_⟩
    · simp only [SceneManager.submitAll, hts]
      exact hrun
    · rw [hfin, hsame1.2.2.1]
      rfl

/-- C2 fails as stated: on the freshly cleared `scene2` (`eps = 1/100000`) the candidates
`0`, `9/1000000`, `18/1000000` for pixel `(0, 0)` are all accepted, each within `eps` of the
one before, and the cell ends at `18/1000000`, which is not within `eps` of the minimum `0`. -/
theorem SceneManager.depth_monotonicity_counterexample :
    ∃ s', scene2.clearFrame.submitAll
        [⟨0, 0, 0⟩, ⟨0, 0, 9 / 1000000⟩, ⟨0, 0, 18 / 1000000⟩] = some s' ∧
      getDepth s'.depthBuffer 0 0 = some (18 / 1000000) ∧
      ¬(|(18 / 1000000 : ℚ) - minDepth [0, 9 / 1000000, 18 / 1000000]| < scene2.eps) := by
  have hwf : scene2.WF := by simp [SceneManager.WF, scene2]
  have hin : inFrame scene2.width scene2.height 0 0 := by simp [inFrame, scene2]
  obtain ⟨s', hrun, _, _, hd⟩ := SceneManager.submitAll_cell 0 0
    [⟨0, 0, 0⟩, ⟨0, 0, 9 / 1000000⟩, ⟨0, 0, 18 / 1000000⟩] scene2.clearFrame FLT_MAX
    (SceneManager.clearFrame_WF scene2 hwf) (SceneManager.clearFrame_getDepth scene2 hwf 0 0 hin)
    (by
      intro p hp
      simp only [List.mem_cons, List.mem_singleton, List.not_mem_nil, or_false] at hp
      rcases hp with rfl | rfl | rfl <;> exact ⟨cround_zero, cround_zero⟩)
  refine ⟨s', hrun, ?_, ?_⟩
  · rw [hd]
    have e1 : depthStep (1 / 100000) FLT_MAX 0 = 0 :=
      depthStep_reset _ _ (by norm_num) (by norm_num [FLT_MAX])
    have e2 : depthStep (1 / 100000) 0 (9 / 1000000) = 9 / 1000000 := by
      unfold depthStep
      rw [if_pos]
      right
      rw [abs_lt]
      constructor <;> norm_num
    have e3 : depthStep (1 / 100000) (9 / 1000000) (18 / 1000000) = 18 / 1000000 := by
      unfold depthStep
      rw [if_pos]
      right
      rw [abs_lt]
      constructor <;> norm_num
    have heps : scene2.clearFrame.eps = 1 / 100000 := rfl
    simp only [List.map, depthRun, List.foldl, heps, e1, e2, e3]
  · have hmin : minDepth [0, 9 / 1000000, 18 / 1000000] = 0 := by
      norm_num [minDepth, FLT_MAX]
    have heps : scene2.eps = 1 / 100000 := rfl
    rw [hmin, heps, abs_lt]
    norm_num

/-- C2, amended: after the per-frame reset, a non-empty run of candidates for one pixel inside
the buffer (each at most the largest float, `eps > 0`), in whatever order, leaves in its cell
one of the candidate depths, never below their minimum and above it by at most `eps` for every
candidate but one. -/
theorem SceneManager.depth_after_frame (s : SceneManager) (x y : Int) (ps : List Vec3f)
    (hwf : s.WF) (heps : 0 < s.eps) (hin : inFrame s.width s.height x y) (hne : ps ≠ [])
    (hps : ∀ p ∈ ps, cround p.x = x ∧ cround p.y = y ∧ p.z ≤ FLT_MAX) :
    ∃ s' d, s.clearFrame.submitAll ps = some s' ∧ getDepth s'.depthBuffer x y = some d ∧
      d ∈ ps.map (fun p => p.z) ∧
      minDepth (ps.map (fun p => p.z)) ≤ d ∧
      d - minDepth (ps.map (fun p => p.z)) ≤ ((ps.length : ℚ) - 1) * s.eps := by
  obtain ⟨s', hrun, _, _, hd⟩ := SceneManager.submitAll_cell x y ps s.clearFrame FLT_MAX
    (SceneManager.clearFrame_WF s hwf) (SceneManager.clearFrame_getDepth s hwf x y hin)
    (fun p hp => ⟨(hps p hp).1, (hps p hp).2.1⟩)
  have hepsc : s.clearFrame.eps = s.eps := rfl
  rw [hepsc] at hd
  have hzmax : ∀ z ∈ ps.map (fun p => p.z), z ≤ FLT_MAX := by
    intro z hz
    obtain ⟨p, hp, rfl⟩ := List.mem_map.mp hz
    exact (hps p hp).2.2
  have hzne : ps.map (fun p => p.z) ≠ [] := by
    intro h
    exact hne (List.map_eq_nil_iff.mp h)
  have hkey : depthRun s.eps FLT_MAX (ps.map (fun p => p.z)) ∈ ps.map (fun p => p.z) ∧
      ∀ z ∈ ps.map (fun p => p.z),
        depthRun s.eps FLT_MAX (ps.map (fun p => p.z)) ≤ z + ((ps.length : ℚ) - 1) * s.eps := by
    cases ps with
    | nil => exact absurd rfl hne
    | cons p t =>
      have hp : p.z ≤ FLT_MAX := (hps p (List.mem_cons_self _ _)).2.2
      obtain ⟨h1, h2, h3⟩ := depthRun_bounds s.eps (le_of_lt heps) (t.map (fun p => p.z)) p.z
      have hstart : depthRun s.eps FLT_MAX ((p :: t).map (fun p => p.z)) =
          depthRun s.eps p.z (t.map (fun p => p.z)) := by
        rw [List.map_cons, depthRun_cons, depthStep_reset s.eps p.z heps hp]
      rw [hstart]
      have hlen : (((p :: t).length : Nat) : ℚ) = (t.length : ℚ) + 1 := by simp
      have hlen2 : (((t.map (fun p => p.z)).length : Nat) : ℚ) = (t.length : ℚ) := by simp
      rw [hlen2] at h1 h2
      constructor
      · rcases h3 with h | h
        · rw [h, List.map_cons]; exact List.mem_cons_self _ _
        · rw [List.map_cons]; exact List.mem_cons_of_mem _ h
      · intro z hz
        rw [hlen]
        rw [List.map_cons] at hz
        rcases List.mem_cons.mp hz with h | h
        · rw [h]; linarith
        · have := h2 z h
          linarith
  refine ⟨s', _, hrun, hd, hkey.1, minDepth_le _ _ hkey.1, ?_⟩
  have := hkey.2 _ (minDepth_mem _ hzne hzmax)
  linarith

/-- C2 (amended) at the run of the counterexample: three candidates on `scene2`, so the cell
ends at most `2 * eps` above the minimum. -/
theorem SceneManager.depth_after_frame_witness :
    scene2.WF ∧ 0 < scene2.eps ∧ inFrame scene2.width scene2.height 0 0 ∧
    ([⟨0, 0, 0⟩, ⟨0, 0, 9 / 1000000⟩, ⟨0, 0, 18 / 1000000⟩] : List Vec3f) ≠ [] ∧
    (∀ p ∈ ([⟨0, 0, 0⟩, ⟨0, 0, 9 / 1000000⟩, ⟨0, 0, 18 / 1000000⟩] : List Vec3f),
      cround p.x = 0 ∧ cround p.y = 0 ∧ p.z ≤ FLT_MAX) ∧
    ∃ s' d, scene2.clearFrame.submitAll
        [⟨0, 0, 0⟩, ⟨0, 0, 9 / 1000000⟩, ⟨0, 0, 18 / 1000000⟩] = some s' ∧
      getDepth s'.depthBuffer 0 0 = some d ∧
      d ∈ ([⟨0, 0, 0⟩, ⟨0, 0, 9 / 1000000⟩, ⟨0, 0, 18 / 1000000⟩] : List Vec3f).map
        (fun p => p.z) ∧
      minDepth (([⟨0, 0, 0⟩, ⟨0, 0, 9 / 1000000⟩, ⟨0, 0, 18 / 1000000⟩] : List Vec3f).map
        (fun p => p.z)) ≤ d ∧
      d - minDepth (([⟨0, 0, 0⟩, ⟨0, 0, 9 / 1000000⟩, ⟨0, 0, 18 / 1000000⟩] : List Vec3f).map
        (fun p => p.z)) ≤
        ((([⟨0, 0, 0⟩, ⟨0, 0, 9 / 1000000⟩, ⟨0, 0, 18 / 1000000⟩] : List Vec3f).length : ℚ) - 1) *
          scene2.eps :=
  have hwf : scene2.WF := by simp [SceneManager.WF, scene2]
  have heps : 0 < scene2.eps := by norm_num [scene2]
  have hin : inFrame scene2.width scene2.height 0 0 := by simp [inFrame, scene2]
  have hne : ([⟨0, 0, 0⟩, ⟨0, 0, 9 / 1000000⟩, ⟨0, 0, 18 / 1000000⟩] : List Vec3f) ≠ [] := by
    simp
  have hps : ∀ p ∈ ([⟨0, 0, 0⟩, ⟨0, 0, 9 / 1000000⟩, ⟨0, 0, 18 / 1000000⟩] : List Vec3f),
      cround p.x = 0 ∧ cround p.y = 0 ∧ p.z ≤ FLT_MAX := by
    intro p hp
    simp only [List.mem_cons, List.mem_singleton, List.not_mem_nil, or_false] at hp
    rcases hp with rfl | rfl | rfl <;>
      exact ⟨cround_zero, cround_zero, by norm_num [FLT_MAX]⟩
  ⟨hwf, heps, hin, hne, hps, SceneManager.depth_after_frame scene2 0 0 _ hwf heps hin hne hps⟩

/-! ## Clip test -/

theorem gt_or_abs_sub_lt_iff (x a eps : ℚ) (heps : 0 < eps) :
    (x > a ∨ |x - a| < eps) ↔ a - eps < x := by
  constructor
  · rintro (h | h)
    · linarith
    · have := (abs_lt.mp h).1
      linarith
  · intro h
    by_cases hxa : x > a
    · exact Or.inl hxa
    · right
      rw [abs_lt]
      constructor <;> linarith

theorem lt_or_abs_sub_lt_iff (x a eps : ℚ) (heps : 0 < eps) :
    (x < a ∨ |x - a| < eps) ↔ x < a + eps := by
  constructor
  · rintro (h | h)
    · linarith
    · have := (abs_lt.mp h).2
      linarith
  · intro h
    by_cases hxa : x < a
    · exact Or.inl hxa
    · right
      rw [abs_lt]
      constructor <;> linarith

/-- C5: for `eps > 0` and `invW ≠ 0`, with `w = 1 / invW`, `clip v` is true exactly when
`-w - eps < x < w + eps`, `-w - eps < y < w + eps` and `-eps < z < w + eps`. -/
theorem SceneManager.clip_iff (s : SceneManager) (v : Vertex) (heps : 0 < s.eps)
    (_hw : v.invW ≠ 0) :
    s.clip v = true ↔
      (-(1 / v.invW) - s.eps < v.pos.x ∧ v.pos.x < 1 / v.invW + s.eps) ∧
      (-(1 / v.invW) - s.eps < v.pos.y ∧ v.pos.y < 1 / v.invW + s.eps) ∧
      (-s.eps < v.pos.z ∧ v.pos.z < 1 / v.invW + s.eps) := by
  have hx1 := gt_or_abs_sub_lt_iff v.pos.x (-(1 / v.invW)) s.eps heps
  have hx2 := lt_or_abs_sub_lt_iff v.pos.x (1 / v.invW) s.eps heps
  have hy1 := gt_or_abs_sub_lt_iff v.pos.y (-(1 / v.invW)) s.eps heps
  have hy2 := lt_or_abs_sub_lt_iff v.pos.y (1 / v.invW) s.eps heps
  have hz1 := gt_or_abs_sub_lt_iff v.pos.z 0 s.eps heps
  have hz2 := lt_or_abs_sub_lt_iff v.pos.z (1 / v.invW) s.eps heps
  rw [sub_neg_eq_add] at hx1 hy1
  rw [sub_zero, zero_sub] at hz1
  unfold SceneManager.clip
  rw [decide_eq_true_eq]
  constructor
  · rintro ⟨a1, a2, b1, b2, c1, c2⟩
    exact ⟨⟨hx1.mp a1, hx2.mp a2⟩, ⟨hy1.mp b1, hy2.mp b2⟩, ⟨hz1.mp c1, hz2.mp c2⟩⟩
  · rintro ⟨⟨a1, a2⟩, ⟨b1, b2⟩, ⟨c1, c2⟩⟩
    exact ⟨hx1.mpr a1, hx2.mpr a2, hy1.mpr b1, hy2.mpr b2, hz1.mpr c1, hz2.mpr c2⟩

/-- C5 at a concrete vertex: on `scene2` (`eps = 1/100000`) the vertex `(1, -1, 0)` with
`invW = 1` touches three frustum planes and passes. -/
theorem SceneManager.clip_iff_witness :
    0 < scene2.eps ∧ (vtx 1 (-1) 0).invW ≠ 0 ∧
    (scene2.clip (vtx 1 (-1) 0) = true ↔
      (-(1 / (vtx 1 (-1) 0).invW) - scene2.eps < (vtx 1 (-1) 0).pos.x ∧
        (vtx 1 (-1) 0).pos.x < 1 / (vtx 1 (-1) 0).invW + scene2.eps) ∧
      (-(1 / (vtx 1 (-1) 0).invW) - scene2.eps < (vtx 1 (-1) 0).pos.y ∧
        (vtx 1 (-1) 0).pos.y < 1 / (vtx 1 (-1) 0).invW + scene2.eps) ∧
      (-scene2.eps < (vtx 1 (-1) 0).pos.z ∧
        (vtx 1 (-1) 0).pos.z < 1 / (vtx 1 (-1) 0).invW + scene2.eps)) :=
  have heps : 0 < scene2.eps := by norm_num [scene2]
  have hw : (vtx 1 (-1) 0).invW ≠ 0 := by norm_num [vtx]
  ⟨heps, hw, SceneManager.clip_iff scene2 (vtx 1 (-1) 0) heps hw⟩

/-! ## Backface culling -/

@[simp] theorem Vec3f.sub_x (a b : Vec3f) : (a - b).x = a.x - b.x := rfl

@[simp] theorem Vec3f.sub_y (a b : Vec3f) : (a - b).y = a.y - b.y := rfl

@[simp] theorem Vec3f.sub_z (a b : Vec3f) : (a - b).z = a.z - b.z := rfl

/-- The face normal is orthogonal to the edge `b - a`: the second dot product of
`backfaceCulling` equals the first. -/
theorem Vec3f.dot_cross_second (a b c cam : Vec3f) :
    Vec3f.dot (Vec3f.cross (b - a) (c - a)) (b - cam) =
      Vec3f.dot (Vec3f.cross (b - a) (c - a)) (a - cam) := by
  simp only [Vec3f.dot, Vec3f.cross, Vec3f.sub_x, Vec3f.sub_y, Vec3f.sub_z]
  ring

/-- The face normal is orthogonal to the edge `c - a`: the third dot product of
`backfaceCulling` equals the first. -/
theorem Vec3f.dot_cross_third (a b c cam : Vec3f) :
    Vec3f.dot (Vec3f.cross (b - a) (c - a)) (c - cam) =
      Vec3f.dot (Vec3f.cross (b - a) (c - a)) (a - cam) := by
  simp only [Vec3f.dot, Vec3f.cross, Vec3f.sub_x, Vec3f.sub_y, Vec3f.sub_z]
  ring

/-- Swapping the two edges negates the face normal, hence every dot product with it. -/
theorem Vec3f.dot_cross_swap (u v w : Vec3f) :
    Vec3f.dot (Vec3f.cross v u) w = -Vec3f.dot (Vec3f.cross u v) w := by
  simp only [Vec3f.dot, Vec3f.cross]
  ring

theorem Vec3f.dot_neg_arg (n a cam : Vec3f) :
    Vec3f.dot n (cam - a) = -Vec3f.dot n (a - cam) := by
  simp only [Vec3f.dot, Vec3f.sub_x, Vec3f.sub_y, Vec3f.sub_z]
  ring

theorem SceneManager.backfaceCulling_eq (s : SceneManager) (a b c : Vertex) (cam : Camera)
    (hcam : s.camers[s.curr_camera]? = some cam) :
    s.backfaceCulling a b c = some (decide
      (0 < Vec3f.dot (Vec3f.cross (b.pos - a.pos) (c.pos - a.pos)) (a.pos - cam.position) ∧
       0 < Vec3f.dot (Vec3f.cross (b.pos - a.pos) (c.pos - a.pos)) (b.pos - cam.position) ∧
       0 < Vec3f.dot (Vec3f.cross (b.pos - a.pos) (c.pos - a.pos)) (c.pos - cam.position))) := by
  unfold SceneManager.backfaceCulling
  rw [hcam]
  simp only [gt_iff_lt]
  split
  · rename_i h
    rw [decide_eq_true h]
  · rename_i h
    rw [decide_eq_false h]

/-- C7 fails as stated: with the camera of `scene2` at `(0, 0, -1)` and the triangle
`(0,0,0), (1,0,0), (0,1,0)` the normal `(0, 0, 1)` has a negative dot product with each
vertex-to-camera vector `cam - v`, and `backfaceCulling` returns true. -/
theorem SceneManager.backfaceCulling_counterexample :
    scene2.camers[scene2.curr_camera]? = some ⟨⟨0, 0, -1⟩⟩ ∧
    scene2.backfaceCulling (vtx 0 0 0) (vtx 1 0 0) (vtx 0 1 0) = some true ∧
    ¬(0 < Vec3f.dot (Vec3f.cross ((vtx 1 0 0).pos - (vtx 0 0 0).pos)
          ((vtx 0 1 0).pos - (vtx 0 0 0).pos)) ((⟨0, 0, -1⟩ : Vec3f) - (vtx 0 0 0).pos) ∧
      0 < Vec3f.dot (Vec3f.cross ((vtx 1 0 0).pos - (vtx 0 0 0).pos)
          ((vtx 0 1 0).pos - (vtx 0 0 0).pos)) ((⟨0, 0, -1⟩ : Vec3f) - (vtx 1 0 0).pos) ∧
      0 < Vec3f.dot (Vec3f.cross ((vtx 1 0 0).pos - (vtx 0 0 0).pos)
          ((vtx 0 1 0).pos - (vtx 0 0 0).pos)) ((⟨0, 0, -1⟩ : Vec3f) - (vtx 0 1 0).pos)) := by
  have hcam : scene2.camers[scene2.curr_camera]? = some ⟨⟨0, 0, -1⟩⟩ := rfl
  refine ⟨hcam, ?_, ?_⟩
  · rw [SceneManager.backfaceCulling_eq scene2 _ _ _ _ hcam]
    norm_num [Vec3f.dot, Vec3f.cross, vtx]
  · norm_num [Vec3f.dot, Vec3f.cross, vtx]

/-- C7, amended: `backfaceCulling a b c` returns true exactly when the face normal
`n = (b - a) x (c - a)` has a positive dot product with each of the three camera-to-vertex
vectors `a - cam`, `b - cam` and `c - cam`, `cam` being the current camera's position. -/
theorem SceneManager.backfaceCulling_iff (s : SceneManager) (a b c : Vertex) (cam : Camera)
    (hcam : s.camers[s.curr_camera]? = some cam) :
    ∃ r, s.backfaceCulling a b c = some r ∧
      (r = true ↔
        0 < Vec3f.dot (Vec3f.cross (b.pos - a.pos) (c.pos - a.pos)) (a.pos - cam.position) ∧
        0 < Vec3f.dot (Vec3f.cross (b.pos - a.pos) (c.pos - a.pos)) (b.pos - cam.position) ∧
        0 < Vec3f.dot (Vec3f.cross (b.pos - a.pos) (c.pos - a.pos)) (c.pos - cam.position)) :=
  ⟨_, SceneManager.backfaceCulling_eq s a b c cam hcam, decide_eq_true_iff⟩

/-- C7 (amended) on `scene2` with the triangle `(0,0,0), (1,0,0), (0,1,0)`. -/
theorem SceneManager.backfaceCulling_iff_witness :
    scene2.camers[scene2.curr_camera]? = some ⟨⟨0, 0, -1⟩⟩ ∧
    ∃ r, scene2.backfaceCulling (vtx 0 0 0) (vtx 1 0 0) (vtx 0 1 0) = some r ∧
      (r = true ↔
        0 < Vec3f.dot (Vec3f.cross ((vtx 1 0 0).pos - (vtx 0 0 0).pos)
            ((vtx 0 1 0).pos - (vtx 0 0 0).pos))
            ((vtx 0 0 0).pos - (⟨⟨0, 0, -1⟩⟩ : Camera).position) ∧
        0 < Vec3f.dot (Vec3f.cross ((vtx 1 0 0).pos - (vtx 0 0 0).pos)
            ((vtx 0 1 0).pos - (vtx 0 0 0).pos))
            ((vtx 1 0 0).pos - (⟨⟨0, 0, -1⟩⟩ : Camera).position) ∧
        0 < Vec3f.dot (Vec3f.cross ((vtx 1 0 0).pos - (vtx 0 0 0).pos)
            ((vtx 0 1 0).pos - (vtx 0 0 0).pos))
            ((vtx 0 1 0).pos - (⟨⟨0, 0, -1⟩⟩ : Camera).position)) :=
  ⟨rfl, SceneManager.backfaceCulling_iff scene2 (vtx 0 0 0) (vtx 1 0 0) (vtx 0 1 0)
    ⟨⟨0, 0, -1⟩⟩ rfl⟩

/-- C8: for a non-degenerate triangle `(a, b, c)` and a camera off the triangle's plane,
`backfaceCulling (a, c, b)` is the negation of `backfaceCulling (a, b, c)`. -/
theorem SceneManager.backfaceCulling_winding (s : SceneManager) (a b c : Vertex) (cam : Camera)
    (hcam : s.camers[s.curr_camera]? = some cam)
    (_hnd : Vec3f.cross (b.pos - a.pos) (c.pos - a.pos) ≠ ⟨0, 0, 0⟩)
    (hplane : Vec3f.dot (Vec3f.cross (b.pos - a.pos) (c.pos - a.pos))
      (cam.position - a.pos) ≠ 0) :
    ∃ r, s.backfaceCulling a b c = some r ∧ s.backfaceCulling a c b = some (!r) := by
  refine ⟨_, SceneManager.backfaceCulling_eq s a b c cam hcam, ?_⟩
  rw [SceneManager.backfaceCulling_eq s a c b cam hcam]
  rw [Vec3f.dot_cross_second, Vec3f.dot_cross_third, Vec3f.dot_cross_second,
    Vec3f.dot_cross_third, Vec3f.dot_cross_swap (b.pos - a.pos) (c.pos - a.pos)]
  rw [Vec3f.dot_neg_arg] at hplane
  have hne : Vec3f.dot (Vec3f.cross (b.pos - a.pos) (c.pos - a.pos)) (a.pos - cam.position) ≠ 0 :=
    fun h => hplane (by rw [h, neg_zero])
  congr 1
  rcases lt_or_gt_of_ne hne with h | h
  · rw [decide_eq_true (by constructor <;> [linarith; constructor <;> linarith]),
      decide_eq_false (fun hh => absurd hh.1 (by linarith))]
    rfl
  · rw [decide_eq_false (fun hh => absurd hh.1 (by linarith)),
      decide_eq_true (by constructor <;> [exact h; constructor <;> exact h])]
    rfl

/-- C8 on `scene2`: the triangle `(0,0,0), (1,0,0), (0,1,0)` seen from `(0, 0, -1)`. -/
theorem SceneManager.backfaceCulling_winding_witness :
    scene2.camers[scene2.curr_camera]? = some ⟨⟨0, 0, -1⟩⟩ ∧
    Vec3f.cross ((vtx 1 0 0).pos - (vtx 0 0 0).pos) ((vtx 0 1 0).pos - (vtx 0 0 0).pos) ≠
      ⟨0, 0, 0⟩ ∧
    Vec3f.dot (Vec3f.cross ((vtx 1 0 0).pos - (vtx 0 0 0).pos)
      ((vtx 0 1 0).pos - (vtx 0 0 0).pos))
      ((⟨⟨0, 0, -1⟩⟩ : Camera).position - (vtx 0 0 0).pos) ≠ 0 ∧
    ∃ r, scene2.backfaceCulling (vtx 0 0 0) (vtx 1 0 0) (vtx 0 1 0) = some r ∧
      scene2.backfaceCulling (vtx 0 0 0) (vtx 0 1 0) (vtx 1 0 0) = some (!r) :=
  have hnd : Vec3f.cross ((vtx 1 0 0).pos - (vtx 0 0 0).pos)
      ((vtx 0 1 0).pos - (vtx 0 0 0).pos) ≠ ⟨0, 0, 0⟩ := by
    intro h
    have hz := congrArg Vec3f.z h
    norm_num [Vec3f.cross, vtx] at hz
  have hplane : Vec3f.dot (Vec3f.cross ((vtx 1 0 0).pos - (vtx 0 0 0).pos)
      ((vtx 0 1 0).pos - (vtx 0 0 0).pos))
      ((⟨⟨0, 0, -1⟩⟩ : Camera).position - (vtx 0 0 0).pos) ≠ 0 := by
    norm_num [Vec3f.dot, Vec3f.cross, vtx]
  ⟨rfl, hnd, hplane, SceneManager.backfaceCulling_winding scene2 (vtx 0 0 0) (vtx 1 0 0)
    (vtx 0 1 0) ⟨⟨0, 0, -1⟩⟩ rfl hnd hplane⟩

/-! ## Screen conversion -/

theorem shiftRight_one_eq (n : Int) : n >>> (1 : Nat) = n / 2 := by
  rw [Int.shiftRight_eq_div_pow]
  norm_num

theorem half_cast_of_even (n : Int) (h : 2 ∣ n) : (((n / 2 : Int) : ℚ)) = (n : ℚ) / 2 := by
  obtain ⟨k, rfl⟩ := h
  rw [Int.mul_ediv_cancel_left k (by norm_num)]
  push_cast
  ring

/-- C9 fails as stated: for the odd frame size 3 x 3 the vertex `(1, 1, 0)` with `invW = 1`
gets `x_screen = 2`, which is not `(x*invW + 1) * width/2 = 3`. -/
theorem denormolize_counterexample :
    (denormolize 3 3 (vtx 1 1 0)).pos.x = 2 ∧
    (denormolize 3 3 (vtx 1 1 0)).pos.x ≠
      ((vtx 1 1 0).pos.x * (vtx 1 1 0).invW + 1) * ((3 : ℚ) / 2) := by
  have h3 : ((3 : Int) >>> (1 : Nat)) = 1 := by decide
  constructor
  · simp only [denormolize, NDCX_TO_RASTER, vtx, h3]
    norm_num
  · simp only [denormolize, NDCX_TO_RASTER, vtx, h3]
    norm_num

/-- C9, amended: for positive `width` and `height`, `denormolize` maps a clip-space vertex to
`x_screen = (x*invW + 1) * floor(width/2)` and `y_screen = (1 - y*invW) * floor(height/2)`
(the integer halves, which are the exact halves when `width`, `height` are even) and keeps
`z`, `invW`, the normal and the texture coordinate. -/
theorem denormolize_spec (width height : Int) (v : Vertex) (_hw : 0 < width)
    (_hh : 0 < height) :
    denormolize width height v =
      { pos := ⟨(v.pos.x * v.invW + 1) * ((⌊(width : ℚ) / 2⌋ : Int) : ℚ),
                (1 - v.pos.y * v.invW) * ((⌊(height : ℚ) / 2⌋ : Int) : ℚ), v.pos.z⟩,
        invW := v.invW, normal := v.normal, texcoord := v.texcoord } ∧
    (2 ∣ width →
      (denormolize width height v).pos.x = (v.pos.x * v.invW + 1) * ((width : ℚ) / 2)) ∧
    (2 ∣ height →
      (denormolize width height v).pos.y = (1 - v.pos.y * v.invW) * ((height : ℚ) / 2)) := by
  have hfw : ⌊(width : ℚ) / 2⌋ = width / 2 := by
    have := Rat.floor_intCast_div_natCast width 2
    simpa using this
  have hfh : ⌊(height : ℚ) / 2⌋ = height / 2 := by
    have := Rat.floor_intCast_div_natCast height 2
    simpa using this
  refine ⟨?_, ?_, ?_⟩
  · simp only [denormolize, NDCX_TO_RASTER, NDCY_TO_RASTER, shiftRight_one_eq, hfw, hfh]
  · intro h
    simp only [denormolize, NDCX_TO_RASTER, shiftRight_one_eq, half_cast_of_even width h]
  · intro h
    simp only [denormolize, NDCY_TO_RASTER, shiftRight_one_eq, half_cast_of_even height h]

/-- C9 (amended) on a 4 x 3 frame: the even width gives the exact half 2, the odd height the
integer half 1. -/
theorem denormolize_spec_witness :
    (0 : Int) < 4 ∧ (0 : Int) < 3 ∧
    (denormolize 4 3 (vtx 1 1 0) =
      { pos := ⟨((vtx 1 1 0).pos.x * (vtx 1 1 0).invW + 1) * ((⌊((4 : Int) : ℚ) / 2⌋ : Int) : ℚ),
                (1 - (vtx 1 1 0).pos.y * (vtx 1 1 0).invW) *
                  ((⌊((3 : Int) : ℚ) / 2⌋ : Int) : ℚ), (vtx 1 1 0).pos.z⟩,
        invW := (vtx 1 1 0).invW, normal := (vtx 1 1 0).normal,
        texcoord := (vtx 1 1 0).texcoord } ∧
    (2 ∣ (4 : Int) →
      (denormolize 4 3 (vtx 1 1 0)).pos.x =
        ((vtx 1 1 0).pos.x * (vtx 1 1 0).invW + 1) * (((4 : Int) : ℚ) / 2)) ∧
    (2 ∣ (3 : Int) →
      (denormolize 4 3 (vtx 1 1 0)).pos.y =
        (1 - (vtx 1 1 0).pos.y * (vtx 1 1 0).invW) * (((3 : Int) : ℚ) / 2))) :=
  ⟨by decide, by decide, denormolize_spec 4 3 (vtx 1 1 0) (by decide) (by decide)⟩

/-! ## Traversal -/

theorem mem_intRange (lo hi x : Int) : x ∈ intRange lo hi ↔ lo ≤ x ∧ x < hi := by
  unfold intRange
  rw [List.mem_map]
  constructor
  · rintro ⟨k, hk, rfl⟩
    rw [List.mem_range] at hk
    omega
  · rintro ⟨h1, h2⟩
    refine ⟨(x - lo).toNat, ?_, ?_⟩
    · rw [List.mem_range]; omega
    · omega

theorem SceneManager.confined_refl (P : Int → Int → Prop) (s : SceneManager) (hwf : s.WF) :
    SceneManager.Confined P s s :=
  ⟨hwf, SceneManager.sameSetup_refl s, ⟨[], rfl, fun _ h => absurd h (List.not_mem_nil _)⟩,
    fun _ _ _ => rfl⟩

theorem SceneManager.confined_trans {P : Int → Int → Prop} {s t u : SceneManager}
    (h1 : SceneManager.Confined P s t) (h2 : SceneManager.Confined P t u) :
    SceneManager.Confined P s u := by
  obtain ⟨_, hs1, ⟨n1, hi1, hp1⟩, hd1⟩ := h1
  obtain ⟨hwf2, hs2, ⟨n2, hi2, hp2⟩, hd2⟩ := h2
  refine ⟨hwf2, SceneManager.sameSetup_trans hs1 hs2, ⟨n2 ++ n1, ?_, ?_⟩, ?_⟩
  · rw [hi2, hi1, List.append_assoc]
  · intro w hw
    rcases List.mem_append.mp hw with h | h
    · exact hp2 w h
    · exact hp1 w h
  · intro i j hij
    rw [hd2 i j hij, hd1 i j hij]

theorem SceneManager.confined_mono {P Q : Int → Int → Prop} {s t : SceneManager}
    (hPQ : ∀ i j, P i j → Q i j) (h : SceneManager.Confined P s t) :
    SceneManager.Confined Q s t := by
  obtain ⟨hwf, hs, ⟨n, hi, hp⟩, hd⟩ := h
  exact ⟨hwf, hs, ⟨n, hi, fun w hw => hPQ _ _ (hp w hw)⟩,
    fun i j hij => hd i j (fun hP => hij (hPQ i j hP))⟩

theorem SceneManager.candidate_round (B : Bary) (p1 p2 p3 : Vec3f) (x y : Int) :
    cround (SceneManager.candidate B p1 p2 p3 x y).x = x ∧
    cround (SceneManager.candidate B p1 p2 p3 x y).y = y :=
  ⟨cround_intCast x, cround_intCast y⟩

/-- One pixel step on a well-formed buffer returns, and its effect is confined to its own
pixel, which moreover lies inside the frame whenever anything changed. -/
theorem SceneManager.rasterPixel_confined (B : Bary) (s : SceneManager) (p1_ p2_ p3_ : Vertex)
    (x y : Int) (hwf : s.WF) :
    ∃ s', s.rasterPixel B p1_ p2_ p3_ x y = some s' ∧
      SceneManager.Confined (fun i j => (i = x ∧ j = y) ∧ inFrame s.width s.height i j) s s' := by
  unfold SceneManager.rasterPixel
  simp only
  split
  · obtain ⟨hcx, hcy⟩ := SceneManager.candidate_round B p1_.pos p2_.pos p3_.pos x y
    obtain ⟨b, s1, hts, hwf1, hsame, himg, hacc, hfalse, hother⟩ :=
      SceneManager.testAndSet_frame s (SceneManager.candidate B p1_.pos p2_.pos p3_.pos x y) hwf
    rw [hcx, hcy] at hacc hother
    rw [hts]
    cases b with
    | true =>
      have hin := hacc rfl
      refine ⟨_, rfl, ⟨hwf1.1, hwf1.2⟩, hsame, ?_, ?_⟩
      · refine ⟨[PixelWrite.mk x y ((s1.pixel_shader p1_ p2_ p3_ (B.toBarycentric p1_.pos
          p2_.pos p3_.pos ⟨(x : ℚ), (y : ℚ), 0⟩)).scale 255)], ?_, ?_⟩
        · simp only [himg, List.singleton_append]
        · intro w hw
          rw [List.mem_singleton] at hw
          subst hw
          exact ⟨⟨rfl, rfl⟩, hin⟩
      · intro i j hij
        exact hother i j (fun h => hij ⟨h, by rw [h.1, h.2]; exact hin⟩)
    | false =>
      have hs1 : s1 = s := hfalse rfl
      subst hs1
      exact ⟨s1, rfl, SceneManager.confined_refl _ s1 hwf⟩
  · exact ⟨s, rfl, SceneManager.confined_refl _ s hwf⟩

theorem SceneManager.rasterRow_confined (B : Bary) (p1_ p2_ p3_ : Vertex) (y : Int)
    (xs : List Int) : ∀ s : SceneManager, s.WF →
      ∃ s', SceneManager.rasterRow B p1_ p2_ p3_ y xs s = some s' ∧
        SceneManager.Confined
          (fun i j => (i ∈ xs ∧ j = y) ∧ inFrame s.width s.height i j) s s' := by
  induction xs with
  | nil =>
    intro s hwf
    exact ⟨s, rfl, SceneManager.confined_refl _ s hwf⟩
  | cons x t ih =>
    intro s hwf
    obtain ⟨s1, hpix, hc1⟩ := SceneManager.rasterPixel_confined B s p1_ p2_ p3_ x y hwf
    obtain ⟨s2, hrow, hc2⟩ := ih s1 hc1.1
    have hw : s1.width = s.width := hc1.2.1.1
    have hh : s1.height = s.height := hc1.2.1.2.1
    rw [hw, hh] at hc2
    refine ⟨s2, ?_, ?_⟩
    · simp only [SceneManager.rasterRow, hpix]
      exact hrow
    · refine SceneManager.confined_trans (SceneManager.confined_mono ?_ hc1)
        (SceneManager.confined_mono ?_ hc2)
      · rintro i j ⟨⟨hi, hj⟩, hin⟩
        exact ⟨⟨by rw [hi]; exact List.mem_cons_self _ _, hj⟩, hin⟩
      · rintro i j ⟨⟨hi, hj⟩, hin⟩
        exact ⟨⟨List.mem_cons_of_mem _ hi, hj⟩, hin⟩

theorem SceneManager.rasterRows_confined (B : Bary) (p1_ p2_ p3_ : Vertex) (xs ys : List Int) :
    ∀ s : SceneManager, s.WF →
      ∃ s', SceneManager.rasterRows B p1_ p2_ p3_ xs ys s = some s' ∧
        SceneManager.Confined
          (fun i j => (i ∈ xs ∧ j ∈ ys) ∧ inFrame s.width s.height i j) s s' := by
  induction ys with
  | nil =>
    intro s hwf
    exact ⟨s, rfl, SceneManager.confined_refl _ s hwf⟩
  | cons y t ih =>
    intro s hwf
    obtain ⟨s1, hrow, hc1⟩ := SceneManager.rasterRow_confined B p1_ p2_ p3_ y xs s hwf
    obtain ⟨s2, hrows, hc2⟩ := ih s1 hc1.1
    have hw : s1.width = s.width := hc1.2.1.1
    have hh : s1.height = s.height := hc1.2.1.2.1
    rw [hw, hh] at hc2
    refine ⟨s2, ?_, ?_⟩
    · simp only [SceneManager.rasterRows, hrow]
      exact hrows
    · refine SceneManager.confined_trans (SceneManager.confined_mono ?_ hc1)
        (SceneManager.confined_mono ?_ hc2)
      · rintro i j ⟨⟨hi, hj⟩, hin⟩
        exact ⟨⟨hi, by rw [hj]; exact List.mem_cons_self _ _⟩, hin⟩
      · rintro i j ⟨⟨hi, hj⟩, hin⟩
        exact ⟨⟨hi, List.mem_cons_of_mem _ hj⟩, hin⟩

/-- The traversal on a well-formed buffer returns, and its effect is confined to the pixels
of the frame with `floor(min x) ≤ i < ceil(max x)` and `floor(min y) ≤ j < ceil(max y)`. -/
theorem SceneManager.traverse_confined (B : Bary) (s : SceneManager) (p1_ p2_ p3_ : Vertex)
    (hwf : s.WF) :
    ∃ s', s.traverse B p1_ p2_ p3_ = some s' ∧
      SceneManager.Confined
        (fun i j =>
          ((⌊min (min p1_.pos.x p2_.pos.x) p3_.pos.x⌋ ≤ i ∧
              i < ⌈max (max p1_.pos.x p2_.pos.x) p3_.pos.x⌉) ∧
            (⌊min (min p1_.pos.y p2_.pos.y) p3_.pos.y⌋ ≤ j ∧
              j < ⌈max (max p1_.pos.y p2_.pos.y) p3_.pos.y⌉)) ∧
          inFrame s.width s.height i j) s s' := by
  obtain ⟨s', hrows, hc⟩ := SceneManager.rasterRows_confined B p1_ p2_ p3_
    (intRange ⌊min (min p1_.pos.x p2_.pos.x) p3_.pos.x⌋
      ⌈max (max p1_.pos.x p2_.pos.x) p3_.pos.x⌉)
    (intRange ⌊min (min p1_.pos.y p2_.pos.y) p3_.pos.y⌋
      ⌈max (max p1_.pos.y p2_.pos.y) p3_.pos.y⌉) s hwf
  refine ⟨s', hrows, SceneManager.confined_mono ?_ hc⟩
  rintro i j ⟨⟨hi, hj⟩, hin⟩
  exact ⟨⟨(mem_intRange _ _ _).mp hi, (mem_intRange _ _ _).mp hj⟩, hin⟩

/-- The whole of `rasterBarTriangle` on a well-formed buffer returns, with an effect confined
to the frame. -/
theorem SceneManager.rasterBarTriangle_confined (B : Bary) (s : SceneManager)
    (p1_ p2_ p3_ : Vertex) (hwf : s.WF) :
    ∃ s', s.rasterBarTriangle B p1_ p2_ p3_ = some s' ∧
      SceneManager.Confined (fun i j => inFrame s.width s.height i j) s s' := by
  unfold SceneManager.rasterBarTriangle
  split
  · exact ⟨s, rfl, SceneManager.confined_refl _ s hwf⟩
  · obtain ⟨s', htr, hc⟩ := SceneManager.traverse_confined B s
      (denormolize s.width s.height p1_) (denormolize s.width s.height p2_)
      (denormolize s.width s.height p3_) hwf
    exact ⟨s', htr, SceneManager.confined_mono (fun _ _ h => h.2) hc⟩

theorem SceneManager.testAndSet_img (s s' : SceneManager) (p : Vec3f) (b : Bool)
    (h : s.testAndSet p = some (b, s')) : s'.img = s.img := by
  unfold SceneManager.testAndSet at h
  simp only at h
  split at h
  · cases h; rfl
  · split at h
    · cases h
    · split at h
      · cases h; rfl
      · cases h; rfl

/-- C6: when none of the three vertices passes `clip`, `rasterBarTriangle` returns with the
state (depth buffer and image included) as it was; when at least one passes, it is the
traversal of the three vertices converted to screen space by `denormolize`. -/
theorem SceneManager.rasterBarTriangle_clip_gate (B : Bary) (s : SceneManager)
    (p1_ p2_ p3_ : Vertex) :
    ((s.clip p1_ = false ∧ s.clip p2_ = false ∧ s.clip p3_ = false) →
      s.rasterBarTriangle B p1_ p2_ p3_ = some s) ∧
    ((s.clip p1_ = true ∨ s.clip p2_ = true ∨ s.clip p3_ = true) →
      s.rasterBarTriangle B p1_ p2_ p3_ =
        s.traverse B (denormolize s.width s.height p1_) (denormolize s.width s.height p2_)
          (denormolize s.width s.height p3_)) := by
  constructor
  · rintro ⟨h1, h2, h3⟩
    simp [SceneManager.rasterBarTriangle, h1, h2, h3]
  · intro h
    unfold SceneManager.rasterBarTriangle
    rw [if_neg]
    intro hall
    simp only [Bool.and_eq_true, Bool.not_eq_true'] at hall
    rcases h with h | h | h
    · rw [hall.1.1] at h; exact absurd h (by simp)
    · rw [hall.1.2] at h; exact absurd h (by simp)
    · rw [hall.2] at h; exact absurd h (by simp)

theorem scene2_clip_far : scene2.clip (vtx 5 0 0) = false := by
  simp only [SceneManager.clip, vtx, scene2, decide_eq_false_iff_not]
  rintro ⟨_, h, _⟩
  rcases h with h | h
  · norm_num at h
  · rw [abs_lt] at h
    norm_num at h

theorem scene2_clip_centre : scene2.clip (vtx 0 0 (1 / 2)) = true := by
  simp only [SceneManager.clip, vtx, scene2, decide_eq_true_eq]
  norm_num

/-- C6 on `scene2`: the triangle with all three vertices at `(5, 0, 0)` is dropped, the
triangle with a vertex at `(0, 0, 1/2)` goes on to conversion and traversal. -/
theorem SceneManager.rasterBarTriangle_clip_gate_witness :
    ((scene2.clip (vtx 5 0 0) = false ∧ scene2.clip (vtx 5 0 0) = false ∧
        scene2.clip (vtx 5 0 0) = false) ∧
      scene2.rasterBarTriangle specBary (vtx 5 0 0) (vtx 5 0 0) (vtx 5 0 0) = some scene2) ∧
    ((scene2.clip (vtx 0 0 (1 / 2)) = true ∨ scene2.clip (vtx 5 0 0) = true ∨
        scene2.clip (vtx 5 0 0) = true) ∧
      scene2.rasterBarTriangle specBary (vtx 0 0 (1 / 2)) (vtx 5 0 0) (vtx 5 0 0) =
        scene2.traverse specBary (denormolize scene2.width scene2.height (vtx 0 0 (1 / 2)))
          (denormolize scene2.width scene2.height (vtx 5 0 0))
          (denormolize scene2.width scene2.height (vtx 5 0 0))) :=
  ⟨⟨⟨scene2_clip_far, scene2_clip_far, scene2_clip_far⟩,
      (SceneManager.rasterBarTriangle_clip_gate specBary scene2 (vtx 5 0 0) (vtx 5 0 0)
        (vtx 5 0 0)).1 ⟨scene2_clip_far, scene2_clip_far, scene2_clip_far⟩⟩,
    ⟨Or.inl scene2_clip_centre,
      (SceneManager.rasterBarTriangle_clip_gate specBary scene2 (vtx 0 0 (1 / 2)) (vtx 5 0 0)
        (vtx 5 0 0)).2 (Or.inl scene2_clip_centre)⟩⟩

/-- C4: a pixel step of `rasterBarTriangle` changes the image only by one write at its own
pixel `(x, y)`, and only when `testAndSet` accepted the candidate that rounds to that same
`(x, y)` in that step; hence on a buffer of `width` rows of `height` cells the whole call
returns, every colour it writes is at a pixel with `0 ≤ x < width`, `0 ≤ y < height`, and
no depth outside that range changes. -/
theorem SceneManager.rasterBarTriangle_gated (B : Bary) (s : SceneManager)
    (p1_ p2_ p3_ : Vertex) (hwf : s.WF) :
    (∀ (st st' : SceneManager) (q1 q2 q3 : Vertex) (x y : Int),
      st.rasterPixel B q1 q2 q3 x y = some st' → st'.img ≠ st.img →
      cround (candidate B q1.pos q2.pos q3.pos x y).x = x ∧
      cround (candidate B q1.pos q2.pos q3.pos x y).y = y ∧
      ∃ s1 col, st.testAndSet (candidate B q1.pos q2.pos q3.pos x y) = some (true, s1) ∧
        st'.img = ⟨x, y, col⟩ :: st.img ∧ st'.depthBuffer = s1.depthBuffer) ∧
    ∃ s', s.rasterBarTriangle B p1_ p2_ p3_ = some s' ∧ s'.WF ∧
      (∃ new : List PixelWrite, s'.img = new ++ s.img ∧
        ∀ w ∈ new, inFrame s.width s.height w.x w.y) ∧
      (∀ i j, ¬inFrame s.width s.height i j →
        getDepth s'.depthBuffer i j = getDepth s.depthBuffer i j) := by
  constructor
  · intro st st' q1 q2 q3 x y hstep himg
    obtain ⟨hcx, hcy⟩ := SceneManager.candidate_round B q1.pos q2.pos q3.pos x y
    refine ⟨hcx, hcy, ?_⟩
    unfold SceneManager.rasterPixel at hstep
    simp only at hstep
    split at hstep
    · cases hts : st.testAndSet (candidate B q1.pos q2.pos q3.pos x y) with
      | none => rw [hts] at hstep; cases hstep
      | some r =>
        obtain ⟨b, s1⟩ := r
        rw [hts] at hstep
        have hi := SceneManager.testAndSet_img st s1 _ b hts
        cases b with
        | true =>
          simp only [Option.some.injEq] at hstep
          subst hstep
          exact ⟨s1, (s1.pixel_shader q1 q2 q3 (B.toBarycentric q1.pos q2.pos q3.pos
            ⟨(x : ℚ), (y : ℚ), 0⟩)).scale 255, rfl, by simp only [hi], rfl⟩
        | false =>
          simp only [Option.some.injEq] at hstep
          subst hstep
          exact absurd hi himg
    · simp only [Option.some.injEq] at hstep
      subst hstep
      exact absurd rfl himg
  · obtain ⟨s', hr, hwf', _, hnew, hdepth⟩ :=
      SceneManager.rasterBarTriangle_confined B s p1_ p2_ p3_ hwf
    exact ⟨s', hr, hwf', hnew, hdepth⟩

/-! ## The triangle (10,10), (50,10), (10,50) on a 64 x 64 frame -/

theorem scene64_WF : scene64.WF := by
  refine ⟨by simp [scene64], ?_⟩
  intro row hrow
  simp only [scene64] at hrow
  rw [List.eq_of_mem_replicate hrow]
  simp [scene64]

theorem getDepth_replicate (w h : Nat) (v : ℚ) (x y : Int) (hx : 0 ≤ x ∧ x < (w : Int))
    (hy : 0 ≤ y ∧ y < (h : Int)) :
    getDepth (List.replicate w (List.replicate h v)) x y = some v := by
  have hneg : ¬(x < 0 ∨ y < 0) := by omega
  have hxl : x.toNat < w := by omega
  have hyl : y.toNat < h := by omega
  simp only [getDepth, if_neg hneg, List.getElem?_replicate, if_pos hxl, if_pos hyl]

theorem scene64_getDepth (x y : Int) (hin : inFrame 64 64 x y) :
    getDepth scene64.depthBuffer x y = some FLT_MAX :=
  getDepth_replicate 64 64 FLT_MAX x y hin.1 hin.2

theorem shift64 : ((64 : Int) >>> (1 : Nat)) = 32 := by decide

theorem triA_screen : (denormolize 64 64 triA).pos = ⟨10, 10, 1 / 2⟩ := by
  simp only [denormolize, NDCX_TO_RASTER, NDCY_TO_RASTER, triA, vtx, shift64]
  norm_num

theorem triB_screen : (denormolize 64 64 triB).pos = ⟨50, 10, 1 / 2⟩ := by
  simp only [denormolize, NDCX_TO_RASTER, NDCY_TO_RASTER, triB, vtx, shift64]
  norm_num

theorem triC_screen : (denormolize 64 64 triC).pos = ⟨10, 50, 1 / 2⟩ := by
  simp only [denormolize, NDCX_TO_RASTER, NDCY_TO_RASTER, triC, vtx, shift64]
  norm_num

theorem scene64_clip_triA : scene64.clip triA = true := by
  simp only [SceneManager.clip, triA, vtx, scene64, decide_eq_true_eq]
  norm_num

theorem ceil_fifty : ⌈max (max (10 : ℚ) 50) 10⌉ = 50 := by
  have h : max (max (10 : ℚ) 50) 10 = ((50 : Int) : ℚ) := by norm_num
  rw [h, Int.ceil_intCast]

theorem intRange_cons (lo hi : Int) (h : lo < hi) :
    intRange lo hi = lo :: intRange (lo + 1) hi := by
  unfold intRange
  have hn : (hi - lo).toNat = (hi - (lo + 1)).toNat + 1 := by omega
  rw [hn, List.range_succ_eq_map, List.map_cons, List.map_map]
  congr 1
  · simp
  · apply List.map_congr_left
    intro k _
    simp only [Function.comp, Nat.succ_eq_add_one]
    push_cast
    ring

/-- A pixel step whose weights pass and whose candidate passes the depth test stores the
candidate depth and writes the pixel. -/
theorem SceneManager.rasterPixel_accept (B : Bary) (s : SceneManager) (p1_ p2_ p3_ : Vertex)
    (x y : Int) (d : ℚ) (hwf : s.WF)
    (hbary : baryInside s.eps (B.toBarycentric p1_.pos p2_.pos p3_.pos
      ⟨(x : ℚ), (y : ℚ), 0⟩) = true)
    (hd : getDepth s.depthBuffer x y = some d)
    (hz : (SceneManager.candidate B p1_.pos p2_.pos p3_.pos x y).z < d ∨
      |(SceneManager.candidate B p1_.pos p2_.pos p3_.pos x y).z - d| < s.eps) :
    ∃ s', s.rasterPixel B p1_ p2_ p3_ x y = some s' ∧ s'.WF ∧ s.SameSetup s' ∧
      getDepth s'.depthBuffer x y =
        some (SceneManager.candidate B p1_.pos p2_.pos p3_.pos x y).z ∧
      ∃ col, s'.img = ⟨x, y, col⟩ :: s.img := by
  obtain ⟨hcx, hcy⟩ := SceneManager.candidate_round B p1_.pos p2_.pos p3_.pos x y
  obtain ⟨hx, hy⟩ := getDepth_inside _ _ _ _ _ _ hwf.1 hwf.2 hd
  have hguard : ¬(x ≥ s.width ∨ y ≥ s.height ∨ x < 0 ∨ y < 0) := by
    rintro (h | h | h | h) <;> omega
  have hts : s.testAndSet (SceneManager.candidate B p1_.pos p2_.pos p3_.pos x y) =
      some (true, { s with depthBuffer :=
        (setDepth s.depthBuffer x y (SceneManager.candidate B p1_.pos p2_.pos p3_.pos x y).z) }) := by
    simp only [SceneManager.testAndSet, hcx, hcy, if_neg hguard, hd, if_pos hz]
  refine ⟨{ s with
      depthBuffer :=
        (setDepth s.depthBuffer x y (SceneManager.candidate B p1_.pos p2_.pos p3_.pos x y).z),
      img := (PixelWrite.mk x y ((s.pixel_shader p1_ p2_ p3_ (B.toBarycentric p1_.pos p2_.pos
        p3_.pos ⟨(x : ℚ), (y : ℚ), 0⟩)).scale 255) :: s.img) }, ?_, ?_, ?_, ?_, ?_⟩
  · unfold SceneManager.rasterPixel
    simp only [hbary, if_true, hts]
  · exact ⟨(setDepth_length _ _ _ _).trans hwf.1, setDepth_rows _ _ _ _ _ hwf.2⟩
  · exact SceneManager.sameSetup_refl s
  · exact getDepth_setDepth_same _ _ _ _ _ hd
  · exact ⟨_, rfl⟩

/-- The first pixel of the traversal (lowest row, lowest column), when accepted, keeps its
depth and its colour write through the rest of the traversal. -/
theorem SceneManager.rasterRows_first_pixel (B : Bary) (s : SceneManager)
    (p1_ p2_ p3_ : Vertex) (x y : Int) (xt yt : List Int) (d : ℚ) (hwf : s.WF)
    (hxt : x ∉ xt) (hyt : y ∉ yt)
    (hbary : baryInside s.eps (B.toBarycentric p1_.pos p2_.pos p3_.pos
      ⟨(x : ℚ), (y : ℚ), 0⟩) = true)
    (hd : getDepth s.depthBuffer x y = some d)
    (hz : (SceneManager.candidate B p1_.pos p2_.pos p3_.pos x y).z < d ∨
      |(SceneManager.candidate B p1_.pos p2_.pos p3_.pos x y).z - d| < s.eps) :
    ∃ s', SceneManager.rasterRows B p1_ p2_ p3_ (x :: xt) (y :: yt) s = some s' ∧
      getDepth s'.depthBuffer x y =
        some (SceneManager.candidate B p1_.pos p2_.pos p3_.pos x y).z ∧
      ∃ w ∈ s'.img, w.x = x ∧ w.y = y := by
  obtain ⟨s1, hpix, hwf1, _, hd1, col, himg1⟩ :=
    SceneManager.rasterPixel_accept B s p1_ p2_ p3_ x y d hwf hbary hd hz
  obtain ⟨s2, hrow, hwf2, _, ⟨n2, himg2, _⟩, hdep2⟩ :=
    SceneManager.rasterRow_confined B p1_ p2_ p3_ y xt s1 hwf1
  obtain ⟨s3, hrows, _, _, ⟨n3, himg3, _⟩, hdep3⟩ :=
    SceneManager.rasterRows_confined B p1_ p2_ p3_ (x :: xt) yt s2 hwf2
  refine ⟨s3, ?_, ?_, ⟨⟨x, y, col⟩, ?_, rfl, rfl⟩⟩
  · simp only [SceneManager.rasterRows, SceneManager.rasterRow, hpix, hrow]
    exact hrows
  · rw [hdep3 x y (fun h => hyt h.1.2), hdep2 x y (fun h => hxt h.1.1)]
    exact hd1
  · rw [himg3, himg2, himg1]
    simp

theorem ceil_fifty_rows : ⌈max (max (10 : ℚ) 10) 50⌉ = 50 := by
  have h : max (max (10 : ℚ) 10) 50 = ((50 : Int) : ℚ) := by norm_num
  rw [h, Int.ceil_intCast]

theorem floor_ten : ⌊min (min (10 : ℚ) 50) 10⌋ = 10 := by
  have h : min (min (10 : ℚ) 50) 10 = ((10 : Int) : ℚ) := by norm_num
  rw [h, Int.floor_intCast]

theorem floor_ten_rows : ⌊min (min (10 : ℚ) 10) 50⌋ = 10 := by
  have h : min (min (10 : ℚ) 10) 50 = ((10 : Int) : ℚ) := by norm_num
  rw [h, Int.floor_intCast]

theorem specBary_inside_50_10 :
    baryInside scene64.eps (specBary.toBarycentric ⟨10, 10, 1 / 2⟩ ⟨50, 10, 1 / 2⟩
      ⟨10, 50, 1 / 2⟩ ⟨50, 10, 0⟩) = true := by
  simp only [baryInside, specBary, scene64, decide_eq_true_eq]
  norm_num

theorem specBary_inside_10_50 :
    baryInside scene64.eps (specBary.toBarycentric ⟨10, 10, 1 / 2⟩ ⟨50, 10, 1 / 2⟩
      ⟨10, 50, 1 / 2⟩ ⟨10, 50, 0⟩) = true := by
  simp only [baryInside, specBary, scene64, decide_eq_true_eq]
  norm_num

theorem specBary_inside_10_10 :
    baryInside scene64.eps (specBary.toBarycentric ⟨10, 10, 1 / 2⟩ ⟨50, 10, 1 / 2⟩
      ⟨10, 50, 1 / 2⟩ ⟨((10 : Int) : ℚ), ((10 : Int) : ℚ), 0⟩) = true := by
  simp only [baryInside, specBary, scene64, decide_eq_true_eq]
  norm_num

theorem specBary_candidate_10_10 :
    (SceneManager.candidate specBary ⟨10, 10, 1 / 2⟩ ⟨50, 10, 1 / 2⟩ ⟨10, 50, 1 / 2⟩ 10 10).z =
      1 / 2 := by
  simp only [SceneManager.candidate, specBary]
  norm_num

/-- The traversal of a triangle with screen vertices (10,10), (50,10), (10,50) over the
cleared 64 x 64 frame: the vertex pixel (10,10) is tested and painted, the vertex pixels
(50,10) and (10,50) are left at the reset depth without a colour. -/
theorem SceneManager.traverse_triangle (q1 q2 q3 : Vertex) (h1 : q1.pos = ⟨10, 10, 1 / 2⟩)
    (h2 : q2.pos = ⟨50, 10, 1 / 2⟩) (h3 : q3.pos = ⟨10, 50, 1 / 2⟩) :
    ∃ s', scene64.traverse specBary q1 q2 q3 = some s' ∧
      getDepth s'.depthBuffer 10 10 = some (1 / 2) ∧ (∃ w ∈ s'.img, w.x = 10 ∧ w.y = 10) ∧
      getDepth s'.depthBuffer 50 10 = some FLT_MAX ∧
      getDepth s'.depthBuffer 10 50 = some FLT_MAX ∧
      ∀ w ∈ s'.img, ¬(w.x = 50 ∧ w.y = 10) ∧ ¬(w.x = 10 ∧ w.y = 50) := by
  obtain ⟨s', htr, _, _, ⟨new, himg, hnew⟩, hdep⟩ :=
    SceneManager.traverse_confined specBary scene64 q1 q2 q3 scene64_WF
  simp only [h1, h2, h3, ceil_fifty, ceil_fifty_rows, floor_ten, floor_ten_rows] at hnew hdep
  have hin : ∀ x y : Int, (0 ≤ x ∧ x < 64) → (0 ≤ y ∧ y < 64) → inFrame 64 64 x y :=
    fun _ _ hx hy => ⟨hx, hy⟩
  -- the first pixel of the traversal
  have hfirst : ∃ s'', SceneManager.rasterRows specBary q1 q2 q3 (10 :: intRange (10 + 1) 50)
      (10 :: intRange (10 + 1) 50) scene64 = some s'' ∧
      getDepth s''.depthBuffer 10 10 =
        some (SceneManager.candidate specBary q1.pos q2.pos q3.pos 10 10).z ∧
      ∃ w ∈ s''.img, w.x = 10 ∧ w.y = 10 := by
    apply SceneManager.rasterRows_first_pixel specBary scene64 q1 q2 q3 10 10 _ _ FLT_MAX
      scene64_WF
    · intro h
      have := ((mem_intRange _ _ _).mp h).1
      omega
    · intro h
      have := ((mem_intRange _ _ _).mp h).1
      omega
    · rw [h1, h2, h3]; exact specBary_inside_10_10
    · exact scene64_getDepth 10 10 (hin 10 10 (by omega) (by omega))
    · left
      rw [h1, h2, h3, specBary_candidate_10_10]
      norm_num [FLT_MAX]
  obtain ⟨s'', hrows, hd10, hw10⟩ := hfirst
  have hsame : s'' = s' := by
    have htr2 : scene64.traverse specBary q1 q2 q3 = some s'' := by
      unfold SceneManager.traverse
      simp only [h1, h2, h3, ceil_fifty, ceil_fifty_rows, floor_ten, floor_ten_rows]
      rw [intRange_cons 10 50 (by omega)]
      exact hrows
    rw [htr] at htr2
    exact (Option.some.inj htr2).symm
  subst hsame
  rw [h1, h2, h3, specBary_candidate_10_10] at hd10
  refine ⟨s'', htr, hd10, hw10, ?_, ?_, ?_⟩
  · rw [hdep 50 10 (fun h => absurd h.1.1.2 (by omega))]
    exact scene64_getDepth 50 10 (hin 50 10 (by omega) (by omega))
  · rw [hdep 10 50 (fun h => absurd h.1.2.2 (by omega))]
    exact scene64_getDepth 10 50 (hin 10 50 (by omega) (by omega))
  · intro w hw
    have hwn : w ∈ new := by
      rw [himg] at hw
      simpa [scene64] using hw
    have hP := hnew w hwn
    constructor
    · rintro ⟨hx, _⟩
      have := hP.1.1.2
      omega
    · rintro ⟨_, hy⟩
      have := hP.1.2.2
      omega

/-- C10, the code at the claim's own example: the triangle whose screen vertices are
(10,10), (50,10), (10,50), drawn on the cleared 64 x 64 frame. The weights of the vertex
pixels (50,10) and (10,50) pass the `[0,1]`-within-`eps` test and both lie in the box
`floor(min) ≤ x ≤ ceil(max)`, `floor(min) ≤ y ≤ ceil(max)`, yet neither is submitted: their
depth stays at the reset value and no colour is written there, while the vertex pixel
(10,10) is submitted, stores the depth 1/2 and is painted. The loops stop before
`ceil(max)`. -/
theorem SceneManager.rasterBarTriangle_vertex_pixels :
    (denormolize 64 64 triA).pos = ⟨10, 10, 1 / 2⟩ ∧
    (denormolize 64 64 triB).pos = ⟨50, 10, 1 / 2⟩ ∧
    (denormolize 64 64 triC).pos = ⟨10, 50, 1 / 2⟩ ∧
    baryInside scene64.eps (specBary.toBarycentric ⟨10, 10, 1 / 2⟩ ⟨50, 10, 1 / 2⟩
      ⟨10, 50, 1 / 2⟩ ⟨50, 10, 0⟩) = true ∧
    baryInside scene64.eps (specBary.toBarycentric ⟨10, 10, 1 / 2⟩ ⟨50, 10, 1 / 2⟩
      ⟨10, 50, 1 / 2⟩ ⟨10, 50, 0⟩) = true ∧
    ∃ s', scene64.rasterBarTriangle specBary triA triB triC = some s' ∧
      getDepth s'.depthBuffer 10 10 = some (1 / 2) ∧ (∃ w ∈ s'.img, w.x = 10 ∧ w.y = 10) ∧
      getDepth s'.depthBuffer 50 10 = some FLT_MAX ∧
      getDepth s'.depthBuffer 10 50 = some FLT_MAX ∧
      ∀ w ∈ s'.img, ¬(w.x = 50 ∧ w.y = 10) ∧ ¬(w.x = 10 ∧ w.y = 50) := by
  refine ⟨triA_screen, triB_screen, triC_screen, specBary_inside_50_10, specBary_inside_10_50,
    ?_⟩
  have hraster : scene64.rasterBarTriangle specBary triA triB triC =
      scene64.traverse specBary (denormolize 64 64 triA) (denormolize 64 64 triB)
        (denormolize 64 64 triC) := by
    unfold SceneManager.rasterBarTriangle
    rw [if_neg (by simp [scene64_clip_triA])]
    rfl
  rw [hraster]
  exact SceneManager.traverse_triangle _ _ _ triA_screen triB_screen triC_screen

/-- C4 at concrete inputs: the pixel step at (10, 10) of the triangle with screen vertices
(10,10), (50,10), (10,50) on the cleared 64 x 64 frame does write a colour, and it does so
after `testAndSet` accepted the candidate rounding to (10, 10); and a whole call on `scene2`,
whose buffer has 2 rows of 2 cells, stays inside the frame. -/
theorem SceneManager.rasterBarTriangle_gated_witness :
    scene2.WF ∧
    (∃ st', scene64.rasterPixel specBary (vtx 10 10 (1 / 2)) (vtx 50 10 (1 / 2))
        (vtx 10 50 (1 / 2)) 10 10 = some st' ∧ st'.img ≠ scene64.img ∧
      cround (SceneManager.candidate specBary (vtx 10 10 (1 / 2)).pos (vtx 50 10 (1 / 2)).pos
        (vtx 10 50 (1 / 2)).pos 10 10).x = 10 ∧
      cround (SceneManager.candidate specBary (vtx 10 10 (1 / 2)).pos (vtx 50 10 (1 / 2)).pos
        (vtx 10 50 (1 / 2)).pos 10 10).y = 10 ∧
      ∃ s1 col, scene64.testAndSet (SceneManager.candidate specBary (vtx 10 10 (1 / 2)).pos
          (vtx 50 10 (1 / 2)).pos (vtx 10 50 (1 / 2)).pos 10 10) = some (true, s1) ∧
        st'.img = ⟨10, 10, col⟩ :: scene64.img ∧ st'.depthBuffer = s1.depthBuffer) ∧
    ∃ s', scene2.rasterBarTriangle specBary (vtx 0 0 (1 / 2)) (vtx 1 0 (1 / 2))
        (vtx 0 1 (1 / 2)) = some s' ∧ s'.WF ∧
      (∃ new : List PixelWrite, s'.img = new ++ scene2.img ∧
        ∀ w ∈ new, inFrame scene2.width scene2.height w.x w.y) ∧
      (∀ i j, ¬inFrame scene2.width scene2.height i j →
        getDepth s'.depthBuffer i j = getDepth scene2.depthBuffer i j) := by
  have hwf : scene2.WF := by simp [SceneManager.WF, scene2]
  obtain ⟨st', hstep, _, _, _, col, himg⟩ :=
    SceneManager.rasterPixel_accept specBary scene64 (vtx 10 10 (1 / 2)) (vtx 50 10 (1 / 2))
      (vtx 10 50 (1 / 2)) 10 10 FLT_MAX scene64_WF specBary_inside_10_10
      (scene64_getDepth 10 10 ⟨by omega, by omega⟩)
      (Or.inl (by
        have hz := specBary_candidate_10_10
        simp only [vtx]
        rw [hz]
        norm_num [FLT_MAX]))
  have hne : st'.img ≠ scene64.img := by
    rw [himg]
    exact List.cons_ne_self _ _
  have hall := SceneManager.rasterBarTriangle_gated specBary scene2 (vtx 0 0 (1 / 2))
    (vtx 1 0 (1 / 2)) (vtx 0 1 (1 / 2)) hwf
  obtain ⟨hcx, hcy, hrest⟩ := hall.1 scene64 st' (vtx 10 10 (1 / 2)) (vtx 50 10 (1 / 2))
    (vtx 10 50 (1 / 2)) 10 10 hstep hne
  exact ⟨hwf, ⟨st', hstep, hne, hcx, hcy, hrest⟩, hall.2⟩

/-! ## Quadratic roots -/

theorem SIGN_sq {K : Type} [LinearOrderedField K] (x : K) :
    ((SIGN x : Int) : K) * ((SIGN x : Int) : K) = 1 := by
  unfold SIGN
  split <;> simp

theorem SIGN_of_neg {K : Type} [LinearOrderedField K] (x : K) (h : x < 0) : SIGN x = -1 := by
  unfold SIGN
  rw [if_pos h]

theorem SIGN_of_nonneg {K : Type} [LinearOrderedField K] (x : K) (h : 0 ≤ x) : SIGN x = 1 := by
  unfold SIGN
  rw [if_neg (not_lt.mpr h)]

/-- With a square-root function that is right at the discriminant, the branch `A ≠ 0`,
`D ≥ 0` returns 2 and two values whose sum and product, scaled by `A`, are `-B` and `C`. -/
theorem quadraticRoots_two_roots {K : Type} [LinearOrderedField K] (sqrt : K → K)
    (A B C : K) (roots : K × K) (hA : A ≠ 0) (hD : 0 ≤ B * B - 4 * A * C)
    (hs0 : 0 ≤ sqrt (B * B - 4 * A * C))
    (hs : sqrt (B * B - 4 * A * C) * sqrt (B * B - 4 * A * C) = B * B - 4 * A * C) :
    ∃ r0 r1, quadraticRoots sqrt A B C roots = (2, (r0, r1)) ∧
      A * (r0 + r1) = -B ∧ A * (r0 * r1) = C := by
  unfold quadraticRoots
  rw [if_neg hA]
  simp only
  rw [if_neg (not_lt.mpr hD)]
  by_cases hq : -(B + ((SIGN B : Int) : K) * sqrt (B * B - 4 * A * C)) / 2 = 0
  · rw [if_neg (not_not.mpr hq), hq]
    refine ⟨0 / A, 0 / A, rfl, ?_, ?_⟩
    · have hsum : B + ((SIGN B : Int) : K) * sqrt (B * B - 4 * A * C) = 0 := by
        have := hq
        field_simp at this
        linarith
      have hB : B = 0 := by
        rcases lt_or_le B 0 with hneg | hpos
        · rw [SIGN_of_neg B hneg] at hsum
          push_cast at hsum
          linarith
        · rw [SIGN_of_nonneg B hpos] at hsum
          push_cast at hsum
          linarith
      rw [hB]
      simp
    · have hsum : B + ((SIGN B : Int) : K) * sqrt (B * B - 4 * A * C) = 0 := by
        have := hq
        field_simp at this
        linarith
      have hBs : B = 0 ∧ sqrt (B * B - 4 * A * C) = 0 := by
        rcases lt_or_le B 0 with hneg | hpos
        · rw [SIGN_of_neg B hneg] at hsum
          push_cast at hsum
          exact absurd hneg (by linarith)
        · rw [SIGN_of_nonneg B hpos] at hsum
          push_cast at hsum
          constructor <;> linarith
      have hD0 : B * B - 4 * A * C = 0 := by
        rw [← hs, hBs.2, mul_zero]
      have hAC : A * C = 0 := by
        rw [hBs.1] at hD0
        linarith
      rcases mul_eq_zero.mp hAC with h | h
      · exact absurd h hA
      · rw [h]; simp
  · rw [if_pos hq]
    refine ⟨_, _, rfl, ?_, ?_⟩
    · obtain ⟨q, hqdef⟩ : ∃ q : K, q = -(B + ((SIGN B : Int) : K) *
          sqrt (B * B - 4 * A * C)) / 2 := ⟨_, rfl⟩
      rw [← hqdef] at hq ⊢
      have h1 : 2 * q + B = -(((SIGN B : Int) : K) * sqrt (B * B - 4 * A * C)) := by
        rw [hqdef]; ring
      have h2 : (2 * q + B) * (2 * q + B) = B * B - 4 * A * C := by
        rw [h1]
        calc -(((SIGN B : Int) : K) * sqrt (B * B - 4 * A * C)) *
              -(((SIGN B : Int) : K) * sqrt (B * B - 4 * A * C))
            = (((SIGN B : Int) : K) * ((SIGN B : Int) : K)) *
                (sqrt (B * B - 4 * A * C) * sqrt (B * B - 4 * A * C)) := by ring
          _ = B * B - 4 * A * C := by rw [SIGN_sq, hs, one_mul]
      have hkey : q * q + A * C = -B * q := by
        have h3 : q * q + B * q + A * C =
            ((2 * q + B) * (2 * q + B) - (B * B - 4 * A * C)) / 4 := by ring
        rw [h2, sub_self, zero_div] at h3
        linarith
      calc A * (q / A + C / q) = (q * q + A * C) / q := by
            field_simp
            ring
        _ = (-B * q) / q := by rw [hkey]
        _ = -B := by field_simp
    · obtain ⟨q, hqdef⟩ : ∃ q : K, q = -(B + ((SIGN B : Int) : K) *
          sqrt (B * B - 4 * A * C)) / 2 := ⟨_, rfl⟩
      rw [← hqdef] at hq ⊢
      field_simp
      ring

/-- C11: for real `A ≠ 0`, `B`, `C` with `B^2 - 4AC ≥ 0`, `quadraticRoots` returns 2 and the
two stored values have sum `-B/A` and product `C/A`, so that `A x^2 + B x + C` factors as
`A (x - roots[0]) (x - roots[1])`; for `(1, -3, 2)` the stored values are 2 and 1. -/
theorem quadraticRoots_vieta (A B C : ℝ) (roots : ℝ × ℝ) (hA : A ≠ 0)
    (hD : 0 ≤ B * B - 4 * A * C) :
    (quadraticRoots Real.sqrt A B C roots).1 = 2 ∧
    (quadraticRoots Real.sqrt A B C roots).2.1 + (quadraticRoots Real.sqrt A B C roots).2.2 =
      -B / A ∧
    (quadraticRoots Real.sqrt A B C roots).2.1 * (quadraticRoots Real.sqrt A B C roots).2.2 =
      C / A ∧
    (∀ x : ℝ, A * x * x + B * x + C =
      A * (x - (quadraticRoots Real.sqrt A B C roots).2.1) *
        (x - (quadraticRoots Real.sqrt A B C roots).2.2)) ∧
    (quadraticRoots Real.sqrt (1 : ℝ) (-3) 2 roots).2 = (2, 1) := by
  obtain ⟨r0, r1, hr, hsum, hprod⟩ := quadraticRoots_two_roots Real.sqrt A B C roots hA hD
    (Real.sqrt_nonneg _) (Real.mul_self_sqrt hD)
  rw [hr]
  simp only
  refine ⟨trivial, ?_, ?_, ?_, ?_⟩
  · rw [eq_div_iff hA, mul_comm]; exact hsum
  · rw [eq_div_iff hA, mul_comm]; exact hprod
  · intro x
    have e : A * (x - r0) * (x - r1) = A * x * x - A * (r0 + r1) * x + A * (r0 * r1) := by ring
    rw [e, hsum, hprod]
    ring
  · have hD1 : ((-3 : ℝ) * (-3) - 4 * 1 * 2) = 1 := by norm_num
    have hS : SIGN (-3 : ℝ) = -1 := SIGN_of_neg _ (by norm_num)
    simp only [quadraticRoots, hD1, hS, Real.sqrt_one]
    norm_num

/-- C11 at the coefficients `(1, -3, 2)`. -/
theorem quadraticRoots_vieta_witness :
    (1 : ℝ) ≠ 0 ∧ (0 : ℝ) ≤ (-3) * (-3) - 4 * 1 * 2 ∧
    ((quadraticRoots Real.sqrt (1 : ℝ) (-3) 2 (0, 0)).1 = 2 ∧
    (quadraticRoots Real.sqrt (1 : ℝ) (-3) 2 (0, 0)).2.1 +
      (quadraticRoots Real.sqrt (1 : ℝ) (-3) 2 (0, 0)).2.2 = -(-3) / 1 ∧
    (quadraticRoots Real.sqrt (1 : ℝ) (-3) 2 (0, 0)).2.1 *
      (quadraticRoots Real.sqrt (1 : ℝ) (-3) 2 (0, 0)).2.2 = 2 / 1 ∧
    (∀ x : ℝ, 1 * x * x + (-3) * x + 2 =
      1 * (x - (quadraticRoots Real.sqrt (1 : ℝ) (-3) 2 (0, 0)).2.1) *
        (x - (quadraticRoots Real.sqrt (1 : ℝ) (-3) 2 (0, 0)).2.2)) ∧
    (quadraticRoots Real.sqrt (1 : ℝ) (-3) 2 (0, 0)).2 = (2, 1)) :=
  ⟨by norm_num, by norm_num,
    quadraticRoots_vieta 1 (-3) 2 (0, 0) (by norm_num) (by norm_num)⟩

/-- C13: for `A = 0` and `B ≠ 0`, `quadraticRoots` returns 1, stores `roots[0] = -C/B`, the
unique solution of `B x + C = 0`, and leaves `roots[1]` as it was; for `(0, 2, -4)` the root
is 2. -/
theorem quadraticRoots_linear {K : Type} [LinearOrderedField K] (sqrt : K → K) (A B C : K)
    (roots : K × K) (hA : A = 0) (hB : B ≠ 0) :
    quadraticRoots sqrt A B C roots = (1, (-C / B, roots.2)) ∧
    (∀ x : K, B * x + C = 0 ↔ x = -C / B) ∧
    quadraticRoots sqrt 0 2 (-4) roots = (1, (2, roots.2)) := by
  refine ⟨?_, ?_, ?_⟩
  · unfold quadraticRoots
    rw [if_pos hA, if_neg hB]
  · intro x
    rw [eq_div_iff hB]
    constructor
    · intro h; linarith
    · intro h; linarith
  · unfold quadraticRoots
    rw [if_pos rfl, if_neg (by norm_num)]
    norm_num

/-- C13 on the rationals at `(0, 2, -4)` with `roots = (7, 9)` before the call. -/
theorem quadraticRoots_linear_witness :
    (0 : ℚ) = 0 ∧ (2 : ℚ) ≠ 0 ∧
    (quadraticRoots (fun x : ℚ => x) 0 2 (-4) (7, 9) = (1, (-(-4) / 2, ((7 : ℚ), (9 : ℚ)).2)) ∧
    (∀ x : ℚ, 2 * x + (-4) = 0 ↔ x = -(-4) / 2) ∧
    quadraticRoots (fun x : ℚ => x) 0 2 (-4) (7, 9) = (1, (2, ((7 : ℚ), (9 : ℚ)).2))) :=
  ⟨rfl, by norm_num, quadraticRoots_linear (fun x : ℚ => x) 0 2 (-4) (7, 9) rfl (by norm_num)⟩

/-- C14: `quadraticRoots` returns 0 if and only if `A = 0` and `B = 0`, or `A ≠ 0` and
`B^2 - 4AC < 0`; when it returns 0 the array `roots` is as it was before the call; for
`(1, 0, 1)` it returns 0. -/
theorem quadraticRoots_zero_iff {K : Type} [LinearOrderedField K] (sqrt : K → K) (A B C : K)
    (roots : K × K) :
    ((quadraticRoots sqrt A B C roots).1 = 0 ↔
      (A = 0 ∧ B = 0) ∨ (A ≠ 0 ∧ B * B - 4 * A * C < 0)) ∧
    ((quadraticRoots sqrt A B C roots).1 = 0 → (quadraticRoots sqrt A B C roots).2 = roots) ∧
    (quadraticRoots sqrt 1 0 1 roots).1 = 0 := by
  have hmain : ∀ a b c : K, ((quadraticRoots sqrt a b c roots).1 = 0 ↔
      (a = 0 ∧ b = 0) ∨ (a ≠ 0 ∧ b * b - 4 * a * c < 0)) ∧
      ((quadraticRoots sqrt a b c roots).1 = 0 → (quadraticRoots sqrt a b c roots).2 = roots) := by
    intro a b c
    unfold quadraticRoots
    by_cases ha : a = 0
    · rw [if_pos ha]
      by_cases hb : b = 0
      · rw [if_pos hb]
        exact ⟨⟨fun _ => Or.inl ⟨ha, hb⟩, fun _ => rfl⟩, fun _ => rfl⟩
      · rw [if_neg hb]
        refine ⟨⟨fun h => absurd h (by simp), ?_⟩, fun h => absurd h (by simp)⟩
        rintro (⟨_, h⟩ | ⟨h, _⟩)
        · exact absurd h hb
        · exact absurd ha h
    · rw [if_neg ha]
      simp only
      by_cases hd : b * b - 4 * a * c < 0
      · rw [if_pos hd]
        exact ⟨⟨fun _ => Or.inr ⟨ha, hd⟩, fun _ => rfl⟩, fun _ => rfl⟩
      · rw [if_neg hd]
        have hcount : ∀ q : K, (if q ≠ 0 then ((2 : Nat), (q / a, c / q))
            else ((2 : Nat), (q / a, q / a))).1 = 2 := by
          intro q
          split <;> rfl
        refine ⟨⟨fun h => ?_, ?_⟩, fun h => ?_⟩
        · rw [hcount] at h
          exact absurd h (by decide)
        · rintro (⟨h, _⟩ | ⟨_, h⟩)
          · exact absurd h ha
          · exact absurd h hd
        · rw [hcount] at h
          exact absurd h (by decide)
  refine ⟨(hmain A B C).1, (hmain A B C).2, ?_⟩
  exact ((hmain 1 0 1).1).mpr (Or.inr ⟨one_ne_zero, by norm_num⟩)

/-- C14 on the rationals at `(1, 0, 1)`: the call returns 0 and `roots = (7, 9)` is kept. -/
theorem quadraticRoots_zero_iff_witness :
    (quadraticRoots (fun x : ℚ => x) 1 0 1 (7, 9)).1 = 0 ∧
    (quadraticRoots (fun x : ℚ => x) 1 0 1 (7, 9)).2 = (7, 9) ∧
    ((1 : ℚ) = 0 ∧ (0 : ℚ) = 0 ∨ (1 : ℚ) ≠ 0 ∧ (0 : ℚ) * 0 - 4 * 1 * 1 < 0) :=
  have h := quadraticRoots_zero_iff (fun x : ℚ => x) 1 0 1 (7, 9)
  ⟨h.2.2, h.2.1 h.2.2, h.1.mp h.2.2⟩

/-- C12 fails as stated: `x^2 + 2x + 1 = 0` has the single real solution `-1`, and for
`(A, B, C) = (1, 2, 1)` `quadraticRoots` returns 2 (storing `-1` twice). -/
theorem quadraticRoots_double_root_counterexample :
    (quadraticRoots Real.sqrt (1 : ℝ) 2 1 (0, 0)).1 = 2 ∧
    (quadraticRoots Real.sqrt (1 : ℝ) 2 1 (0, 0)).2 = (-1, -1) ∧
    {x : ℝ | 1 * x * x + 2 * x + 1 = 0}.ncard = 1 ∧
    (quadraticRoots Real.sqrt (1 : ℝ) 2 1 (0, 0)).1 ≠
      {x : ℝ | 1 * x * x + 2 * x + 1 = 0}.ncard := by
  have hD0 : ((2 : ℝ) * 2 - 4 * 1 * 1) = 0 := by norm_num
  have hS : SIGN (2 : ℝ) = 1 := SIGN_of_nonneg _ (by norm_num)
  have hval : quadraticRoots Real.sqrt (1 : ℝ) 2 1 (0, 0) = (2, (-1, -1)) := by
    simp only [quadraticRoots, hD0, hS, Real.sqrt_zero]
    norm_num
  have hset : {x : ℝ | 1 * x * x + 2 * x + 1 = 0} = {-1} := by
    ext x
    simp only [Set.mem_setOf_eq, Set.mem_singleton_iff]
    constructor
    · intro h
      have h2 : (x + 1) * (x + 1) = 0 := by linarith
      have h3 := mul_self_eq_zero.mp h2
      linarith
    · intro h
      rw [h]; norm_num
  have hcard : {x : ℝ | 1 * x * x + 2 * x + 1 = 0}.ncard = 1 := by
    rw [hset, Set.ncard_singleton]
  refine ⟨by rw [hval], by rw [hval], hcard, ?_⟩
  rw [hcard, hval]
  decide

theorem quadratic_poly_factor (A B C r0 r1 : ℝ) (hsum : A * (r0 + r1) = -B)
    (hprod : A * (r0 * r1) = C) :
    Polynomial.C A * Polynomial.X ^ 2 + Polynomial.C B * Polynomial.X + Polynomial.C C =
      Polynomial.C A * ((Polynomial.X - Polynomial.C r0) * (Polynomial.X - Polynomial.C r1)) := by
  apply Polynomial.funext
  intro x
  simp only [Polynomial.eval_add, Polynomial.eval_mul, Polynomial.eval_C, Polynomial.eval_pow,
    Polynomial.eval_X, Polynomial.eval_sub]
  have e : A * ((x - r0) * (x - r1)) = A * x ^ 2 - A * (r0 + r1) * x + A * (r0 * r1) := by ring
  rw [e, hsum, hprod]
  ring

theorem quadratic_no_root (A B C x : ℝ) (hD : B * B - 4 * A * C < 0) :
    A * x * x + B * x + C ≠ 0 := by
  intro h
  have h2 : (2 * A * x + B) * (2 * A * x + B) = B * B - 4 * A * C := by
    have e : (2 * A * x + B) * (2 * A * x + B) =
        4 * A * (A * x * x + B * x + C) + (B * B - 4 * A * C) := by ring
    rw [e, h]; ring
  have h3 := mul_self_nonneg (2 * A * x + B)
  linarith

/-- The count returned equals the number of real roots of `A X^2 + B X + C` counted with
multiplicity. -/
theorem quadraticRoots_card_roots (A B C : ℝ) (roots : ℝ × ℝ) (h : A ≠ 0 ∨ B ≠ 0) :
    (quadraticRoots Real.sqrt A B C roots).1 =
      Multiset.card (Polynomial.roots
        (Polynomial.C A * Polynomial.X ^ 2 + Polynomial.C B * Polynomial.X + Polynomial.C C)) := by
  by_cases hA : A = 0
  · have hB : B ≠ 0 := by
      rcases h with h | h
      · exact absurd hA h
      · exact h
    have hp : Polynomial.C A * Polynomial.X ^ 2 + Polynomial.C B * Polynomial.X +
        Polynomial.C C = Polynomial.C B * (Polynomial.X - Polynomial.C (-C / B)) := by
      apply Polynomial.funext
      intro x
      simp only [Polynomial.eval_add, Polynomial.eval_mul, Polynomial.eval_C,
        Polynomial.eval_pow, Polynomial.eval_X, Polynomial.eval_sub, hA]
      field_simp
      ring
    rw [hp, Polynomial.roots_C_mul _ hB, Polynomial.roots_X_sub_C, Multiset.card_singleton]
    unfold quadraticRoots
    rw [if_pos hA, if_neg hB]
  · by_cases hD : B * B - 4 * A * C < 0
    · have hroots : Polynomial.roots (Polynomial.C A * Polynomial.X ^ 2 +
          Polynomial.C B * Polynomial.X + Polynomial.C C) = 0 := by
        apply Multiset.eq_zero_of_forall_not_mem
        intro x hx
        rw [Polynomial.mem_roots'] at hx
        have hx2 := hx.2
        simp only [Polynomial.IsRoot, Polynomial.eval_add, Polynomial.eval_mul,
          Polynomial.eval_C, Polynomial.eval_pow, Polynomial.eval_X] at hx2
        apply quadratic_no_root A B C x hD
        rw [← hx2]; ring
      rw [hroots, Multiset.card_zero]
      unfold quadraticRoots
      rw [if_neg hA]
      simp only
      rw [if_pos hD]
    · have hD' : 0 ≤ B * B - 4 * A * C := not_lt.mp hD
      obtain ⟨r0, r1, hr, hsum, hprod⟩ := quadraticRoots_two_roots Real.sqrt A B C roots hA hD'
        (Real.sqrt_nonneg _) (Real.mul_self_sqrt hD')
      rw [hr, quadratic_poly_factor A B C r0 r1 hsum hprod, Polynomial.roots_C_mul _ hA,
        Polynomial.roots_mul (mul_ne_zero (Polynomial.X_sub_C_ne_zero r0)
          (Polynomial.X_sub_C_ne_zero r1)),
        Polynomial.roots_X_sub_C, Polynomial.roots_X_sub_C]
      rfl

/-- Away from a double root the count returned is the number of distinct real solutions. -/
theorem quadraticRoots_ncard (A B C : ℝ) (roots : ℝ × ℝ) (h : A ≠ 0 ∨ B ≠ 0)
    (hD0 : B * B - 4 * A * C ≠ 0) :
    (quadraticRoots Real.sqrt A B C roots).1 = {x : ℝ | A * x * x + B * x + C = 0}.ncard := by
  by_cases hA : A = 0
  · have hB : B ≠ 0 := by
      rcases h with h | h
      · exact absurd hA h
      · exact h
    have hset : {x : ℝ | A * x * x + B * x + C = 0} = {-C / B} := by
      ext x
      simp only [Set.mem_setOf_eq, Set.mem_singleton_iff, hA, zero_mul, zero_add]
      rw [eq_div_iff hB]
      constructor
      · intro hx; linarith
      · intro hx; linarith
    rw [hset, Set.ncard_singleton]
    unfold quadraticRoots
    rw [if_pos hA, if_neg hB]
  · by_cases hD : B * B - 4 * A * C < 0
    · have hset : {x : ℝ | A * x * x + B * x + C = 0} = ∅ := by
        ext x
        simp only [Set.mem_setOf_eq, Set.mem_empty_iff_false, iff_false]
        exact quadratic_no_root A B C x hD
      rw [hset, Set.ncard_empty]
      unfold quadraticRoots
      rw [if_neg hA]
      simp only
      rw [if_pos hD]
    · have hD' : 0 ≤ B * B - 4 * A * C := not_lt.mp hD
      obtain ⟨r0, r1, hr, hsum, hprod⟩ := quadraticRoots_two_roots Real.sqrt A B C roots hA hD'
        (Real.sqrt_nonneg _) (Real.mul_self_sqrt hD')
      have hne : r0 ≠ r1 := by
        intro e
        apply hD0
        rw [← e] at hsum hprod
        have hB : B = -(A * (r0 + r0)) := by linarith
        rw [hB, ← hprod]
        ring
      have hset : {x : ℝ | A * x * x + B * x + C = 0} = {r0, r1} := by
        ext x
        simp only [Set.mem_setOf_eq, Set.mem_insert_iff, Set.mem_singleton_iff]
        have e : A * x * x + B * x + C = A * ((x - r0) * (x - r1)) := by
          have e2 : A * ((x - r0) * (x - r1)) =
              A * x * x - A * (r0 + r1) * x + A * (r0 * r1) := by ring
          rw [e2, hsum, hprod]
          ring
        rw [e]
        constructor
        · intro hx
          rcases mul_eq_zero.mp hx with h1 | h1
          · exact absurd h1 hA
          · rcases mul_eq_zero.mp h1 with h2 | h2
            · exact Or.inl (by linarith)
            · exact Or.inr (by linarith)
        · rintro (hx | hx)
          · rw [hx]; ring
          · rw [hx]; ring
      rw [hr, hset, Set.ncard_pair hne]

/-- C12, amended: for real `A, B, C` with `A ≠ 0` or `B ≠ 0`, the count returned by
`quadraticRoots` is the number of real solutions of `A x^2 + B x + C = 0` counted with
multiplicity; it is the number of distinct solutions whenever `B^2 - 4AC ≠ 0`, and it is 2
for the double root of `A ≠ 0`, `B^2 - 4AC = 0`. -/
theorem quadraticRoots_count (A B C : ℝ) (roots : ℝ × ℝ) (h : A ≠ 0 ∨ B ≠ 0) :
    (quadraticRoots Real.sqrt A B C roots).1 =
      Multiset.card (Polynomial.roots
        (Polynomial.C A * Polynomial.X ^ 2 + Polynomial.C B * Polynomial.X + Polynomial.C C)) ∧
    (B * B - 4 * A * C ≠ 0 →
      (quadraticRoots Real.sqrt A B C roots).1 =
        {x : ℝ | A * x * x + B * x + C = 0}.ncard) ∧
    (A ≠ 0 → B * B - 4 * A * C = 0 → (quadraticRoots Real.sqrt A B C roots).1 = 2) := by
  refine ⟨quadraticRoots_card_roots A B C roots h, quadraticRoots_ncard A B C roots h, ?_⟩
  intro hA hD
  obtain ⟨r0, r1, hr, _, _⟩ := quadraticRoots_two_roots Real.sqrt A B C roots hA (le_of_eq hD.symm)
    (Real.sqrt_nonneg _) (Real.mul_self_sqrt (le_of_eq hD.symm))
  rw [hr]

/-- C12 (amended) at `(1, 2, 1)`, the double root of the counterexample, and at `(1, -3, 2)`
with its two distinct roots. -/
theorem quadraticRoots_count_witness :
    ((1 : ℝ) ≠ 0 ∨ (2 : ℝ) ≠ 0) ∧
    (quadraticRoots Real.sqrt (1 : ℝ) 2 1 (0, 0)).1 =
      Multiset.card (Polynomial.roots
        (Polynomial.C (1 : ℝ) * Polynomial.X ^ 2 + Polynomial.C 2 * Polynomial.X +
          Polynomial.C 1)) ∧
    (quadraticRoots Real.sqrt (1 : ℝ) 2 1 (0, 0)).1 = 2 ∧
    (quadraticRoots Real.sqrt (1 : ℝ) (-3) 2 (0, 0)).1 =
      {x : ℝ | 1 * x * x + (-3) * x + 2 = 0}.ncard :=
  ⟨Or.inl one_ne_zero,
    (quadraticRoots_count 1 2 1 (0, 0) (Or.inl one_ne_zero)).1,
    (quadraticRoots_count 1 2 1 (0, 0) (Or.inl one_ne_zero)).2.2 one_ne_zero (by norm_num),
    (quadraticRoots_count 1 (-3) 2 (0, 0) (Or.inl one_ne_zero)).2.1 (by norm_num)⟩

/-! ## Ray and box -/

theorem BoundingBox.boundsAt_sign (b : BoundingBox) (inv : ℚ) :
    b.boundsAt (if inv < 0 then 1 else 0) = some (b.near inv) ∧
    b.boundsAt (1 - (if inv < 0 then 1 else 0)) = some (b.far inv) := by
  unfold BoundingBox.boundsAt BoundingBox.near BoundingBox.far
  by_cases h : inv < 0
  · simp [h]
  · simp [h]

theorem ite_gt_eq_max (a c : ℚ) : (if c > a then c else a) = max a c := by
  rcases lt_or_le a c with h | h
  · rw [if_pos h, max_eq_right (le_of_lt h)]
  · rw [if_neg (not_lt.mpr h), max_eq_left h]

theorem ite_lt_eq_min (a c : ℚ) : (if c < a then c else a) = min a c := by
  rcases lt_or_le c a with h | h
  · rw [if_pos h, min_eq_right (le_of_lt h)]
  · rw [if_neg (not_lt.mpr h), min_eq_left h]

/-- For a ray with consistent sign entries every `bounds` index is 0 or 1, and the body of
`intersect` computes the intersection of the three slab intervals. -/
theorem BoundingBox.interval_of_consistent (b : BoundingBox) (r : Ray) (hr : r.Consistent) :
    b.interval r =
      if b.txmin r > b.tymax r ∨ b.tymin r > b.txmax r then some none
      else if max (b.txmin r) (b.tymin r) > b.tzmax r ∨
          b.tzmin r > min (b.txmax r) (b.tymax r) then some none
      else some (some (max (max (b.txmin r) (b.tymin r)) (b.tzmin r),
        min (min (b.txmax r) (b.tymax r)) (b.tzmax r))) := by
  obtain ⟨_, _, hs0, hs1, hs2⟩ := hr
  unfold BoundingBox.interval
  rw [hs0, hs1, hs2]
  rw [(b.boundsAt_sign r.invdirection.x).1, (b.boundsAt_sign r.invdirection.x).2,
    (b.boundsAt_sign r.invdirection.y).1, (b.boundsAt_sign r.invdirection.y).2,
    (b.boundsAt_sign r.invdirection.z).1, (b.boundsAt_sign r.invdirection.z).2]
  simp only [ite_gt_eq_max, ite_lt_eq_min]
  rfl

/-- On one axis, with a non-zero direction component `d` and `inv = 1/d`, the parameters
strictly between the slab's entry and exit are those whose point lies strictly between
`lo` and `hi`. -/
theorem slab_param_iff (lo hi o d inv t : ℚ) (hd : d ≠ 0) (hinv : inv = 1 / d) :
    (((if inv < 0 then hi else lo) - o) * inv < t ∧
      t < ((if inv < 0 then lo else hi) - o) * inv) ↔
    (lo < o + t * d ∧ o + t * d < hi) := by
  subst hinv
  rcases lt_or_gt_of_ne hd with hneg | hpos
  · have hinv : 1 / d < 0 := one_div_neg.mpr hneg
    rw [if_pos hinv, if_pos hinv, mul_one_div, mul_one_div, div_lt_iff_of_neg hneg,
      lt_div_iff_of_neg hneg]
    constructor
    · rintro ⟨h1, h2⟩; constructor <;> linarith
    · rintro ⟨h1, h2⟩; constructor <;> linarith
  · have hinv : ¬(1 / d < 0) := not_lt.mpr (le_of_lt (one_div_pos.mpr hpos))
    rw [if_neg hinv, if_neg hinv, mul_one_div, mul_one_div, div_lt_iff₀ hpos, lt_div_iff₀ hpos]
    constructor
    · rintro ⟨h1, h2⟩; constructor <;> linarith
    · rintro ⟨h1, h2⟩; constructor <;> linarith

theorem Ray.pointAt_zero (r : Ray) : r.pointAt 0 = r.origin := by
  unfold Ray.pointAt
  simp

theorem BoundingBox.x_slab_iff (b : BoundingBox) (r : Ray) (hr : r.Consistent) (t : ℚ) :
    (b.txmin r < t ∧ t < b.txmax r) ↔
      (b.bounds0.x < (r.pointAt t).x ∧ (r.pointAt t).x < b.bounds1.x) := by
  have h := slab_param_iff b.bounds0.x b.bounds1.x r.origin.x r.direction.x r.invdirection.x t
    hr.1.1 hr.2.1.1
  unfold BoundingBox.txmin BoundingBox.txmax BoundingBox.near BoundingBox.far Ray.pointAt
  by_cases hneg : r.invdirection.x < 0
  · simpa [hneg] using h
  · simpa [hneg] using h

theorem BoundingBox.y_slab_iff (b : BoundingBox) (r : Ray) (hr : r.Consistent) (t : ℚ) :
    (b.tymin r < t ∧ t < b.tymax r) ↔
      (b.bounds0.y < (r.pointAt t).y ∧ (r.pointAt t).y < b.bounds1.y) := by
  have h := slab_param_iff b.bounds0.y b.bounds1.y r.origin.y r.direction.y r.invdirection.y t
    hr.1.2.1 hr.2.1.2.1
  unfold BoundingBox.tymin BoundingBox.tymax BoundingBox.near BoundingBox.far Ray.pointAt
  by_cases hneg : r.invdirection.y < 0
  · simpa [hneg] using h
  · simpa [hneg] using h

theorem BoundingBox.z_slab_iff (b : BoundingBox) (r : Ray) (hr : r.Consistent) (t : ℚ) :
    (b.tzmin r < t ∧ t < b.tzmax r) ↔
      (b.bounds0.z < (r.pointAt t).z ∧ (r.pointAt t).z < b.bounds1.z) := by
  have h := slab_param_iff b.bounds0.z b.bounds1.z r.origin.z r.direction.z r.invdirection.z t
    hr.1.2.2 hr.2.1.2.2
  unfold BoundingBox.tzmin BoundingBox.tzmax BoundingBox.near BoundingBox.far Ray.pointAt
  by_cases hneg : r.invdirection.z < 0
  · simpa [hneg] using h
  · simpa [hneg] using h

/-- A parameter whose point lies strictly inside the box lies strictly inside the computed
interval, and no early return is taken. -/
theorem BoundingBox.interval_of_inner_param (b : BoundingBox) (r : Ray) (hr : r.Consistent)
    (t : ℚ) (hin : b.StrictlyInside (r.pointAt t)) :
    b.interval r = some (some (max (max (b.txmin r) (b.tymin r)) (b.tzmin r),
        min (min (b.txmax r) (b.tymax r)) (b.tzmax r))) ∧
      max (max (b.txmin r) (b.tymin r)) (b.tzmin r) < t ∧
      t < min (min (b.txmax r) (b.tymax r)) (b.tzmax r) := by
  obtain ⟨hx, hy, hz⟩ := hin
  obtain ⟨hx1, hx2⟩ := (b.x_slab_iff r hr t).mpr hx
  obtain ⟨hy1, hy2⟩ := (b.y_slab_iff r hr t).mpr hy
  obtain ⟨hz1, hz2⟩ := (b.z_slab_iff r hr t).mpr hz
  have hlo : max (max (b.txmin r) (b.tymin r)) (b.tzmin r) < t :=
    max_lt (max_lt hx1 hy1) hz1
  have hhi : t < min (min (b.txmax r) (b.tymax r)) (b.tzmax r) :=
    lt_min (lt_min hx2 hy2) hz2
  refine ⟨?_, hlo, hhi⟩
  rw [b.interval_of_consistent r hr]
  have e1 : ¬(b.txmin r > b.tymax r ∨ b.tymin r > b.txmax r) := by
    rintro (h | h) <;> linarith
  have e2 : ¬(max (b.txmin r) (b.tymin r) > b.tzmax r ∨
      b.tzmin r > min (b.txmax r) (b.tymax r)) := by
    rintro (h | h)
    · have := max_lt hx1 hy1
      linarith
    · have := lt_min hx2 hy2
      linarith
  rw [if_neg e1, if_neg e2]

/-- For every consistent ray whose origin lies strictly inside the box, the computed interval
has `tmin < 0 < tmax` and `intersect` returns false. -/
theorem BoundingBox.intersect_of_origin_inside (b : BoundingBox) (r : Ray) (hr : r.Consistent)
    (hin : b.StrictlyInside r.origin) :
    ∃ tmin tmax, b.interval r = some (some (tmin, tmax)) ∧ tmin < 0 ∧ 0 < tmax ∧
      b.intersect r = some false := by
  have hin0 : b.StrictlyInside (r.pointAt 0) := by rw [r.pointAt_zero]; exact hin
  obtain ⟨hint, hlo, hhi⟩ := b.interval_of_inner_param r hr 0 hin0
  refine ⟨_, _, hint, hlo, hhi, ?_⟩
  unfold BoundingBox.intersect
  rw [hint]
  simp only
  rw [SIGN_of_neg _ hlo, SIGN_of_nonneg _ (le_of_lt hhi)]
  rfl

theorem rayInside_consistent : rayInside.Consistent := by
  unfold Ray.Consistent rayInside
  norm_num

theorem rayCentre_consistent : rayCentre.Consistent := by
  unfold Ray.Consistent rayCentre
  norm_num

theorem box2_proper : box2.Proper := by
  unfold BoundingBox.Proper box2
  norm_num

/-- C15, the code at a ray starting inside the box: for `box2 = [0,2]^3` and the ray from its
centre `(1, 1, 1)` with direction `(1, -2, 4)` (inverse direction and sign entries as
prescribed), the computed interval is `tmin = -1/4 < 0 < 1/4 = tmax`, as the claim says, and
`intersect` returns false, because `SIGN(tmin) = -1` differs from `SIGN(tmax) = 1`. -/
theorem BoundingBox.intersect_origin_inside_false :
    box2.Proper ∧ rayInside.Consistent ∧ box2.StrictlyInside rayInside.origin ∧
    box2.interval rayInside = some (some (-1 / 4, 1 / 4)) ∧
    box2.intersect rayInside = some false := by
  have hin : box2.StrictlyInside rayInside.origin := by
    unfold BoundingBox.StrictlyInside box2 rayInside
    norm_num
  obtain ⟨tmin, tmax, _, _, _, hfalse⟩ :=
    BoundingBox.intersect_of_origin_inside box2 rayInside rayInside_consistent hin
  refine ⟨box2_proper, rayInside_consistent, hin, ?_, hfalse⟩
  rw [BoundingBox.interval_of_consistent box2 rayInside rayInside_consistent]
  have hx1 : box2.txmin rayInside = -1 := by
    norm_num [BoundingBox.txmin, BoundingBox.near, box2, rayInside]
  have hx2 : box2.txmax rayInside = 1 := by
    norm_num [BoundingBox.txmax, BoundingBox.far, box2, rayInside]
  have hy1 : box2.tymin rayInside = -1 / 2 := by
    norm_num [BoundingBox.tymin, BoundingBox.near, box2, rayInside]
  have hy2 : box2.tymax rayInside = 1 / 2 := by
    norm_num [BoundingBox.tymax, BoundingBox.far, box2, rayInside]
  have hz1 : box2.tzmin rayInside = -1 / 4 := by
    norm_num [BoundingBox.tzmin, BoundingBox.near, box2, rayInside]
  have hz2 : box2.tzmax rayInside = 1 / 4 := by
    norm_num [BoundingBox.tzmax, BoundingBox.far, box2, rayInside]
  rw [hx1, hx2, hy1, hy2, hz1, hz2]
  norm_num

/-! ## The model collection -/

theorem SceneManager.rasterizeFaces_ready (X : Externals) (model : Model) (cam : Camera)
    (faces : List Face) : ∀ s : SceneManager, s.Ready →
      ∃ s', SceneManager.rasterizeFaces X model cam faces s = some s' ∧ s'.Ready := by
  induction faces with
  | nil =>
    intro s hs
    exact ⟨s, rfl, hs⟩
  | cons face rest ih =>
    intro s hs
    obtain ⟨c0, hc0⟩ : ∃ c0, s.camers[s.curr_camera]? = some c0 :=
      ⟨_, List.getElem?_eq_getElem hs.2⟩
    have hcull := SceneManager.backfaceCulling_eq s (X.vertex_shader face.a model cam)
      (X.vertex_shader face.b model cam) (X.vertex_shader face.c model cam) c0 hc0
    unfold SceneManager.rasterizeFaces
    simp only
    rw [hcull]
    cases hdec : decide
        (0 < Vec3f.dot (Vec3f.cross ((X.vertex_shader face.b model cam).pos -
            (X.vertex_shader face.a model cam).pos) ((X.vertex_shader face.c model cam).pos -
            (X.vertex_shader face.a model cam).pos))
            ((X.vertex_shader face.a model cam).pos - c0.position) ∧
         0 < Vec3f.dot (Vec3f.cross ((X.vertex_shader face.b model cam).pos -
            (X.vertex_shader face.a model cam).pos) ((X.vertex_shader face.c model cam).pos -
            (X.vertex_shader face.a model cam).pos))
            ((X.vertex_shader face.b model cam).pos - c0.position) ∧
         0 < Vec3f.dot (Vec3f.cross ((X.vertex_shader face.b model cam).pos -
            (X.vertex_shader face.a model cam).pos) ((X.vertex_shader face.c model cam).pos -
            (X.vertex_shader face.a model cam).pos))
            ((X.vertex_shader face.c model cam).pos - c0.position)) with
    | true => exact ih s hs
    | false =>
      obtain ⟨s1, hr, hwf1, hsame, _⟩ := SceneManager.rasterBarTriangle_confined X.bary s
        (X.geom_shader (X.vertex_shader face.a model cam) cam)
        (X.geom_shader (X.vertex_shader face.b model cam) cam)
        (X.geom_shader (X.vertex_shader face.c model cam) cam) hs.1
      simp only [hr]
      apply ih s1
      refine ⟨hwf1, ?_⟩
      rw [hsame.2.2.2.1, hsame.2.2.2.2.1]
      exact hs.2

theorem SceneManager.renderModels_ready (X : Externals) (models : List Model) :
    ∀ s : SceneManager, s.Ready →
      ∃ s', SceneManager.renderModels X models s = some s' ∧ s'.Ready := by
  induction models with
  | nil =>
    intro s hs
    exact ⟨s, rfl, hs⟩
  | cons model rest ih =>
    intro s hs
    unfold SceneManager.renderModels
    split
    · exact ih s hs
    · simp only
      have hs1 : SceneManager.Ready { s with pixel_shader :=
          (if model.has_texture then X.textureShader model.texture else X.colorShader) } :=
        ⟨⟨hs.1.1, hs.1.2⟩, hs.2⟩
      obtain ⟨c0, hc0⟩ : ∃ c0, s.camers[s.curr_camera]? = some c0 :=
        ⟨_, List.getElem?_eq_getElem hs.2⟩
      obtain ⟨s2, hr, hs2⟩ := SceneManager.rasterizeFaces_ready X model c0 model.faces _ hs1
      have hrast : SceneManager.rasterize X { s with pixel_shader :=
          (if model.has_texture then X.textureShader model.texture else X.colorShader) } model =
          some s2 := by
        unfold SceneManager.rasterize
        simp only [hc0]
        exact hr
      rw [hrast]
      exact ih s2 hs2

/-- A call of `render_all` on a drawable core returns; it raises the call count by one, shows
the image it drew, and leaves the model collection and its counters alone. -/
theorem SceneManager.render_all_ready (X : Externals) (m : Manager) (hm : m.core.Ready) :
    ∃ m', SceneManager.render_all X m = some m' ∧ m'.core.Ready ∧
      m'.render_calls = m.render_calls + 1 ∧ m'.presented = m'.core.img ∧
      m'.models = m.models ∧ m'.models_index = m.models_index ∧
      m'.current_model = m.current_model := by
  have hclear : m.core.clearFrame.Ready :=
    ⟨SceneManager.clearFrame_WF m.core hm.1, hm.2⟩
  obtain ⟨s', hr, hs'⟩ := SceneManager.renderModels_ready X m.models _ hclear
  refine ⟨SceneManager.showFrame { m with core := s', render_calls := m.render_calls + 1 },
    ?_, hs', rfl, rfl, rfl, rfl, rfl⟩
  unfold SceneManager.render_all
  rw [hr]

/-- Whenever `render_all` returns, the call count went up by one and nothing of the model
collection changed. -/
theorem SceneManager.render_all_effect (X : Externals) (m m' : Manager)
    (h : SceneManager.render_all X m = some m') :
    m'.render_calls = m.render_calls + 1 ∧ m'.presented = m'.core.img ∧
      m'.models = m.models ∧ m'.models_index = m.models_index ∧
      m'.current_model = m.current_model := by
  unfold SceneManager.render_all at h
  split at h
  · cases h
  · cases h
    exact ⟨rfl, rfl, rfl, rfl, rfl⟩

theorem SceneManager.onCurrent_effect (m m1 : Manager) (f : Model → Model)
    (h : SceneManager.onCurrent m f = some m1) :
    m1.render_calls = m.render_calls ∧ m1.core = m.core ∧ m1.models_index = m.models_index ∧
      m1.current_model = m.current_model ∧ m1.models.length = m.models.length := by
  unfold SceneManager.onCurrent at h
  split at h
  · cases h
  · cases h
    exact ⟨rfl, rfl, rfl, rfl, by simp⟩

theorem SceneManager.onCurrent_then_render (X : Externals) (m m' : Manager)
    (moved : Option Manager)
    (hmoved : ∀ m1, moved = some m1 → m1.render_calls = m.render_calls)
    (h : moved.bind (SceneManager.render_all X) = some m') :
    m'.render_calls = m.render_calls + 1 := by
  obtain ⟨m1, hm, hr⟩ := Option.bind_eq_some.mp h
  rw [(SceneManager.render_all_effect X m1 m' hr).1, hmoved m1 hm]

/-- Ten of the eleven mutating operations end in `render_all`: whenever one returns, the
count of `render_all` calls is one more than before. -/
theorem SceneManager.mutators_render (X : Externals) (m m' : Manager) :
    (∀ t val, SceneManager.shift X m t val = some m' → m'.render_calls = m.render_calls + 1) ∧
    (∀ t val, SceneManager.rotate X m t val = some m' → m'.render_calls = m.render_calls + 1) ∧
    (∀ t val, SceneManager.scale X m t val = some m' → m'.render_calls = m.render_calls + 1) ∧
    (∀ c, SceneManager.setColor X m c = some m' → m'.render_calls = m.render_calls + 1) ∧
    (∀ i, SceneManager.setTexture X m i = some m' → m'.render_calls = m.render_calls + 1) ∧
    (∀ f c, SceneManager.setFlagTexture X m f c = some m' →
      m'.render_calls = m.render_calls + 1) ∧
    (∀ v, SceneManager.setSpecular X m v = some m' → m'.render_calls = m.render_calls + 1) ∧
    (∀ v, SceneManager.setReflective X m v = some m' → m'.render_calls = m.render_calls + 1) ∧
    (∀ v, SceneManager.setRefraction X m v = some m' → m'.render_calls = m.render_calls + 1) ∧
    (∀ v, SceneManager.setIntensity X m v = some m' → m'.render_calls = m.render_calls + 1) := by
  have hcur : ∀ (f : Model → Model) (m1 : Manager), SceneManager.onCurrent m f = some m1 →
      m1.render_calls = m.render_calls :=
    fun f m1 h => (SceneManager.onCurrent_effect m m1 f h).1
  have hsame : ∀ m1 : Manager, some m = some m1 → m1.render_calls = m.render_calls := by
    intro m1 h
    cases h
    rfl
  refine ⟨?_, ?_, ?_, ?_, ?_, ?_, ?_, ?_, ?_, ?_⟩
  · intro t val h
    unfold SceneManager.shift at h
    apply SceneManager.onCurrent_then_render X m m' _ _ h
    cases t <;> first | exact hcur _ | exact hsame
  · intro t val h
    unfold SceneManager.rotate at h
    apply SceneManager.onCurrent_then_render X m m' _ _ h
    cases t <;> first | exact hcur _ | exact hsame
  · intro t val h
    unfold SceneManager.scale at h
    apply SceneManager.onCurrent_then_render X m m' _ _ h
    cases t <;> first | exact hcur _ | exact hsame
  · intro c h
    exact SceneManager.onCurrent_then_render X m m' _ (hcur _) h
  · intro i h
    exact SceneManager.onCurrent_then_render X m m' _ (hcur _) h
  · intro f c h
    exact SceneManager.onCurrent_then_render X m m' _ (hcur _) h
  · intro v h
    exact SceneManager.onCurrent_then_render X m m' _ (hcur _) h
  · intro v h
    exact SceneManager.onCurrent_then_render X m m' _ (hcur _) h
  · intro v h
    exact SceneManager.onCurrent_then_render X m m' _ (hcur _) h
  · intro v h
    unfold SceneManager.setIntensity at h
    split at h
    · cases h
    · split at h
      · cases h
      · exact (SceneManager.render_all_effect X _ m' h).1

/-- The eleventh, `setAmbIntensity`, changes the lights and nothing else: no `render_all`
call is counted, the core and the shown image stay as they were. -/
theorem SceneManager.setAmbIntensity_effect (m : Manager) (intensity : ℚ) :
    (SceneManager.setAmbIntensity m intensity).render_calls = m.render_calls ∧
    (SceneManager.setAmbIntensity m intensity).core = m.core ∧
    (SceneManager.setAmbIntensity m intensity).presented = m.presented :=
  ⟨rfl, rfl, rfl⟩

theorem manager0_ready : manager0.core.Ready := by
  refine ⟨by simp [SceneManager.WF, manager0, scene2], ?_⟩
  simp [manager0, scene2]

/-- With a drawable core and a current model inside the collection the operations that act on
the current model return (for `setIntensity`: when the current model is a light). -/
theorem SceneManager.mutators_return (X : Externals) (m : Manager) (hm : m.core.Ready)
    (hcur : m.current_model < m.models.length) :
    (∀ t val, ∃ m', SceneManager.shift X m t val = some m') ∧
    (∀ c, ∃ m', SceneManager.setColor X m c = some m') ∧
    (∀ v, ∃ m', SceneManager.setSpecular X m v = some m') ∧
    (∀ v model, m.models[m.current_model]? = some model → model.is_object = false →
      ∃ m', SceneManager.setIntensity X m v = some m') := by
  have hget : m.models[m.current_model]? = some m.models[m.current_model] :=
    List.getElem?_eq_getElem hcur
  have hon : ∀ f : Model → Model, ∃ m1, SceneManager.onCurrent m f = some m1 ∧
      m1.core.Ready := by
    intro f
    refine ⟨{ m with models := m.models.set m.current_model (f m.models[m.current_model]) },
      ?_, hm⟩
    unfold SceneManager.onCurrent
    rw [hget]
  have hbind : ∀ f : Model → Model,
      ∃ m', (SceneManager.onCurrent m f).bind (SceneManager.render_all X) = some m' := by
    intro f
    obtain ⟨m1, h1, hr1⟩ := hon f
    obtain ⟨m', hr, _⟩ := SceneManager.render_all_ready X m1 hr1
    exact ⟨m', by rw [h1]; exact hr⟩
  refine ⟨?_, fun c => hbind _, fun v => hbind _, ?_⟩
  · intro t val
    unfold SceneManager.shift
    cases t
    case shift_x => exact hbind _
    case shift_y => exact hbind _
    case shift_z => exact hbind _
    all_goals
      obtain ⟨m', hr, _⟩ := SceneManager.render_all_ready X m hm
      exact ⟨m', hr⟩
  · intro v model hmodel hlight
    unfold SceneManager.setIntensity
    rw [hmodel]
    simp only
    rw [if_neg (by rw [hlight]; simp)]
    obtain ⟨m', hr, _⟩ := SceneManager.render_all_ready X
      { m with models := (m.models.set m.current_model
          { model with color_intensity := ⟨v, v, v⟩ }) } hm
    exact ⟨m', hr⟩

/-- C17, the code at `setAmbIntensity`: on `manager0` (one ambient light, `render_all`
counted once) the call `setAmbIntensity(1/2)` sets the light's intensity and returns with
the count of `render_all` calls, the core and the shown image as they were, whereas the
sibling `setIntensity(1/2)` on the same state returns with the count raised to 2. -/
theorem SceneManager.setAmbIntensity_no_render :
    (SceneManager.setAmbIntensity manager0 (1 / 2)).models =
      [{ ambientLight with color_intensity := ⟨1 / 2, 1 / 2, 1 / 2⟩ }] ∧
    (SceneManager.setAmbIntensity manager0 (1 / 2)).render_calls = 1 ∧
    (SceneManager.setAmbIntensity manager0 (1 / 2)).core = manager0.core ∧
    (SceneManager.setAmbIntensity manager0 (1 / 2)).presented = manager0.presented ∧
    ∃ m', SceneManager.setIntensity plainExternals manager0 (1 / 2) = some m' ∧
      m'.models = [{ ambientLight with color_intensity := ⟨1 / 2, 1 / 2, 1 / 2⟩ }] ∧
      m'.render_calls = 2 := by
  refine ⟨?_, rfl, rfl, rfl, ?_⟩
  · simp [SceneManager.setAmbIntensity, manager0, ambientLight]
  · have hmodel : manager0.models[manager0.current_model]? = some ambientLight := rfl
    obtain ⟨m', hr⟩ := (SceneManager.mutators_return plainExternals manager0 manager0_ready
      (by simp [manager0])).2.2.2 (1 / 2) ambientLight hmodel rfl
    refine ⟨m', hr, ?_, ?_⟩
    · unfold SceneManager.setIntensity at hr
      rw [hmodel] at hr
      simp only [ambientLight, Bool.false_eq_true, if_false] at hr
      rw [(SceneManager.render_all_effect plainExternals _ m' hr).2.2.1]
      simp [manager0, ambientLight]
    · exact (SceneManager.mutators_render plainExternals manager0 m').2.2.2.2.2.2.2.2.2
        (1 / 2) hr

/-! ## Uploads -/

theorem lookup_isSome_iff_mem_keys {β : Type} (l : List (String × β)) (k : String) :
    (l.lookup k).isSome = true ↔ k ∈ l.map Prod.fst := by
  induction l with
  | nil => simp
  | cons p rest ih =>
    obtain ⟨k', v⟩ := p
    rw [List.lookup_cons]
    by_cases h : k = k'
    · subst h
      simp
    · have hb : (k == k') = false := by
        rw [beq_eq_false_iff_ne]; exact h
      rw [hb]
      simp only [List.map_cons, List.mem_cons]
      rw [ih]
      constructor
      · intro hm; exact Or.inr hm
      · rintro (hm | hm)
        · exact absurd hm h
        · exact hm

theorem lookup_none_of_not_mem_keys {β : Type} (l : List (String × β)) (k : String)
    (h : k ∉ l.map Prod.fst) : l.lookup k = none := by
  cases hl : l.lookup k with
  | none => rfl
  | some v =>
    have : (l.lookup k).isSome = true := by rw [hl]; rfl
    exact absurd ((lookup_isSome_iff_mem_keys l k).mp this) h

theorem SceneManager.n_power_keys :
    SceneManager.n_power.map Prod.fst = SceneManager.modelFiles.map Prod.fst := rfl

/-- Every name of the table `files` of `uploadModel` is a key of `n_power`. -/
theorem SceneManager.n_power_of_modelFiles (name path : String)
    (h : SceneManager.modelFiles.lookup name = some path) :
    ∃ n, SceneManager.n_power.lookup name = some n := by
  have h1 : (SceneManager.modelFiles.lookup name).isSome = true := by rw [h]; rfl
  have h2 := (lookup_isSome_iff_mem_keys _ _).mp h1
  rw [← SceneManager.n_power_keys] at h2
  have h3 := (lookup_isSome_iff_mem_keys _ _).mpr h2
  exact Option.isSome_iff_exists.mp h3

/-- C18: `uploadModel` and `uploadLight` called with a name that is not in their table return
with the whole state (model collection and `models_index` included) and the caller's `uid`
as they were. -/
theorem SceneManager.upload_unknown_name (X : Externals) (m : Manager) (name : String)
    (uid : Nat) :
    (name ∉ SceneManager.modelFiles.map Prod.fst →
      SceneManager.uploadModel X m name uid = some (m, uid)) ∧
    (name ∉ SceneManager.lightFiles.map Prod.fst →
      SceneManager.uploadLight X m name uid = some (m, uid)) := by
  constructor
  · intro h
    unfold SceneManager.uploadModel
    rw [lookup_none_of_not_mem_keys _ _ h]
  · intro h
    unfold SceneManager.uploadLight
    rw [lookup_none_of_not_mem_keys _ _ h]

/-- C18 at the name "Тор", which neither table has, on `manager0` with `uid = 7`. -/
theorem SceneManager.upload_unknown_name_witness :
    "Тор" ∉ SceneManager.modelFiles.map Prod.fst ∧
    SceneManager.uploadModel plainExternals manager0 "Тор" 7 = some (manager0, 7) ∧
    "Тор" ∉ SceneManager.lightFiles.map Prod.fst ∧
    SceneManager.uploadLight plainExternals manager0 "Тор" 7 = some (manager0, 7) :=
  have h1 : "Тор" ∉ SceneManager.modelFiles.map Prod.fst := by decide
  have h2 : "Тор" ∉ SceneManager.lightFiles.map Prod.fst := by decide
  ⟨h1, (SceneManager.upload_unknown_name plainExternals manager0 "Тор" 7).1 h1,
    h2, (SceneManager.upload_unknown_name plainExternals manager0 "Тор" 7).2 h2⟩

theorem SceneManager.uploadModel_step (X : Externals) (m : Manager) (name path : String)
    (uid : Nat) (hm : m.core.Ready) (h : SceneManager.modelFiles.lookup name = some path) :
    ∃ m' n, SceneManager.uploadModel X m name uid = some (m', m.models_index) ∧
      m'.models = m.models ++ [X.newModel path m.models_index n] ∧
      m'.models_index = (m.models_index + 1) % 2 ^ 32 ∧ m'.core.Ready := by
  obtain ⟨n, hn⟩ := SceneManager.n_power_of_modelFiles name path h
  obtain ⟨m', hr, hready, _, _, hmodels, hidx, _⟩ := SceneManager.render_all_ready X
    { m with models_index := (m.models_index + 1) % 2 ^ 32,
             models := m.models ++ [X.newModel path m.models_index n] } hm
  refine ⟨m', n, ?_, hmodels, hidx, hready⟩
  unfold SceneManager.uploadModel
  simp only [h, hn]
  rw [hr]

theorem SceneManager.lightFiles_names (name path : String)
    (h : SceneManager.lightFiles.lookup name = some path) :
    name = "Точечный источник" ∨ name = "Направленный" := by
  have h1 : (SceneManager.lightFiles.lookup name).isSome = true := by rw [h]; rfl
  have h2 := (lookup_isSome_iff_mem_keys _ _).mp h1
  simpa [SceneManager.lightFiles] using h2

theorem SceneManager.uploadLight_step (X : Externals) (m : Manager) (name path : String)
    (uid : Nat) (hm : m.core.Ready) (h : SceneManager.lightFiles.lookup name = some path) :
    ∃ m' kind, SceneManager.uploadLight X m name uid = some (m', m.models_index) ∧
      m'.models = m.models ++ [X.newLight kind path m.models_index] ∧
      m'.models_index = (m.models_index + 1) % 2 ^ 32 ∧ m'.core.Ready := by
  rcases SceneManager.lightFiles_names name path h with hname | hname
  · obtain ⟨m', hr, hready, _, _, hmodels, hidx, _⟩ := SceneManager.render_all_ready X
      { m with models_index := (m.models_index + 1) % 2 ^ 32,
               models := m.models ++ [X.newLight Light.light_type.point path m.models_index] } hm
    refine ⟨m', Light.light_type.point, ?_, hmodels, hidx, hready⟩
    unfold SceneManager.uploadLight
    simp only [h, if_pos hname]
    rw [hr]
  · have hne : ¬name = "Точечный источник" := by
      rw [hname]; decide
    obtain ⟨m', hr, hready, _, _, hmodels, hidx, _⟩ := SceneManager.render_all_ready X
      { m with models_index := (m.models_index + 1) % 2 ^ 32,
               models := m.models ++
                 [X.newLight Light.light_type.directional path m.models_index] } hm
    refine ⟨m', Light.light_type.directional, ?_, hmodels, hidx, hready⟩
    unfold SceneManager.uploadLight
    simp only [h, if_neg hne, if_pos hname]
    rw [hr]

/-- A run of uploads that does not carry `models_index` past `2^32` returns and hands out
uids that start at `models_index` or above, increase strictly, and are as many as the models
added. -/
theorem SceneManager.uploadAll_uids (X : Externals) (reqs : List (Bool × String)) :
    ∀ m : Manager, m.core.Ready → (reqs ≠ [] → m.models_index + reqs.length ≤ 2 ^ 32) →
      ∃ m' uids, SceneManager.uploadAll X reqs m = some (m', uids) ∧
        (∀ u ∈ uids, m.models_index ≤ u) ∧ uids.Pairwise (fun u v => u < v) ∧
        m'.models.length = m.models.length + uids.length := by
  induction reqs with
  | nil =>
    intro m _ _
    exact ⟨m, [], rfl, fun u hu => absurd hu (List.not_mem_nil u), List.Pairwise.nil, rfl⟩
  | cons req rest ih =>
    intro m hm hbound
    obtain ⟨isLight, name⟩ := req
    have hb : m.models_index + (rest.length + 1) ≤ 2 ^ 32 := by
      have := hbound (List.cons_ne_nil _ _)
      simpa using this
    -- the step: either nothing happens, or one model with uid `models_index` is appended
    have hstep : ∃ m1 uid, (if isLight then SceneManager.uploadLight X m name 0
          else SceneManager.uploadModel X m name 0) = some (m1, uid) ∧ m1.core.Ready ∧
        (((if isLight then (SceneManager.lightFiles.lookup name).isSome
            else (SceneManager.modelFiles.lookup name).isSome) = false ∧ m1 = m) ∨
         ((if isLight then (SceneManager.lightFiles.lookup name).isSome
            else (SceneManager.modelFiles.lookup name).isSome) = true ∧
          uid = m.models_index ∧ m1.models_index = (m.models_index + 1) % 2 ^ 32 ∧
          m1.models.length = m.models.length + 1)) := by
      cases isLight with
      | true =>
        simp only [if_true]
        cases hl : SceneManager.lightFiles.lookup name with
        | none =>
          refine ⟨m, 0, ?_, hm, Or.inl ⟨rfl, rfl⟩⟩
          unfold SceneManager.uploadLight
          rw [hl]
        | some path =>
          obtain ⟨m1, kind, hu, hmodels, hidx, hready⟩ :=
            SceneManager.uploadLight_step X m name path 0 hm hl
          exact ⟨m1, _, hu, hready, Or.inr ⟨rfl, rfl, hidx, by rw [hmodels]; simp⟩⟩
      | false =>
        simp only [Bool.false_eq_true, if_false]
        cases hl : SceneManager.modelFiles.lookup name with
        | none =>
          refine ⟨m, 0, ?_, hm, Or.inl ⟨rfl, rfl⟩⟩
          unfold SceneManager.uploadModel
          rw [hl]
        | some path =>
          obtain ⟨m1, n, hu, hmodels, hidx, hready⟩ :=
            SceneManager.uploadModel_step X m name path 0 hm hl
          exact ⟨m1, _, hu, hready, Or.inr ⟨rfl, rfl, hidx, by rw [hmodels]; simp⟩⟩
    obtain ⟨m1, uid, hu, hready1, hcase⟩ := hstep
    rcases hcase with ⟨hknown, hm1⟩ | ⟨hknown, huid, hidx, hlen⟩
    · subst hm1
      obtain ⟨m2, uids, hrest, hge, hpair, hcount⟩ := ih m1 hready1 (fun _ => by omega)
      refine ⟨m2, uids, ?_, hge, hpair, hcount⟩
      unfold SceneManager.uploadAll
      simp only [hu, hrest, hknown]
      rfl
    · by_cases hrest0 : rest = []
      · subst hrest0
        refine ⟨m1, [uid], ?_, ?_, List.pairwise_singleton _ _, ?_⟩
        · unfold SceneManager.uploadAll
          simp only [hu, hknown, SceneManager.uploadAll]
          rfl
        · intro u hu'
          rw [List.mem_singleton] at hu'
          rw [hu', huid]
        · rw [hlen]; rfl
      · have hpos : 0 < rest.length := List.length_pos.mpr hrest0
        have hidx1 : m1.models_index = m.models_index + 1 := by
          rw [hidx]
          exact Nat.mod_eq_of_lt (by omega)
        obtain ⟨m2, uids, hrest, hge, hpair, hcount⟩ := ih m1 hready1
          (fun _ => by rw [hidx1]; omega)
        refine ⟨m2, uid :: uids, ?_, ?_, ?_, ?_⟩
        · unfold SceneManager.uploadAll
          simp only [hu, hrest, hknown]
          rfl
        · intro u hu'
          rcases List.mem_cons.mp hu' with h | h
          · rw [h, huid]
          · have := hge u h
            omega
        · rw [List.pairwise_cons]
          refine ⟨?_, hpair⟩
          intro v hv
          have := hge v hv
          omega
        · rw [hcount, hlen]
          simp only [List.length_cons]
          omega

/-- C19: with constructors that store the uid they are given, every successful `uploadModel`
or `uploadLight` hands the caller the current `models_index`, appends exactly one model, which
has that uid, and advances `models_index` by one (modulo `2^32`); hence in every run of uploads
that does not carry `models_index` past `2^32` (from a fresh counter: any run of fewer than
`2^32` uploads) the uids handed out are strictly increasing and pairwise distinct, one per
model added. -/
theorem SceneManager.upload_uids (X : Externals) (m : Manager) (reqs : List (Bool × String))
    (hm : m.core.Ready) (hctor : ∀ p u n, (X.newModel p u n).uid = u)
    (hctorL : ∀ k p u, (X.newLight k p u).uid = u)
    (hbound : m.models_index + reqs.length ≤ 2 ^ 32) :
    (∀ name path uid, SceneManager.modelFiles.lookup name = some path →
      ∃ m' model, SceneManager.uploadModel X m name uid = some (m', m.models_index) ∧
        m'.models = m.models ++ [model] ∧ model.uid = m.models_index ∧
        m'.models_index = (m.models_index + 1) % 2 ^ 32) ∧
    (∀ name path uid, SceneManager.lightFiles.lookup name = some path →
      ∃ m' model, SceneManager.uploadLight X m name uid = some (m', m.models_index) ∧
        m'.models = m.models ++ [model] ∧ model.uid = m.models_index ∧
        m'.models_index = (m.models_index + 1) % 2 ^ 32) ∧
    ∃ m' uids, SceneManager.uploadAll X reqs m = some (m', uids) ∧
      uids.Pairwise (fun u v => u < v) ∧ uids.Nodup ∧
      m'.models.length = m.models.length + uids.length := by
  refine ⟨?_, ?_, ?_⟩
  · intro name path uid h
    obtain ⟨m', n, hu, hmodels, hidx, _⟩ := SceneManager.uploadModel_step X m name path uid hm h
    exact ⟨m', _, hu, hmodels, hctor _ _ _, hidx⟩
  · intro name path uid h
    obtain ⟨m', kind, hu, hmodels, hidx, _⟩ :=
      SceneManager.uploadLight_step X m name path uid hm h
    exact ⟨m', _, hu, hmodels, hctorL _ _ _, hidx⟩
  · obtain ⟨m', uids, hrun, _, hpair, hcount⟩ :=
      SceneManager.uploadAll_uids X reqs m hm (fun _ => hbound)
    exact ⟨m', uids, hrun, hpair, hpair.imp (fun h => Nat.ne_of_lt h), hcount⟩

/-- C19 on `manager0` (`models_index = 1`) with the run "Куб" (a model), "Тор" (an unknown
light name), "Направленный" (a light): the uids handed out are 1 and 2. -/
theorem SceneManager.upload_uids_witness :
    manager0.core.Ready ∧
    (∀ p u n, (plainExternals.newModel p u n).uid = u) ∧
    (∀ k p u, (plainExternals.newLight k p u).uid = u) ∧
    manager0.models_index +
      [(false, "Куб"), (true, "Тор"), (true, "Направленный")].length ≤ 2 ^ 32 ∧
    ((∀ name path uid, SceneManager.modelFiles.lookup name = some path →
      ∃ m' model, SceneManager.uploadModel plainExternals manager0 name uid =
          some (m', manager0.models_index) ∧
        m'.models = manager0.models ++ [model] ∧ model.uid = manager0.models_index ∧
        m'.models_index = (manager0.models_index + 1) % 2 ^ 32) ∧
    (∀ name path uid, SceneManager.lightFiles.lookup name = some path →
      ∃ m' model, SceneManager.uploadLight plainExternals manager0 name uid =
          some (m', manager0.models_index) ∧
        m'.models = manager0.models ++ [model] ∧ model.uid = manager0.models_index ∧
        m'.models_index = (manager0.models_index + 1) % 2 ^ 32) ∧
    ∃ m' uids, SceneManager.uploadAll plainExternals
        [(false, "Куб"), (true, "Тор"), (true, "Направленный")] manager0 = some (m', uids) ∧
      uids.Pairwise (fun u v => u < v) ∧ uids.Nodup ∧
      m'.models.length = manager0.models.length + uids.length) ∧
    ∃ m', SceneManager.uploadAll plainExternals
        [(false, "Куб"), (true, "Тор"), (true, "Направленный")] manager0 = some (m', [1, 2]) :=
  have hb : manager0.models_index +
      [(false, "Куб"), (true, "Тор"), (true, "Направленный")].length ≤ 2 ^ 32 := by
    simp [manager0]
  ⟨manager0_ready, fun _ _ _ => rfl, fun _ _ _ => rfl, hb,
    SceneManager.upload_uids plainExternals manager0
      [(false, "Куб"), (true, "Тор"), (true, "Направленный")] manager0_ready
      (fun _ _ _ => rfl) (fun _ _ _ => rfl) hb, ⟨_, rfl⟩⟩

/-! ## Loading a file -/

theorem objl.size_sub_small (n : Nat) (h : n < 4) : n < objl.size_sub n 4 := by
  unfold objl.size_sub
  omega

theorem objl.size_sub_large (n : Nat) (h : 4 ≤ n) (hn : n < 2 ^ 64) :
    objl.size_sub n 4 = n - 4 := by
  unfold objl.size_sub
  omega

theorem objl.LoadFile_eq (openFile : String → Option (List String))
    (body : objl.Loader → List String → Except objl.Exception (Bool × objl.Loader))
    (L : objl.Loader) (Path : String) :
    objl.Loader.LoadFile openFile body L Path =
      objl.Loader.LoadFile_from openFile body L Path
        (objl.substr Path (objl.size_sub Path.length 4) 4) := rfl

/-- A path of fewer than four characters makes `substr` throw: `LoadFile` does not return. -/
theorem objl.LoadFile_throws_of_short (openFile : String → Option (List String))
    (body : objl.Loader → List String → Except objl.Exception (Bool × objl.Loader))
    (L : objl.Loader) (Path : String) (h : Path.length < 4) :
    objl.Loader.LoadFile openFile body L Path = Except.error objl.Exception.out_of_range := by
  have hpos : objl.size_sub Path.length 4 > Path.length := objl.size_sub_small _ h
  have hsub : objl.substr Path (objl.size_sub Path.length 4) 4 =
      Except.error objl.Exception.out_of_range := by
    unfold objl.substr
    exact if_pos hpos
  rw [objl.LoadFile_eq, hsub]
  rfl

/-- A path of at least four characters whose last four are not `.obj` makes `LoadFile` return
false with the loader untouched. -/
theorem objl.LoadFile_other_extension (openFile : String → Option (List String))
    (body : objl.Loader → List String → Except objl.Exception (Bool × objl.Loader))
    (L : objl.Loader) (Path : String) (h4 : 4 ≤ Path.length) (hn : Path.length < 2 ^ 64)
    (hext : String.mk ((Path.data.drop (Path.length - 4)).take 4) ≠ ".obj") :
    objl.Loader.LoadFile openFile body L Path = Except.ok (false, L) := by
  have hpos : ¬objl.size_sub Path.length 4 > Path.length := by
    rw [objl.size_sub_large _ h4 hn]
    omega
  have hsub : objl.substr Path (objl.size_sub Path.length 4) 4 =
      Except.ok (String.mk ((Path.data.drop (Path.length - 4)).take 4)) := by
    unfold objl.substr
    rw [if_neg hpos, objl.size_sub_large _ h4 hn]
  rw [objl.LoadFile_eq, hsub]
  unfold objl.Loader.LoadFile_from
  exact if_pos hext

/-- C20, the code at paths shorter than four characters: whatever the file system, the rest
of the function and the loader's contents, `LoadFile("a")` and `LoadFile("")` throw
`std::out_of_range` out of `Path.substr(Path.size() - 4, 4)` instead of returning false,
while `LoadFile("cube.txt")` returns false and leaves the loader as it was. -/
theorem objl.LoadFile_short_path_throws (openFile : String → Option (List String))
    (body : objl.Loader → List String → Except objl.Exception (Bool × objl.Loader))
    (L : objl.Loader) :
    objl.Loader.LoadFile openFile body L "a" = Except.error objl.Exception.out_of_range ∧
    objl.Loader.LoadFile openFile body L "" = Except.error objl.Exception.out_of_range ∧
    objl.Loader.LoadFile openFile body L "cube.txt" = Except.ok (false, L) := by
  have h8 : "cube.txt".length = 8 := by decide
  refine ⟨objl.LoadFile_throws_of_short openFile body L "a" (by decide),
    objl.LoadFile_throws_of_short openFile body L "" (by decide),
    objl.LoadFile_other_extension openFile body L "cube.txt" ?_ ?_ ?_⟩
  · rw [h8]; norm_num
  · rw [h8]; norm_num
  · rw [h8]; decide

/-! ## Soundness of the slab test -/

/-- On one axis, with a non-zero direction component `d` and `inv = 1/d`, the parameters
between the slab's entry and exit (ends included) are those whose point lies between `lo`
and `hi` (ends included). -/
theorem slab_param_le_iff (lo hi o d inv t : ℚ) (hd : d ≠ 0) (hinv : inv = 1 / d) :
    (((if inv < 0 then hi else lo) - o) * inv ≤ t ∧
      t ≤ ((if inv < 0 then lo else hi) - o) * inv) ↔
    (lo ≤ o + t * d ∧ o + t * d ≤ hi) := by
  subst hinv
  rcases lt_or_gt_of_ne hd with hneg | hpos
  · have hinv : 1 / d < 0 := one_div_neg.mpr hneg
    rw [if_pos hinv, if_pos hinv, mul_one_div, mul_one_div, div_le_iff_of_neg hneg,
      le_div_iff_of_neg hneg]
    constructor
    · rintro ⟨h1, h2⟩; constructor <;> linarith
    · rintro ⟨h1, h2⟩; constructor <;> linarith
  · have hinv : ¬(1 / d < 0) := not_lt.mpr (le_of_lt (one_div_pos.mpr hpos))
    rw [if_neg hinv, if_neg hinv, mul_one_div, mul_one_div, div_le_iff₀ hpos, le_div_iff₀ hpos]
    constructor
    · rintro ⟨h1, h2⟩; constructor <;> linarith
    · rintro ⟨h1, h2⟩; constructor <;> linarith

theorem BoundingBox.x_slab_le_iff (b : BoundingBox) (r : Ray) (hr : r.Consistent) (t : ℚ) :
    (b.txmin r ≤ t ∧ t ≤ b.txmax r) ↔
      (b.bounds0.x ≤ (r.pointAt t).x ∧ (r.pointAt t).x ≤ b.bounds1.x) := by
  have h := slab_param_le_iff b.bounds0.x b.bounds1.x r.origin.x r.direction.x
    r.invdirection.x t hr.1.1 hr.2.1.1
  unfold BoundingBox.txmin BoundingBox.txmax BoundingBox.near BoundingBox.far Ray.pointAt
  by_cases hneg : r.invdirection.x < 0
  · simpa [hneg] using h
  · simpa [hneg] using h

theorem BoundingBox.y_slab_le_iff (b : BoundingBox) (r : Ray) (hr : r.Consistent) (t : ℚ) :
    (b.tymin r ≤ t ∧ t ≤ b.tymax r) ↔
      (b.bounds0.y ≤ (r.pointAt t).y ∧ (r.pointAt t).y ≤ b.bounds1.y) := by
  have h := slab_param_le_iff b.bounds0.y b.bounds1.y r.origin.y r.direction.y
    r.invdirection.y t hr.1.2.1 hr.2.1.2.1
  unfold BoundingBox.tymin BoundingBox.tymax BoundingBox.near BoundingBox.far Ray.pointAt
  by_cases hneg : r.invdirection.y < 0
  · simpa [hneg] using h
  · simpa [hneg] using h

theorem BoundingBox.z_slab_le_iff (b : BoundingBox) (r : Ray) (hr : r.Consistent) (t : ℚ) :
    (b.tzmin r ≤ t ∧ t ≤ b.tzmax r) ↔
      (b.bounds0.z ≤ (r.pointAt t).z ∧ (r.pointAt t).z ≤ b.bounds1.z) := by
  have h := slab_param_le_iff b.bounds0.z b.bounds1.z r.origin.z r.direction.z
    r.invdirection.z t hr.1.2.2 hr.2.1.2.2
  unfold BoundingBox.tzmin BoundingBox.tzmax BoundingBox.near BoundingBox.far Ray.pointAt
  by_cases hneg : r.invdirection.z < 0
  · simpa [hneg] using h
  · simpa [hneg] using h

/-- The points of the ray's line inside the closed box are those whose parameter lies in
each of the three slab intervals. -/
theorem BoundingBox.contains_pointAt_iff (b : BoundingBox) (r : Ray) (hr : r.Consistent)
    (t : ℚ) :
    b.Contains (r.pointAt t) ↔
      (b.txmin r ≤ t ∧ t ≤ b.txmax r) ∧ (b.tymin r ≤ t ∧ t ≤ b.tymax r) ∧
      (b.tzmin r ≤ t ∧ t ≤ b.tzmax r) := by
  unfold BoundingBox.Contains
  rw [b.x_slab_le_iff r hr t, b.y_slab_le_iff r hr t, b.z_slab_le_iff r hr t]

/-- For a consistent ray `intersect` always returns, and a returned value other than false
means that no early return was taken. -/
theorem BoundingBox.intersect_cases (b : BoundingBox) (r : Ray) (hr : r.Consistent) :
    b.intersect r = some false ∨
    (¬(b.txmin r > b.tymax r ∨ b.tymin r > b.txmax r) ∧
      ¬(max (b.txmin r) (b.tymin r) > b.tzmax r ∨
        b.tzmin r > min (b.txmax r) (b.tymax r)) ∧
      b.interval r = some (some (max (max (b.txmin r) (b.tymin r)) (b.tzmin r),
        min (min (b.txmax r) (b.tymax r)) (b.tzmax r)))) := by
  have hint := b.interval_of_consistent r hr
  by_cases e1 : b.txmin r > b.tymax r ∨ b.tymin r > b.txmax r
  · left
    rw [if_pos e1] at hint
    unfold BoundingBox.intersect
    rw [hint]
  · rw [if_neg e1] at hint
    by_cases e2 : max (b.txmin r) (b.tymin r) > b.tzmax r ∨
        b.tzmin r > min (b.txmax r) (b.tymax r)
    · left
      rw [if_pos e2] at hint
      unfold BoundingBox.intersect
      rw [hint]
    · right
      rw [if_neg e2] at hint
      exact ⟨e1, e2, hint⟩

/-- When the box is ordered and no early return is taken, the largest entry parameter lies in
all three slab intervals. -/
theorem BoundingBox.entry_in_slabs (b : BoundingBox) (r : Ray) (hb : b.Ordered)
    (hr : r.Consistent)
    (e1 : ¬(b.txmin r > b.tymax r ∨ b.tymin r > b.txmax r))
    (e2 : ¬(max (b.txmin r) (b.tymin r) > b.tzmax r ∨
        b.tzmin r > min (b.txmax r) (b.tymax r))) :
    b.Contains (r.pointAt (max (max (b.txmin r) (b.tymin r)) (b.tzmin r))) := by
  obtain ⟨hbx, hby, hbz⟩ := hb
  have hx : b.txmin r ≤ b.txmax r := by
    have hx0 := (b.x_slab_le_iff r hr ((b.bounds1.x - r.origin.x) / r.direction.x)).mpr
      (by
        unfold Ray.pointAt
        simp only
        rw [div_mul_cancel₀ _ hr.1.1]
        constructor <;> linarith)
    linarith [hx0.1, hx0.2]
  have hy : b.tymin r ≤ b.tymax r := by
    have hy0 := (b.y_slab_le_iff r hr ((b.bounds1.y - r.origin.y) / r.direction.y)).mpr
      (by
        unfold Ray.pointAt
        simp only
        rw [div_mul_cancel₀ _ hr.1.2.1]
        constructor <;> linarith)
    linarith [hy0.1, hy0.2]
  have hz : b.tzmin r ≤ b.tzmax r := by
    have hz0 := (b.z_slab_le_iff r hr ((b.bounds1.z - r.origin.z) / r.direction.z)).mpr
      (by
        unfold Ray.pointAt
        simp only
        rw [div_mul_cancel₀ _ hr.1.2.2]
        constructor <;> linarith)
    linarith [hz0.1, hz0.2]
  push_neg at e1 e2
  obtain ⟨e11, e12⟩ := e1
  obtain ⟨e21, e22⟩ := e2
  have e21x := le_trans (le_max_left _ _) e21
  have e21y := le_trans (le_max_right _ _) e21
  have e22x := le_trans e22 (min_le_left _ _)
  have e22y := le_trans e22 (min_le_right _ _)
  rw [b.contains_pointAt_iff r hr]
  refine ⟨⟨le_trans (le_max_left _ _) (le_max_left _ _), ?_⟩,
    ⟨le_trans (le_max_right _ _) (le_max_left _ _), ?_⟩, ⟨le_max_right _ _, ?_⟩⟩
  · exact max_le (max_le hx e12) e22x
  · exact max_le (max_le e11 hy) e22y
  · exact max_le (max_le e21x e21y) hz

/-- In exact arithmetic: for a box with `min <= max` on each axis and a ray with non-zero
direction components, consistent inverse direction and sign entries, if `intersect` returns
true then some parameter `t` lies in all three slab intervals and puts
`origin + t * direction` inside the box; when no parameter does, `intersect` returns false. -/
theorem BoundingBox.intersect_sound (b : BoundingBox) (r : Ray) (hb : b.Ordered)
    (hr : r.Consistent) :
    (b.intersect r = some true →
      ∃ t : ℚ, ((b.txmin r ≤ t ∧ t ≤ b.txmax r) ∧ (b.tymin r ≤ t ∧ t ≤ b.tymax r) ∧
        (b.tzmin r ≤ t ∧ t ≤ b.tzmax r)) ∧ b.Contains (r.pointAt t)) ∧
    ((¬∃ t : ℚ, b.Contains (r.pointAt t)) → b.intersect r = some false) := by
  have key : b.intersect r = some false ∨ ∃ t : ℚ, b.Contains (r.pointAt t) := by
    rcases b.intersect_cases r hr with h | ⟨e1, e2, _⟩
    · exact Or.inl h
    · exact Or.inr ⟨_, b.entry_in_slabs r hb hr e1 e2⟩
  constructor
  · intro htrue
    rcases key with h | ⟨t, ht⟩
    · rw [h] at htrue
      exact absurd htrue (by decide)
    · exact ⟨t, (b.contains_pointAt_iff r hr t).mp ht, ht⟩
  · intro hnone
    rcases key with h | h
    · exact h
    · exact absurd h hnone

theorem box2_ordered : box2.Ordered := by
  unfold BoundingBox.Ordered box2
  norm_num

theorem box2_rayCentre_interval :
    box2.interval rayCentre = some (some (1 / 2, 3 / 2)) := by
  rw [BoundingBox.interval_of_consistent box2 rayCentre rayCentre_consistent]
  have hx1 : box2.txmin rayCentre = 1 / 2 := by
    norm_num [BoundingBox.txmin, BoundingBox.near, box2, rayCentre]
  have hx2 : box2.txmax rayCentre = 3 / 2 := by
    norm_num [BoundingBox.txmax, BoundingBox.far, box2, rayCentre]
  have hy1 : box2.tymin rayCentre = 1 / 2 := by
    norm_num [BoundingBox.tymin, BoundingBox.near, box2, rayCentre]
  have hy2 : box2.tymax rayCentre = 3 / 2 := by
    norm_num [BoundingBox.tymax, BoundingBox.far, box2, rayCentre]
  have hz1 : box2.tzmin rayCentre = 0 := by
    norm_num [BoundingBox.tzmin, BoundingBox.near, box2, rayCentre]
  have hz2 : box2.tzmax rayCentre = 2 := by
    norm_num [BoundingBox.tzmax, BoundingBox.far, box2, rayCentre]
  rw [hx1, hx2, hy1, hy2, hz1, hz2]
  norm_num

theorem box2_rayCentre_hit : box2.intersect rayCentre = some true := by
  unfold BoundingBox.intersect
  rw [box2_rayCentre_interval]
  simp only
  rw [SIGN_of_nonneg _ (by norm_num), SIGN_of_nonneg _ (by norm_num)]
  rfl

/-! ## A box behind the ray -/

/-- C23: in exact arithmetic the dot products `res2` and `res3` of `backfaceCulling` equal
`res1`, so `backfaceCulling` is the single test `n . (a - cam) > 0` on every input; a
degenerate triangle (`n = 0`) and a camera in the triangle's plane (`n . (cam - a) = 0`)
give false: the face is not culled. -/
theorem SceneManager.backfaceCulling_single (s : SceneManager) (a b c : Vertex) :
    s.backfaceCulling a b c = s.backfaceCullingSingle a b c ∧
    ∀ cam : Camera, s.camers[s.curr_camera]? = some cam →
      (Vec3f.dot (Vec3f.cross (b.pos - a.pos) (c.pos - a.pos)) (b.pos - cam.position) =
          Vec3f.dot (Vec3f.cross (b.pos - a.pos) (c.pos - a.pos)) (a.pos - cam.position) ∧
        Vec3f.dot (Vec3f.cross (b.pos - a.pos) (c.pos - a.pos)) (c.pos - cam.position) =
          Vec3f.dot (Vec3f.cross (b.pos - a.pos) (c.pos - a.pos)) (a.pos - cam.position)) ∧
      (Vec3f.cross (b.pos - a.pos) (c.pos - a.pos) = ⟨0, 0, 0⟩ →
        s.backfaceCulling a b c = some false) ∧
      (Vec3f.dot (Vec3f.cross (b.pos - a.pos) (c.pos - a.pos)) (cam.position - a.pos) = 0 →
        s.backfaceCulling a b c = some false) := by
  have hsingle : ∀ cam : Camera, s.camers[s.curr_camera]? = some cam →
      s.backfaceCulling a b c = some (decide
        (Vec3f.dot (Vec3f.cross (b.pos - a.pos) (c.pos - a.pos)) (a.pos - cam.position) >
          0)) := by
    intro cam hcam
    rw [SceneManager.backfaceCulling_eq s a b c cam hcam, Vec3f.dot_cross_second,
      Vec3f.dot_cross_third]
    congr 1
    simp only [and_self, gt_iff_lt]
  constructor
  · unfold SceneManager.backfaceCullingSingle
    cases hcam : s.camers[s.curr_camera]? with
    | none =>
      unfold SceneManager.backfaceCulling
      rw [hcam]
    | some cam => exact hsingle cam hcam
  · intro cam hcam
    refine ⟨⟨Vec3f.dot_cross_second _ _ _ _, Vec3f.dot_cross_third _ _ _ _⟩, ?_, ?_⟩
    · intro hn
      rw [hsingle cam hcam, hn]
      simp [Vec3f.dot]
    · intro hplane
      rw [Vec3f.dot_neg_arg] at hplane
      rw [hsingle cam hcam, neg_eq_zero.mp hplane]
      simp

/-- C23 on `scene2` (camera at `(0, 0, -1)`): the degenerate triangle
`(0,0,0), (1,0,0), (2,0,0)` and the triangle `(0,0,-1), (1,0,-1), (0,1,-1)`, whose plane
holds the camera, are not culled. -/
theorem SceneManager.backfaceCulling_single_witness :
    scene2.backfaceCulling (vtx 0 0 0) (vtx 1 0 0) (vtx 2 0 0) = some false ∧
    scene2.backfaceCulling (vtx 0 0 (-1)) (vtx 1 0 (-1)) (vtx 0 1 (-1)) = some false :=
  ⟨((SceneManager.backfaceCulling_single scene2 (vtx 0 0 0) (vtx 1 0 0) (vtx 2 0 0)).2
      ⟨⟨0, 0, -1⟩⟩ rfl).2.1 (by norm_num [Vec3f.cross, vtx]),
    ((SceneManager.backfaceCulling_single scene2 (vtx 0 0 (-1)) (vtx 1 0 (-1))
      (vtx 0 1 (-1))).2 ⟨⟨0, 0, -1⟩⟩ rfl).2.2 (by norm_num [Vec3f.dot, Vec3f.cross, vtx])⟩

/-! ## Vertices behind the camera -/

/-- C24: with `eps > 0`, `clip` returns false for every vertex whose `w = 1 / invW` is at most
`-eps`, whatever its `x`, `y` and `z`; a triangle of three such vertices is dropped by the
clip gate of `rasterBarTriangle`, which returns with the state untouched. -/
theorem SceneManager.clip_behind (s : SceneManager) (heps : 0 < s.eps) :
    (∀ v : Vertex, 1 / v.invW ≤ -s.eps → s.clip v = false) ∧
    ∀ (B : Bary) (p1 p2 p3 : Vertex), 1 / p1.invW ≤ -s.eps → 1 / p2.invW ≤ -s.eps →
      1 / p3.invW ≤ -s.eps → s.rasterBarTriangle B p1 p2 p3 = some s := by
  have hclip : ∀ v : Vertex, 1 / v.invW ≤ -s.eps → s.clip v = false := by
    intro v hw
    unfold SceneManager.clip
    rw [decide_eq_false_iff_not]
    rintro ⟨a1, a2, -⟩
    have hx1 := (gt_or_abs_sub_lt_iff v.pos.x (-(1 / v.invW)) s.eps heps).mp
      (by rw [sub_neg_eq_add]; exact a1)
    have hx2 := (lt_or_abs_sub_lt_iff v.pos.x (1 / v.invW) s.eps heps).mp a2
    linarith
  refine ⟨hclip, ?_⟩
  intro B p1 p2 p3 h1 h2 h3
  unfold SceneManager.rasterBarTriangle
  rw [hclip p1 h1, hclip p2 h2, hclip p3 h3]
  rfl

/-- C24 on `scene2` (`eps = 1/100000`): the vertex at the origin of clip space with
`invW = -1`, hence `w = -1`, is rejected, and so is the triangle made of it three times. -/
theorem SceneManager.clip_behind_witness :
    0 < scene2.eps ∧
    1 / (⟨⟨0, 0, 0⟩, -1, ⟨0, 0, 1⟩, ⟨0, 0, 0⟩⟩ : Vertex).invW ≤ -scene2.eps ∧
    scene2.clip ⟨⟨0, 0, 0⟩, -1, ⟨0, 0, 1⟩, ⟨0, 0, 0⟩⟩ = false ∧
    scene2.rasterBarTriangle specBary ⟨⟨0, 0, 0⟩, -1, ⟨0, 0, 1⟩, ⟨0, 0, 0⟩⟩
      ⟨⟨0, 0, 0⟩, -1, ⟨0, 0, 1⟩, ⟨0, 0, 0⟩⟩ ⟨⟨0, 0, 0⟩, -1, ⟨0, 0, 1⟩, ⟨0, 0, 0⟩⟩ = some scene2 :=
  have heps : 0 < scene2.eps := by norm_num [scene2]
  have hw : 1 / (⟨⟨0, 0, 0⟩, -1, ⟨0, 0, 1⟩, ⟨0, 0, 0⟩⟩ : Vertex).invW ≤ -scene2.eps := by
    norm_num [scene2]
  ⟨heps, hw, (SceneManager.clip_behind scene2 heps).1 _ hw,
    (SceneManager.clip_behind scene2 heps).2 specBary _ _ _ hw hw hw⟩

/-! ## Selecting the current model -/

theorem SceneManager.firstWithUid_eq (uid : Nat) (l : List Model) (i : Nat) :
    SceneManager.firstWithUid uid l i = i + l.findIdx (fun model => decide (model.uid = uid)) := by
  induction l generalizing i with
  | nil => simp [SceneManager.firstWithUid]
  | cons model rest ih =>
    unfold SceneManager.firstWithUid
    rw [List.findIdx_cons]
    by_cases h : model.uid = uid
    · simp [h]
    · rw [if_neg h, ih]
      simp [h]
      omega

/-- An operation on the current model fails when `current_model` is the size of the
collection. -/
theorem SceneManager.onCurrent_out_of_range (m : Manager) (f : Model → Model)
    (h : m.models.length ≤ m.current_model) : SceneManager.onCurrent m f = none := by
  unfold SceneManager.onCurrent
  rw [List.getElem?_eq_none h]

/-- C25: `setCurrentModel uid` changes `current_model` only; when some model has that uid the
new value is the smallest index of such a model; when none has, the new value is the size of
the collection, no element is at that index, and `shift`, `setColor` and `removeModel` then
index outside the collection. -/
theorem SceneManager.setCurrentModel_spec (m : Manager) (uid : Nat) :
    ((SceneManager.setCurrentModel m uid).core = m.core ∧
      (SceneManager.setCurrentModel m uid).models = m.models ∧
      (SceneManager.setCurrentModel m uid).models_index = m.models_index ∧
      (SceneManager.setCurrentModel m uid).presented = m.presented ∧
      (SceneManager.setCurrentModel m uid).render_calls = m.render_calls) ∧
    ((∃ model ∈ m.models, model.uid = uid) →
      (∃ model, m.models[(SceneManager.setCurrentModel m uid).current_model]? = some model ∧
        model.uid = uid) ∧
      ∀ j model, j < (SceneManager.setCurrentModel m uid).current_model →
        m.models[j]? = some model → model.uid ≠ uid) ∧
    ((∀ model ∈ m.models, model.uid ≠ uid) →
      (SceneManager.setCurrentModel m uid).current_model = m.models.length ∧
      m.models[(SceneManager.setCurrentModel m uid).current_model]? = none ∧
      ∀ (X : Externals) (val : ℚ) (color : Vec3f),
        SceneManager.shift X (SceneManager.setCurrentModel m uid) trans_type.shift_x val =
          none ∧
        SceneManager.setColor X (SceneManager.setCurrentModel m uid) color = none ∧
        SceneManager.removeModel X (SceneManager.setCurrentModel m uid) = none) := by
  have hcur : (SceneManager.setCurrentModel m uid).current_model =
      m.models.findIdx (fun model => decide (model.uid = uid)) := by
    unfold SceneManager.setCurrentModel
    simp only
    rw [SceneManager.firstWithUid_eq, Nat.zero_add]
  refine ⟨⟨rfl, rfl, rfl, rfl, rfl⟩, ?_, ?_⟩
  · rintro ⟨model, hmem, huid⟩
    have hlt : m.models.findIdx (fun model => decide (model.uid = uid)) < m.models.length :=
      List.findIdx_lt_length_of_exists ⟨model, hmem, by simpa using huid⟩
    rw [hcur]
    constructor
    · refine ⟨m.models[m.models.findIdx (fun model => decide (model.uid = uid))], ?_, ?_⟩
      · exact List.getElem?_eq_getElem hlt
      · have h := List.findIdx_getElem (w := hlt)
        simpa using h
    · intro j model' hj hget
      have hjlen : j < m.models.length := lt_trans hj hlt
      have h := List.not_of_lt_findIdx hj
      rw [List.getElem?_eq_getElem hjlen] at hget
      injection hget with hget
      rw [hget] at h
      simpa using h
  · intro hnone
    have hlen : (SceneManager.setCurrentModel m uid).current_model = m.models.length := by
      rw [hcur, List.findIdx_eq_length]
      intro x hx
      simpa using hnone x hx
    have hmodels : (SceneManager.setCurrentModel m uid).models = m.models := rfl
    have hge : (SceneManager.setCurrentModel m uid).models.length ≤
        (SceneManager.setCurrentModel m uid).current_model := by
      rw [hlen, hmodels]
    refine ⟨hlen, ?_, ?_⟩
    · rw [hlen]
      exact List.getElem?_eq_none (le_refl _)
    · intro X val color
      refine ⟨?_, ?_, ?_⟩
      · unfold SceneManager.shift
        simp only
        rw [SceneManager.onCurrent_out_of_range _ _ hge]
        rfl
      · unfold SceneManager.setColor
        rw [SceneManager.onCurrent_out_of_range _ _ hge]
        rfl
      · unfold SceneManager.removeModel
        rw [if_neg (not_lt.mpr hge)]

/-- C25 on `manager0`, whose only model has uid 0: uid 0 selects index 0, uid 7 selects
index 1, the size of the collection, and `setColor` then fails. -/
theorem SceneManager.setCurrentModel_spec_witness :
    (SceneManager.setCurrentModel manager0 0).current_model = 0 ∧
    (SceneManager.setCurrentModel manager0 7).current_model = 1 ∧
    manager0.models.length = 1 ∧
    SceneManager.setColor plainExternals (SceneManager.setCurrentModel manager0 7) ⟨1, 0, 0⟩ =
      none :=
  have hnone : ∀ model ∈ manager0.models, model.uid ≠ 7 := by
    intro model hmem
    simp only [manager0, List.mem_singleton] at hmem
    rw [hmem]
    decide
  ⟨rfl, ((SceneManager.setCurrentModel_spec manager0 7).2.2 hnone).1, rfl,
    (((SceneManager.setCurrentModel_spec manager0 7).2.2 hnone).2.2 plainExternals 0
      ⟨1, 0, 0⟩).2.1⟩

/-! ## Index lookup -/

theorem objl.int_cast_of_lt (n : Nat) (h : n < 2 ^ 31) : objl.int_cast n = (n : Int) := by
  unfold objl.int_cast
  omega

/-- C26: for a vector of `n < 2^31` elements and an index string that `stoi` reads as `k`:
if `1 <= k <= n` the result is `elements[k - 1]`, if `-n <= k <= -1` it is `elements[n + k]`,
and for `k = 0` or `|k| > n` the position addressed is below 0 or at least `n`, outside the
vector. -/
theorem objl.getElement_spec {T : Type} (stoi : String → Int) (elements : List T)
    (index : String) (k : Int) (hk : stoi index = k) (hn : elements.length < 2 ^ 31) :
    (1 ≤ k ∧ k ≤ elements.length →
      objl.algorithm.getElement_idx stoi elements.length index = k - 1 ∧
      (k - 1).toNat < elements.length ∧
      objl.algorithm.getElement stoi elements index = elements[(k - 1).toNat]?) ∧
    (-(elements.length : Int) ≤ k ∧ k ≤ -1 →
      objl.algorithm.getElement_idx stoi elements.length index = elements.length + k ∧
      ((elements.length : Int) + k).toNat < elements.length ∧
      objl.algorithm.getElement stoi elements index =
        elements[((elements.length : Int) + k).toNat]?) ∧
    (k = 0 ∨ |k| > elements.length →
      (objl.algorithm.getElement_idx stoi elements.length index < 0 ∨
        (elements.length : Int) ≤ objl.algorithm.getElement_idx stoi elements.length index) ∧
      objl.algorithm.getElement stoi elements index = none) := by
  have hidx : objl.algorithm.getElement_idx stoi elements.length index =
      if k < 0 then (elements.length : Int) + k else k - 1 := by
    unfold objl.algorithm.getElement_idx
    simp only
    rw [hk, objl.int_cast_of_lt _ hn]
  have hget : objl.algorithm.getElement stoi elements index =
      if 0 ≤ objl.algorithm.getElement_idx stoi elements.length index then
        elements[(objl.algorithm.getElement_idx stoi elements.length index).toNat]?
      else none := rfl
  refine ⟨?_, ?_, ?_⟩
  · rintro ⟨h1, h2⟩
    have hi : objl.algorithm.getElement_idx stoi elements.length index = k - 1 := by
      rw [hidx, if_neg (by omega)]
    refine ⟨hi, by omega, ?_⟩
    rw [hget, hi, if_pos (by omega)]
  · rintro ⟨h1, h2⟩
    have hi : objl.algorithm.getElement_idx stoi elements.length index =
        elements.length + k := by
      rw [hidx, if_pos (by omega)]
    refine ⟨hi, by omega, ?_⟩
    rw [hget, hi, if_pos (by omega)]
  · intro h
    have hout : objl.algorithm.getElement_idx stoi elements.length index < 0 ∨
        (elements.length : Int) ≤
          objl.algorithm.getElement_idx stoi elements.length index := by
      rw [hidx]
      rcases h with h | h
      · left
        rw [h]
        norm_num
      · rcases lt_or_le k 0 with hneg | hpos
        · left
          rw [if_pos hneg]
          rw [abs_of_neg hneg] at h
          omega
        · right
          rw [if_neg (not_lt.mpr hpos)]
          rw [abs_of_nonneg hpos] at h
          omega
    refine ⟨hout, ?_⟩
    rw [hget]
    rcases hout with hlt | hge
    · rw [if_neg (not_le.mpr hlt)]
    · rw [if_pos (le_trans (Int.ofNat_nonneg _) hge)]
      apply List.getElem?_eq_none
      omega

/-- C26 on the vector `[10, 20, 30]`: the index `2` gives the second element, `-1` the last,
`0` and `4` nothing. -/
theorem objl.getElement_spec_witness :
    readInt "2" = 2 ∧ readInt "-1" = -1 ∧ readInt "0" = 0 ∧ readInt "4" = 4 ∧
    objl.algorithm.getElement readInt [(10 : Nat), 20, 30] "2" = some 20 ∧
    objl.algorithm.getElement readInt [(10 : Nat), 20, 30] "-1" = some 30 ∧
    objl.algorithm.getElement readInt [(10 : Nat), 20, 30] "0" = none ∧
    objl.algorithm.getElement readInt [(10 : Nat), 20, 30] "4" = none :=
  have hlen : [(10 : Nat), 20, 30].length < 2 ^ 31 := by norm_num
  ⟨by decide, by decide, by decide, by decide,
    (((objl.getElement_spec readInt [(10 : Nat), 20, 30] "2" 2 (by decide) hlen).1
      (by norm_num)).2.2).trans (by decide),
    (((objl.getElement_spec readInt [(10 : Nat), 20, 30] "-1" (-1) (by decide) hlen).2.1
      (by norm_num)).2.2).trans (by decide),
    ((objl.getElement_spec readInt [(10 : Nat), 20, 30] "0" 0 (by decide) hlen).2.2
      (Or.inl rfl)).2,
    ((objl.getElement_spec readInt [(10 : Nat), 20, 30] "4" 4 (by decide) hlen).2.2
      (Or.inr (by norm_num))).2⟩

/-! ## Point in triangle -/

@[simp] theorem objl.Vector3.sub_X (a b : objl.Vector3) : (a - b).X = a.X - b.X := rfl

@[simp] theorem objl.Vector3.sub_Y (a b : objl.Vector3) : (a - b).Y = a.Y - b.Y := rfl

@[simp] theorem objl.Vector3.sub_Z (a b : objl.Vector3) : (a - b).Z = a.Z - b.Z := rfl

@[simp] theorem objl.Vector3.mul_X (a : objl.Vector3) (k : ℚ) : (a * k).X = a.X * k := rfl

@[simp] theorem objl.Vector3.mul_Y (a : objl.Vector3) (k : ℚ) : (a * k).Y = a.Y * k := rfl

@[simp] theorem objl.Vector3.mul_Z (a : objl.Vector3) (k : ℚ) : (a * k).Z = a.Z * k := rfl

@[simp] theorem objl.Vector3.div_X (a : objl.Vector3) (k : ℚ) : (a / k).X = a.X / k := rfl

@[simp] theorem objl.Vector3.div_Y (a : objl.Vector3) (k : ℚ) : (a / k).Y = a.Y / k := rfl

@[simp] theorem objl.Vector3.div_Z (a : objl.Vector3) (k : ℚ) : (a / k).Z = a.Z / k := rfl

theorem sqrtq_zero : sqrtq 0 = 0 := by
  simp [sqrtq]

theorem sqrtq_pos (x : ℚ) (hx : 0 < x) : 0 < sqrtq x := by
  unfold sqrtq
  have hnum : 0 < x.num := Rat.num_pos.mpr hx
  have h1 : 0 < Nat.sqrt x.num.toNat := Nat.sqrt_pos.mpr (by omega)
  have h2 : 0 < Nat.sqrt x.den := Nat.sqrt_pos.mpr x.den_pos
  exact div_pos (by exact_mod_cast h1) (by exact_mod_cast h2)

/-- The projection that `inTriangle` measures is that of the point's position vector on the
normal: with a square root that is positive on positive numbers, a point whose position
vector is not orthogonal to the triangle's normal is rejected. -/
theorem objl.inTriangle_of_dot_ne_zero (sqrtf : ℚ → ℚ) (hs : ∀ x, 0 < x → 0 < sqrtf x)
    (p t1 t2 t3 : objl.Vector3)
    (hn : objl.math.DotV3 p (objl.algorithm.GenTriNormal t1 t2 t3) ≠ 0) :
    objl.algorithm.inTriangle sqrtf p t1 t2 t3 = false := by
  unfold objl.algorithm.inTriangle
  simp only
  split
  · rfl
  · generalize objl.algorithm.GenTriNormal t1 t2 t3 = n at hn
    have hS : 0 < n.X ^ 2 + n.Y ^ 2 + n.Z ^ 2 := by
      by_contra hle
      have hx := sq_nonneg n.X
      have hy := sq_nonneg n.Y
      have hz := sq_nonneg n.Z
      have hx0 : n.X = 0 := by
        have : n.X ^ 2 = 0 := by linarith
        exact pow_eq_zero_iff (two_ne_zero) |>.mp this
      have hy0 : n.Y = 0 := by
        have : n.Y ^ 2 = 0 := by linarith
        exact pow_eq_zero_iff (two_ne_zero) |>.mp this
      have hz0 : n.Z = 0 := by
        have : n.Z ^ 2 = 0 := by linarith
        exact pow_eq_zero_iff (two_ne_zero) |>.mp this
      apply hn
      unfold objl.math.DotV3
      rw [hx0, hy0, hz0]
      ring
    have hm : 0 < objl.math.MagnitudeV3 sqrtf n := hs _ hS
    have hproj : 0 < objl.math.MagnitudeV3 sqrtf (objl.math.ProjV3 sqrtf p n) := by
      unfold objl.math.ProjV3
      simp only
      generalize objl.math.MagnitudeV3 sqrtf n = m at hm
      unfold objl.math.MagnitudeV3
      apply hs
      have hd : objl.math.DotV3 p (n / m) = objl.math.DotV3 p n / m := by
        unfold objl.math.DotV3
        simp only [objl.Vector3.div_X, objl.Vector3.div_Y, objl.Vector3.div_Z]
        field_simp
      rw [hd]
      simp only [objl.Vector3.mul_X, objl.Vector3.mul_Y, objl.Vector3.mul_Z,
        objl.Vector3.div_X, objl.Vector3.div_Y, objl.Vector3.div_Z]
      have hq : objl.math.DotV3 p n / m / m ≠ 0 :=
        div_ne_zero (div_ne_zero hn (ne_of_gt hm)) (ne_of_gt hm)
      have heq : (n.X / m * (objl.math.DotV3 p n / m)) ^ 2 +
          (n.Y / m * (objl.math.DotV3 p n / m)) ^ 2 +
          (n.Z / m * (objl.math.DotV3 p n / m)) ^ 2 =
          (n.X ^ 2 + n.Y ^ 2 + n.Z ^ 2) * (objl.math.DotV3 p n / m / m) ^ 2 := by
        ring
      rw [heq]
      exact mul_pos hS (by positivity)
    rw [if_neg (ne_of_gt hproj)]

/-- C29, the code at a triangle off the origin. With a square root that is positive on
positive numbers, `inTriangle` returns false for every point whose position vector is not
orthogonal to the triangle's normal; so it does for the centroid `(1/3, 1/3, 1)` of the
triangle `(0,0,1), (1,0,1), (0,1,1)` and for the vertex `(0,0,1)` itself, both points of the
closed triangle. -/
theorem objl.inTriangle_centroid_rejected (sqrtf : ℚ → ℚ) (hs : ∀ x, 0 < x → 0 < sqrtf x) :
    (⟨1 / 3, 1 / 3, 1⟩ : objl.Vector3) =
      ((⟨0, 0, 1⟩ : objl.Vector3) + ⟨1, 0, 1⟩ + ⟨0, 1, 1⟩) * (1 / 3 : ℚ) ∧
    objl.algorithm.GenTriNormal ⟨0, 0, 1⟩ ⟨1, 0, 1⟩ ⟨0, 1, 1⟩ = ⟨0, 0, 1⟩ ∧
    objl.algorithm.inTriangle sqrtf ⟨1 / 3, 1 / 3, 1⟩ ⟨0, 0, 1⟩ ⟨1, 0, 1⟩ ⟨0, 1, 1⟩ = false ∧
    objl.algorithm.inTriangle sqrtf ⟨0, 0, 1⟩ ⟨0, 0, 1⟩ ⟨1, 0, 1⟩ ⟨0, 1, 1⟩ = false ∧
    ∀ p t1 t2 t3 : objl.Vector3,
      objl.math.DotV3 p (objl.algorithm.GenTriNormal t1 t2 t3) ≠ 0 →
      objl.algorithm.inTriangle sqrtf p t1 t2 t3 = false := by
  have hnormal : objl.algorithm.GenTriNormal ⟨0, 0, 1⟩ ⟨1, 0, 1⟩ ⟨0, 1, 1⟩ = ⟨0, 0, 1⟩ := by
    unfold objl.algorithm.GenTriNormal objl.math.CrossV3
    simp only [objl.Vector3.sub_X, objl.Vector3.sub_Y, objl.Vector3.sub_Z]
    norm_num
  refine ⟨?_, hnormal, ?_, ?_, objl.inTriangle_of_dot_ne_zero sqrtf hs⟩
  · show (⟨1 / 3, 1 / 3, 1⟩ : objl.Vector3) =
      objl.Vector3.mul (objl.Vector3.add (objl.Vector3.add ⟨0, 0, 1⟩ ⟨1, 0, 1⟩) ⟨0, 1, 1⟩)
        (1 / 3)
    simp only [objl.Vector3.add, objl.Vector3.mul]
    norm_num
  · apply objl.inTriangle_of_dot_ne_zero sqrtf hs
    rw [hnormal]
    norm_num [objl.math.DotV3]
  · apply objl.inTriangle_of_dot_ne_zero sqrtf hs
    rw [hnormal]
    norm_num [objl.math.DotV3]

/-- C29 with the stand-in square root `sqrtq`. -/
theorem objl.inTriangle_centroid_rejected_witness :
    (∀ x, 0 < x → 0 < sqrtq x) ∧
    objl.algorithm.inTriangle sqrtq ⟨1 / 3, 1 / 3, 1⟩ ⟨0, 0, 1⟩ ⟨1, 0, 1⟩ ⟨0, 1, 1⟩ = false :=
  ⟨sqrtq_pos, (objl.inTriangle_centroid_rejected sqrtq sqrtq_pos).2.2.1⟩

/-! ## Triangulation of small faces -/

/-- C27: `VertexTriangluation` leaves `oIndices` alone for fewer than 3 vertices, appends
exactly `0, 1, 2` for 3 vertices, and for 4 vertices with pairwise distinct positions, given
at least one unit of fuel, appends exactly `0, 1, 3, 1, 2, 3`. -/
theorem objl.VertexTriangluation_small (sqrtf acosf : ℚ → ℚ) (fuel : Nat)
    (oIndices : List Nat) :
    (∀ iVerts : List objl.Vertex, iVerts.length < 3 →
      objl.Loader.VertexTriangluation sqrtf acosf fuel oIndices iVerts = some oIndices) ∧
    (∀ v0 v1 v2 : objl.Vertex,
      objl.Loader.VertexTriangluation sqrtf acosf fuel oIndices [v0, v1, v2] =
        some (oIndices ++ [0, 1, 2])) ∧
    (∀ v0 v1 v2 v3 : objl.Vertex,
      v0.Position ≠ v1.Position → v0.Position ≠ v2.Position → v0.Position ≠ v3.Position →
      v1.Position ≠ v2.Position → v1.Position ≠ v3.Position → v2.Position ≠ v3.Position →
      objl.Loader.VertexTriangluation sqrtf acosf (fuel + 1) oIndices [v0, v1, v2, v3] =
        some (oIndices ++ [0, 1, 3, 1, 2, 3])) := by
  refine ⟨?_, ?_, ?_⟩
  · intro iVerts h
    unfold objl.Loader.VertexTriangluation
    rw [if_pos h]
  · intro v0 v1 v2
    rfl
  · intro v0 v1 v2 v3 h01 h02 h03 h12 h13 h23
    have h10 := h01.symm
    have h20 := h02.symm
    have h30 := h03.symm
    have h21 := h12.symm
    have h31 := h13.symm
    have h32 := h23.symm
    unfold objl.Loader.VertexTriangluation
    simp [objl.triangulate_loop, objl.pushMatches, List.getD, h01, h02, h03, h12, h13, h23,
      h10, h20, h30, h21, h31, h32]

/-- C27 on the unit square, with the stand-ins `sqrtq` and a constant for `acosf`. -/
theorem objl.VertexTriangluation_small_witness :
    objl.Loader.VertexTriangluation sqrtq (fun _ => 0) 1 []
      [⟨⟨0, 0, 0⟩, ⟨0, 0, 1⟩, ⟨0, 0⟩⟩, ⟨⟨1, 0, 0⟩, ⟨0, 0, 1⟩, ⟨0, 0⟩⟩,
        ⟨⟨1, 1, 0⟩, ⟨0, 0, 1⟩, ⟨0, 0⟩⟩, ⟨⟨0, 1, 0⟩, ⟨0, 0, 1⟩, ⟨0, 0⟩⟩] =
      some [0, 1, 3, 1, 2, 3] :=
  (objl.VertexTriangluation_small sqrtq (fun _ => 0) 0 []).2.2 _ _ _ _
    (by norm_num) (by norm_num) (by norm_num) (by norm_num) (by norm_num) (by norm_num)

/-! ## A face on which the triangulation does not end -/

/-- The angle test of `VertexTriangluation` never holds. -/
theorem objl.angle_test_false (angle : ℚ) : ¬(angle ≤ 0 ∧ angle ≥ 180) := by
  rintro ⟨h1, h2⟩
  linarith

/-- One iteration of the `for` loop at a vertex whose triangle holds another vertex of the
face: the loop goes on to `i + 1` with nothing changed. -/
theorem objl.triangulate_loop_skip (sqrtf acosf : ℚ → ℚ) (iVerts : List objl.Vertex)
    (fuel i : Nat) (oIndices : List Nat) (tVerts : List objl.Vertex) (hi : i < tVerts.length)
    (h5 : 5 ≤ tVerts.length)
    (hin : iVerts.any (fun v =>
      objl.algorithm.inTriangle sqrtf v.Position
          (if i = 0 then tVerts.getD (tVerts.length - 1) objl.Vertex.zero
            else tVerts.getD (i - 1) objl.Vertex.zero).Position
          (tVerts.getD i objl.Vertex.zero).Position
          (if i = tVerts.length - 1 then tVerts.getD 0 objl.Vertex.zero
            else tVerts.getD (i + 1) objl.Vertex.zero).Position
        && v.Position != (if i = 0 then tVerts.getD (tVerts.length - 1) objl.Vertex.zero
            else tVerts.getD (i - 1) objl.Vertex.zero).Position
        && v.Position != (tVerts.getD i objl.Vertex.zero).Position
        && v.Position != (if i = tVerts.length - 1 then tVerts.getD 0 objl.Vertex.zero
            else tVerts.getD (i + 1) objl.Vertex.zero).Position) = true) :
    objl.triangulate_loop sqrtf acosf iVerts (fuel + 1) i oIndices tVerts =
      objl.triangulate_loop sqrtf acosf iVerts fuel (i + 1) oIndices tVerts := by
  rw [objl.triangulate_loop]
  simp only
  rw [if_pos hi, if_neg (by omega), if_neg (by omega), if_neg (objl.angle_test_false _),
    if_pos hin]

/-- One iteration of the `for` loop at a vertex whose triangle holds no other vertex of the
face: the triangle is pushed, the vertex erased, and the loop starts again at 0. -/
theorem objl.triangulate_loop_clip (sqrtf acosf : ℚ → ℚ) (iVerts : List objl.Vertex)
    (fuel i : Nat) (oIndices : List Nat) (tVerts : List objl.Vertex) (hi : i < tVerts.length)
    (h5 : 5 ≤ tVerts.length)
    (hin : iVerts.any (fun v =>
      objl.algorithm.inTriangle sqrtf v.Position
          (if i = 0 then tVerts.getD (tVerts.length - 1) objl.Vertex.zero
            else tVerts.getD (i - 1) objl.Vertex.zero).Position
          (tVerts.getD i objl.Vertex.zero).Position
          (if i = tVerts.length - 1 then tVerts.getD 0 objl.Vertex.zero
            else tVerts.getD (i + 1) objl.Vertex.zero).Position
        && v.Position != (if i = 0 then tVerts.getD (tVerts.length - 1) objl.Vertex.zero
            else tVerts.getD (i - 1) objl.Vertex.zero).Position
        && v.Position != (tVerts.getD i objl.Vertex.zero).Position
        && v.Position != (if i = tVerts.length - 1 then tVerts.getD 0 objl.Vertex.zero
            else tVerts.getD (i + 1) objl.Vertex.zero).Position) = false) :
    objl.triangulate_loop sqrtf acosf iVerts (fuel + 1) i oIndices tVerts =
      objl.triangulate_loop sqrtf acosf iVerts fuel 0
        (objl.pushMatches (tVerts.getD i objl.Vertex.zero).Position
          (if i = 0 then tVerts.getD (tVerts.length - 1) objl.Vertex.zero
            else tVerts.getD (i - 1) objl.Vertex.zero).Position
          (if i = tVerts.length - 1 then tVerts.getD 0 objl.Vertex.zero
            else tVerts.getD (i + 1) objl.Vertex.zero).Position iVerts 0 oIndices)
        (tVerts.eraseP (fun v => v.Position == (tVerts.getD i objl.Vertex.zero).Position)) := by
  rw [objl.triangulate_loop]
  simp only
  rw [if_pos hi, if_neg (by omega), if_neg (by omega), if_neg (objl.angle_test_false _), hin]
  rfl

/-- The end of the `for` loop with triangles created and vertices left: the `while` loop
starts a new round with nothing changed. -/
theorem objl.triangulate_loop_round (sqrtf acosf : ℚ → ℚ) (iVerts : List objl.Vertex)
    (fuel i : Nat) (oIndices : List Nat) (tVerts : List objl.Vertex)
    (hi : ¬i < tVerts.length) (ho : oIndices.length ≠ 0) (ht : tVerts.length ≠ 0) :
    objl.triangulate_loop sqrtf acosf iVerts (fuel + 1) i oIndices tVerts =
      objl.triangulate_loop sqrtf acosf iVerts fuel 0 oIndices tVerts := by
  rw [objl.triangulate_loop]
  simp only
  rw [if_neg hi, if_neg ho, if_neg ht]

/-- In the plane `z = 0`, with `sqrtf 0 = 0`, `inTriangle` is its three `SameSide` tests: the
projection on the normal is the zero vector. -/
theorem objl.inTriangle_planar (sqrtf : ℚ → ℚ) (h0 : sqrtf 0 = 0)
    (px py ax ay bx by_ cx cy : ℚ) :
    objl.algorithm.inTriangle sqrtf ⟨px, py, 0⟩ ⟨ax, ay, 0⟩ ⟨bx, by_, 0⟩ ⟨cx, cy, 0⟩ =
      (objl.algorithm.SameSide ⟨px, py, 0⟩ ⟨ax, ay, 0⟩ ⟨bx, by_, 0⟩ ⟨cx, cy, 0⟩ &&
        objl.algorithm.SameSide ⟨px, py, 0⟩ ⟨bx, by_, 0⟩ ⟨ax, ay, 0⟩ ⟨cx, cy, 0⟩ &&
        objl.algorithm.SameSide ⟨px, py, 0⟩ ⟨cx, cy, 0⟩ ⟨ax, ay, 0⟩ ⟨bx, by_, 0⟩) := by
  unfold objl.algorithm.inTriangle
  simp only
  have hmag : objl.math.MagnitudeV3 sqrtf (objl.math.ProjV3 sqrtf ⟨px, py, 0⟩
      (objl.algorithm.GenTriNormal ⟨ax, ay, 0⟩ ⟨bx, by_, 0⟩ ⟨cx, cy, 0⟩)) = 0 := by
    unfold objl.math.ProjV3 objl.algorithm.GenTriNormal objl.math.CrossV3 objl.math.DotV3
      objl.math.MagnitudeV3
    simp [h0]
  rw [if_pos hmag]
  cases (objl.algorithm.SameSide ⟨px, py, 0⟩ ⟨ax, ay, 0⟩ ⟨bx, by_, 0⟩ ⟨cx, cy, 0⟩ &&
        objl.algorithm.SameSide ⟨px, py, 0⟩ ⟨bx, by_, 0⟩ ⟨ax, ay, 0⟩ ⟨cx, cy, 0⟩ &&
        objl.algorithm.SameSide ⟨px, py, 0⟩ ⟨cx, cy, 0⟩ ⟨ax, ay, 0⟩ ⟨bx, by_, 0⟩) <;> rfl

/-- With `(1, 1, 0)` clipped from `hexFace`, every round of the `while` loop leaves its state
as it was: each of the five candidate triangles holds `(1, 1, 0)` on its boundary. -/
theorem objl.triangulate_loop_pent (sqrtf acosf : ℚ → ℚ) (h0 : sqrtf 0 = 0) (fuel : Nat) :
    ∀ i, i ≤ 5 →
      objl.triangulate_loop sqrtf acosf hexFace fuel i [0, 1, 2] pentFace = none := by
  induction fuel with
  | zero =>
    intro i _
    rfl
  | succ fuel ih =>
    intro i hi
    have hlen : pentFace.length = 5 := rfl
    rcases Nat.lt_or_ge i 5 with hlt | hge
    · rw [objl.triangulate_loop_skip sqrtf acosf hexFace fuel i [0, 1, 2] pentFace
        (by rw [hlen]; exact hlt) (by rw [hlen])]
      · exact ih (i + 1) (by omega)
      · rw [List.any_eq_true]
        refine ⟨pvert 1 1, by simp [hexFace], ?_⟩
        interval_cases i <;>
          simp [pentFace, pvert, List.getD, objl.inTriangle_planar sqrtf h0,
            objl.algorithm.SameSide, objl.math.CrossV3, objl.math.DotV3] <;>
          norm_num
    · have hi5 : i = 5 := by omega
      rw [hi5, objl.triangulate_loop_round sqrtf acosf hexFace fuel 5 [0, 1, 2] pentFace
        (by rw [hlen]; omega) (by decide) (by decide)]
      exact ih 0 (by omega)

/-- C28, the code at `hexFace`: with `sqrtf 0 = 0`, whatever the fuel, `VertexTriangluation`
does not return on the six vertices `(0,0), (1,1), (1,2), (1,0), (0,2), (2,0)` of the plane
`z = 0`. The first round clips `(1,1)`, pushing `0, 1, 2`; from then on every candidate
triangle of the five vertices left holds `(1,1)`, no vertex is clipped, and neither break
condition of the `while (true)` loop holds. -/
theorem objl.VertexTriangluation_stalls (sqrtf acosf : ℚ → ℚ) (h0 : sqrtf 0 = 0)
    (fuel : Nat) :
    objl.Loader.VertexTriangluation sqrtf acosf fuel [] hexFace = none ∧
    objl.triangulate_loop sqrtf acosf hexFace (fuel + 2) 0 [] hexFace =
      objl.triangulate_loop sqrtf acosf hexFace fuel 0 [0, 1, 2] pentFace := by
  have hlen : hexFace.length = 6 := rfl
  have hstep : ∀ n, objl.triangulate_loop sqrtf acosf hexFace (n + 2) 0 [] hexFace =
      objl.triangulate_loop sqrtf acosf hexFace n 0 [0, 1, 2] pentFace := by
    intro n
    rw [objl.triangulate_loop_skip sqrtf acosf hexFace (n + 1) 0 [] hexFace
      (by rw [hlen]; omega) (by rw [hlen]; omega)]
    · rw [objl.triangulate_loop_clip sqrtf acosf hexFace n 1 [] hexFace
        (by rw [hlen]; omega) (by rw [hlen]; omega)]
      · simp [hexFace, pentFace, pvert, List.getD, objl.pushMatches, List.eraseP,
          cond_eq_if]
      · simp [hexFace, pvert, List.getD, objl.inTriangle_planar sqrtf h0,
          objl.algorithm.SameSide, objl.math.CrossV3, objl.math.DotV3]
    · rw [List.any_eq_true]
      refine ⟨pvert 1 0, by simp [hexFace], ?_⟩
      simp [hexFace, pvert, List.getD, objl.inTriangle_planar sqrtf h0,
        objl.algorithm.SameSide, objl.math.CrossV3, objl.math.DotV3]
  refine ⟨?_, hstep fuel⟩
  unfold objl.Loader.VertexTriangluation
  rw [if_neg (by rw [hlen]; omega), if_neg (by rw [hlen]; omega)]
  match fuel with
  | 0 => rfl
  | 1 =>
    rw [objl.triangulate_loop_skip sqrtf acosf hexFace 0 0 [] hexFace
      (by rw [hlen]; omega) (by rw [hlen]; omega)]
    · rfl
    · rw [List.any_eq_true]
      refine ⟨pvert 1 0, by simp [hexFace], ?_⟩
      simp [hexFace, pvert, List.getD, objl.inTriangle_planar sqrtf h0,
        objl.algorithm.SameSide, objl.math.CrossV3, objl.math.DotV3]
  | n + 2 =>
    rw [hstep n]
    exact objl.triangulate_loop_pent sqrtf acosf h0 n 0 (by omega)

/-- C28 with the stand-in square root `sqrtq` and 1000 units of fuel. -/
theorem objl.VertexTriangluation_stalls_witness :
    sqrtq 0 = 0 ∧
    objl.Loader.VertexTriangluation sqrtq (fun _ => 0) 1000 [] hexFace = none :=
  ⟨sqrtq_zero, (objl.VertexTriangluation_stalls sqrtq (fun _ => 0) sqrtq_zero 1000).1⟩

/-! ## Splitting a line at a one-character token -/

theorem objl.fieldsThen_append (c : Char) (out : List String) (s : String) :
    objl.fieldsThen c (out ++ [s]) = objl.fieldsThen c out ++ s.data ++ [c] := by
  induction out with
  | nil => simp [objl.fieldsThen]
  | cons a rest ih => simp [objl.fieldsThen, ih]

theorem String.intercalate_go_data (c : Char) (as : List String) (acc : String) :
    (String.intercalate.go acc (String.mk [c]) as).data =
      acc.data ++ as.foldr (fun a r => c :: a.data ++ r) [] := by
  induction as generalizing acc with
  | nil => simp [String.intercalate.go]
  | cons a rest ih =>
    rw [String.intercalate.go, ih]
    simp [String.data_append]

theorem objl.foldr_sep_append (c : Char) (as : List String) (t : String) :
    (as ++ [t]).foldr (fun a r => c :: a.data ++ r) [] =
      c :: (objl.fieldsThen c as ++ t.data) := by
  induction as with
  | nil => simp [objl.fieldsThen]
  | cons a rest ih =>
    rw [List.cons_append, List.foldr_cons, ih]
    simp [objl.fieldsThen]

/-- Joining the fields `out ++ [t]` with the separator gives the fields of `out`, each
followed by the separator, and then `t`. -/
theorem objl.intercalate_append_data (c : Char) (out : List String) (t : String) :
    (String.intercalate (String.mk [c]) (out ++ [t])).data =
      objl.fieldsThen c out ++ t.data := by
  cases out with
  | nil => simp [String.intercalate, String.intercalate.go, objl.fieldsThen]
  | cons a rest =>
    rw [List.cons_append, String.intercalate, String.intercalate_go_data,
      objl.foldr_sep_append]
    simp [objl.fieldsThen]

theorem objl.mk_singleton_ne (x c : Char) (h : x ≠ c) : String.mk [x] ≠ String.mk [c] := by
  intro e
  injection e with e
  injection e with e
  exact h e

theorem objl.substr_at (inp : String) (pre rest : List Char) (x : Char)
    (h : inp.data = pre ++ x :: rest) :
    objl.substr inp pre.length 1 = Except.ok (String.mk [x]) := by
  obtain ⟨l⟩ := inp
  simp only at h
  subst h
  unfold objl.substr
  rw [if_neg (by simp [String.length])]
  simp

/-- The loop of `split` from a position that is not the end, with a one-character token that
is not the last character of the input: it returns, and the fields returned, joined with the
token, are the earlier fields each followed by the token, then `temp`, then the rest of the
input; no field holds the token. -/
theorem objl.split_loop_spec (c : Char) (inp : String) (hsize : inp.length < 2 ^ 31)
    (rest : List Char) :
    ∀ (x : Char) (pre : List Char) (out : List String) (temp : String) (fuel : Nat),
      inp.data = pre ++ x :: rest → (x :: rest).getLast? ≠ some c → rest.length < fuel →
      c ∉ temp.data → (∀ e ∈ out, c ∉ e.data) →
      ∃ res, objl.algorithm.split_loop inp (String.mk [c]) fuel pre.length out temp =
          some (Except.ok res) ∧
        (String.intercalate (String.mk [c]) res).data =
          objl.fieldsThen c out ++ temp.data ++ x :: rest ∧
        ∀ e ∈ res, c ∉ e.data := by
  have htok : (String.mk [c]).length = 1 := rfl
  induction rest with
  | nil =>
    intro x pre out temp fuel hdata hlast hfuel htemp hout
    obtain ⟨f, rfl⟩ : ∃ f, fuel = f + 1 := ⟨fuel - 1, by omega⟩
    have hxc : x ≠ c := by
      intro h
      apply hlast
      simp [h]
    have hlen : inp.length = pre.length + 1 := by
      show inp.data.length = _
      rw [hdata]
      simp
    refine ⟨out ++ [temp ++ String.mk [x]], ?_, ?_, ?_⟩
    · rw [objl.algorithm.split_loop, if_pos (by rw [objl.int_cast_of_lt _ hsize]; omega),
        htok, objl.substr_at inp pre [] x hdata]
      simp only
      rw [if_neg (objl.mk_singleton_ne x c hxc), if_pos (by omega)]
    · rw [objl.intercalate_append_data]
      simp [String.data_append]
    · intro e he
      rcases List.mem_append.mp he with h | h
      · exact hout e h
      · rw [List.mem_singleton.mp h]
        simp [String.data_append, htemp, hxc.symm]
  | cons y rest ih =>
    intro x pre out temp fuel hdata hlast hfuel htemp hout
    obtain ⟨f, rfl⟩ : ∃ f, fuel = f + 1 := ⟨fuel - 1, by omega⟩
    have hf : rest.length < f := by
      simp only [List.length_cons] at hfuel
      omega
    have hlen : inp.length = pre.length + (rest.length + 2) := by
      show inp.data.length = _
      rw [hdata]
      simp
    have hdata2 : inp.data = (pre ++ [x]) ++ y :: rest := by
      rw [hdata]
      simp
    have hlast2 : (y :: rest).getLast? ≠ some c := by
      rw [List.getLast?_cons_cons] at hlast
      exact hlast
    have hpre : pre.length + 1 = (pre ++ [x]).length := by simp
    rw [objl.algorithm.split_loop, if_pos (by rw [objl.int_cast_of_lt _ hsize]; omega),
      htok, objl.substr_at inp pre (y :: rest) x hdata]
    simp only
    by_cases hxc : x = c
    · rw [if_pos (by rw [hxc])]
      by_cases hempty : temp = ""
      · rw [if_neg (not_not.mpr hempty), hpre]
        obtain ⟨res, h1, h2, h3⟩ := ih y (pre ++ [x]) (out ++ [""]) temp f hdata2 hlast2 hf
          htemp (by
            intro e he
            rcases List.mem_append.mp he with h | h
            · exact hout e h
            · rw [List.mem_singleton.mp h]
              simp)
        refine ⟨res, h1, ?_, h3⟩
        rw [h2, objl.fieldsThen_append, hempty, hxc]
        simp
      · rw [if_pos hempty, hpre]
        obtain ⟨res, h1, h2, h3⟩ := ih y (pre ++ [x]) (out ++ [temp]) "" f hdata2 hlast2 hf
          (by simp) (by
            intro e he
            rcases List.mem_append.mp he with h | h
            · exact hout e h
            · rw [List.mem_singleton.mp h]
              exact htemp)
        refine ⟨res, h1, ?_, h3⟩
        rw [h2, objl.fieldsThen_append, hxc]
        simp
    · rw [if_neg (objl.mk_singleton_ne x c hxc), if_neg (by omega), hpre]
      have hpiece : String.mk ((inp.data.drop pre.length).take 1) = String.mk [x] := by
        rw [hdata]
        simp
      rw [hpiece]
      obtain ⟨res, h1, h2, h3⟩ := ih y (pre ++ [x]) out (temp ++ String.mk [x]) f hdata2
        hlast2 hf (by simp [String.data_append, htemp, Ne.symm hxc]) hout
      refine ⟨res, h1, ?_, h3⟩
      rw [h2]
      simp [String.data_append]

/-- C30: for a one-character token `c`, an input of fewer than `2^31` characters that does
not end with `c`, and more fuel than the input has characters, `split` returns a list of
fields; joining them with the token gives back the input exactly, and no field holds the
token. -/
theorem objl.split_fields (c : Char) (inp : String) (fuel : Nat)
    (hsize : inp.length < 2 ^ 31) (hfuel : inp.length < fuel)
    (hend : inp.data.getLast? ≠ some c) :
    ∃ out, objl.algorithm.split fuel inp (String.mk [c]) = some (Except.ok out) ∧
      String.intercalate (String.mk [c]) out = inp ∧ ∀ e ∈ out, c ∉ e.data := by
  unfold objl.algorithm.split
  cases hdata : inp.data with
  | nil =>
    obtain ⟨f, rfl⟩ : ∃ f, fuel = f + 1 := ⟨fuel - 1, by omega⟩
    have hlen : inp.length = 0 := by
      show inp.data.length = 0
      rw [hdata]
      rfl
    refine ⟨[], ?_, ?_, by simp⟩
    · rw [objl.algorithm.split_loop, if_neg (by rw [objl.int_cast_of_lt _ hsize]; omega)]
    · apply String.ext
      rw [hdata]
      rfl
  | cons x rest =>
    have hlen : inp.length = rest.length + 1 := by
      show inp.data.length = _
      rw [hdata]
      rfl
    obtain ⟨res, h1, h2, h3⟩ := objl.split_loop_spec c inp hsize rest x [] [] "" fuel
      (by rw [hdata]; rfl) (by rw [← hdata]; exact hend) (by omega) (by simp) (by simp)
    refine ⟨res, h1, ?_, h3⟩
    apply String.ext
    rw [h2, hdata]
    simp [objl.fieldsThen]

/-- C30 on the face element `1//3` of an OBJ file: the fields are `1`, the empty string and
`3`. -/
theorem objl.split_fields_witness :
    "1//3".length < 2 ^ 31 ∧ "1//3".length < 5 ∧ "1//3".data.getLast? ≠ some '/' ∧
    objl.algorithm.split 5 "1//3" "/" = some (Except.ok ["1", "", "3"]) ∧
    String.intercalate "/" ["1", "", "3"] = "1//3" ∧
    ∃ out, objl.algorithm.split 5 "1//3" (String.mk ['/']) = some (Except.ok out) ∧
      String.intercalate (String.mk ['/']) out = "1//3" ∧ ∀ e ∈ out, '/' ∉ e.data :=
  ⟨by decide, by decide, by decide, rfl, by decide,
    objl.split_fields '/' "1//3" 5 (by decide) (by decide) (by decide)⟩

/-! ## Rounding to binary32 -/

theorem roundEven_of_near (y : ℚ) (n : Int) (h : |y - n| < 1 / 2) : roundEven y = n := by
  obtain ⟨h1, h2⟩ := abs_lt.mp h
  unfold roundEven
  rcases le_or_lt (n : ℚ) y with hge | hlt
  · have hf : ⌊y⌋ = n := Int.floor_eq_iff.mpr ⟨hge, by linarith⟩
    rw [hf, if_pos (by linarith)]
  · have hf : ⌊y⌋ = n - 1 := Int.floor_eq_iff.mpr ⟨by push_cast; linarith, by push_cast; linarith⟩
    rw [hf, if_neg (by push_cast; linarith), if_pos (by push_cast; linarith)]
    ring

theorem roundEven_of_tie (y : ℚ) (n : Int) (h : y = n + 1 / 2) :
    roundEven y = if n % 2 = 0 then n else n + 1 := by
  have hf : ⌊y⌋ = n := Int.floor_eq_iff.mpr ⟨by linarith, by linarith⟩
  unfold roundEven
  rw [hf, if_neg (by linarith), if_neg (by linarith)]

theorem roundEven_floor_le (x : ℚ) : ⌊x⌋ ≤ roundEven x := by
  unfold roundEven
  split
  · exact le_refl _
  · split
    · omega
    · split
      · exact le_refl _
      · omega

theorem roundEven_le_floor_succ (x : ℚ) : roundEven x ≤ ⌊x⌋ + 1 := by
  unfold roundEven
  split
  · omega
  · split
    · exact le_refl _
    · split
      · omega
      · exact le_refl _

theorem roundEven_intCast (n : Int) : roundEven (n : ℚ) = n := by
  apply roundEven_of_near
  simp

/-- An integer below `x` is below its rounding. -/
theorem le_roundEven (x : ℚ) (n : Int) (h : (n : ℚ) ≤ x) : n ≤ roundEven x :=
  le_trans (Int.le_floor.mpr h) (roundEven_floor_le x)

/-- An integer above `x` is above its rounding. -/
theorem roundEven_le (x : ℚ) (n : Int) (h : x ≤ (n : ℚ)) : roundEven x ≤ n := by
  rcases eq_or_lt_of_le h with heq | hlt
  · rw [heq, roundEven_intCast]
  · have hf : ⌊x⌋ < n := Int.floor_lt.mpr hlt
    have := roundEven_le_floor_succ x
    omega

theorem roundEven_mono (x y : ℚ) (h : x ≤ y) : roundEven x ≤ roundEven y := by
  rcases lt_or_eq_of_le (Int.floor_mono h) with hlt | heq
  · have h1 := roundEven_le_floor_succ x
    have h2 := roundEven_floor_le y
    omega
  · have hy0 := roundEven_floor_le y
    by_cases c1 : x - (⌊x⌋ : ℚ) < 1 / 2
    · have hL : roundEven x = ⌊x⌋ := by
        unfold roundEven
        rw [if_pos c1]
      omega
    · have hy1 : ¬y - (⌊y⌋ : ℚ) < 1 / 2 := by
        rw [← heq]
        intro hc
        apply c1
        linarith
      by_cases c2 : y - (⌊y⌋ : ℚ) > 1 / 2
      · have hR : roundEven y = ⌊y⌋ + 1 := by
          unfold roundEven
          rw [if_neg hy1, if_pos c2]
        have := roundEven_le_floor_succ x
        omega
      · have hx2 : ¬x - (⌊x⌋ : ℚ) > 1 / 2 := by
          rw [← heq] at c2
          intro hc
          apply c2
          linarith
        have hL : roundEven x = if ⌊x⌋ % 2 = 0 then ⌊x⌋ else ⌊x⌋ + 1 := by
          unfold roundEven
          rw [if_neg c1, if_neg hx2]
        have hR : roundEven y = if ⌊y⌋ % 2 = 0 then ⌊y⌋ else ⌊y⌋ + 1 := by
          unfold roundEven
          rw [if_neg hy1, if_neg c2]
        rw [hL, hR, heq]

theorem roundEven_neg (x : ℚ) : roundEven (-x) = -roundEven x := by
  rcases eq_or_lt_of_le (Int.floor_le x) with hint | hfrac
  · rw [← hint, ← Int.cast_neg, roundEven_intCast, roundEven_intCast]
  · have hlt : x < (⌊x⌋ : ℚ) + 1 := Int.lt_floor_add_one x
    rcases lt_trichotomy (x - (⌊x⌋ : ℚ)) (1 / 2) with c | c | c
    · rw [roundEven_of_near x ⌊x⌋ (by rw [abs_lt]; constructor <;> linarith),
        roundEven_of_near (-x) (-⌊x⌋) (by
          rw [abs_lt]
          push_cast
          constructor <;> linarith)]
    · have hx : x = (⌊x⌋ : ℚ) + 1 / 2 := by linarith
      have hnx : -x = ((-⌊x⌋ - 1 : Int) : ℚ) + 1 / 2 := by
        push_cast
        linarith
      rw [roundEven_of_tie x ⌊x⌋ hx, roundEven_of_tie (-x) (-⌊x⌋ - 1) hnx]
      by_cases hev : ⌊x⌋ % 2 = 0
      · rw [if_pos hev, if_neg (by omega)]
        ring
      · rw [if_neg hev, if_pos (by omega)]
        ring
    · rw [roundEven_of_near x (⌊x⌋ + 1) (by
          rw [abs_lt]
          push_cast
          constructor <;> linarith),
        roundEven_of_near (-x) (-(⌊x⌋ + 1)) (by
          rw [abs_lt]
          push_cast
          constructor <;> linarith)]

theorem ulp32_pos (x : ℚ) : 0 < ulp32 x := by
  unfold ulp32
  positivity

theorem ulp32_neg (x : ℚ) : ulp32 (-x) = ulp32 x := by
  unfold ulp32
  rw [abs_neg]

theorem fl32_neg (x : ℚ) : fl32 (-x) = -fl32 x := by
  unfold fl32
  rw [ulp32_neg, neg_div, roundEven_neg]
  push_cast
  ring

theorem fl32_zero : fl32 0 = 0 := by
  unfold fl32
  rw [zero_div]
  have : roundEven 0 = 0 := by
    have h := roundEven_intCast 0
    simpa using h
  rw [this]
  simp

/-- The spacing around a normal number of binary exponent `e`. -/
theorem ulp32_of_binade (x : ℚ) (e : Int) (he : -126 ≤ e) (h1 : (2 : ℚ) ^ e ≤ x)
    (h2 : x < (2 : ℚ) ^ (e + 1)) : ulp32 x = (2 : ℚ) ^ (e - 23) := by
  have hpos : 0 < x := lt_of_lt_of_le (by positivity) h1
  have hlog : Int.log 2 x = e := by
    apply le_antisymm
    · have := (Int.lt_zpow_iff_log_lt (R := ℚ) (b := 2) (by norm_num) hpos).mp
        (by exact_mod_cast h2)
      omega
    · exact (Int.zpow_le_iff_le_log (R := ℚ) (b := 2) (by norm_num) hpos).mp
        (by exact_mod_cast h1)
  unfold ulp32
  rw [abs_of_pos hpos, hlog, max_eq_left he]

/-- A positive normal number of binary exponent `e` that is strictly nearer to `n * 2^(e-23)`
than to any other multiple of the spacing rounds to it. -/
theorem fl32_of_near (x : ℚ) (e n : Int) (he : -126 ≤ e) (h1 : (2 : ℚ) ^ e ≤ x)
    (h2 : x < (2 : ℚ) ^ (e + 1)) (hn : |x / (2 : ℚ) ^ (e - 23) - n| < 1 / 2) :
    fl32 x = n * (2 : ℚ) ^ (e - 23) := by
  unfold fl32
  rw [ulp32_of_binade x e he h1 h2, roundEven_of_near _ n hn]

/-- A positive normal number of binary exponent `e` half way between `n * 2^(e-23)` and the
next multiple of the spacing rounds to the even one of the two. -/
theorem fl32_of_tie (x : ℚ) (e n : Int) (he : -126 ≤ e) (h1 : (2 : ℚ) ^ e ≤ x)
    (h2 : x < (2 : ℚ) ^ (e + 1)) (hn : x / (2 : ℚ) ^ (e - 23) = n + 1 / 2) :
    fl32 x = (if n % 2 = 0 then n else n + 1 : Int) * (2 : ℚ) ^ (e - 23) := by
  unfold fl32
  rw [ulp32_of_binade x e he h1 h2, roundEven_of_tie _ n hn]

/-- A positive normal number that is a multiple of the spacing of its binade is a binary32
number: rounding leaves it alone. -/
theorem fl32_of_exact (x : ℚ) (e n : Int) (he : -126 ≤ e) (h1 : (2 : ℚ) ^ e ≤ x)
    (h2 : x < (2 : ℚ) ^ (e + 1)) (hn : x = n * (2 : ℚ) ^ (e - 23)) : fl32 x = x := by
  have hq : (2 : ℚ) ^ (e - 23) ≠ 0 := by positivity
  rw [fl32_of_near x e n he h1 h2 (by
    rw [hn, mul_div_cancel_right₀ _ hq]
    simp)]
  exact hn.symm

theorem fl32_nonneg (y : ℚ) (hy : 0 ≤ y) : 0 ≤ fl32 y := by
  unfold fl32
  have h0 : (0 : Int) ≤ roundEven (y / ulp32 y) :=
    le_roundEven _ 0 (by simpa using div_nonneg hy (le_of_lt (ulp32_pos y)))
  exact mul_nonneg (by exact_mod_cast h0) (le_of_lt (ulp32_pos y))

/-- A positive number rounds to at most the upper end of its binade. -/
theorem fl32_le_binade (x : ℚ) (hx : 0 < x) :
    fl32 x ≤ (2 : ℚ) ^ (max (Int.log 2 |x|) (-126) + 1) := by
  have hu : ulp32 x = (2 : ℚ) ^ (max (Int.log 2 |x|) (-126) - 23) := rfl
  have hsplit : (2 : ℚ) ^ (max (Int.log 2 |x|) (-126) + 1) = 16777216 * ulp32 x := by
    rw [hu, show max (Int.log 2 |x|) (-126) + 1 = 24 + (max (Int.log 2 |x|) (-126) - 23) by ring,
      zpow_add₀ (two_ne_zero)]
    norm_num
  have hlt : x < (2 : ℚ) ^ (Int.log 2 |x| + 1) := by
    have h := Int.lt_zpow_succ_log_self (R := ℚ) (b := 2) (by norm_num) |x|
    rw [abs_of_pos hx] at h ⊢
    exact_mod_cast h
  have hle : (2 : ℚ) ^ (Int.log 2 |x| + 1) ≤ (2 : ℚ) ^ (max (Int.log 2 |x|) (-126) + 1) :=
    zpow_le_zpow_right₀ (by norm_num) (by omega)
  have hdiv : x / ulp32 x ≤ ((16777216 : Int) : ℚ) := by
    rw [div_le_iff₀ (ulp32_pos x)]
    push_cast
    linarith
  have hr := roundEven_le _ _ hdiv
  rw [hsplit]
  unfold fl32
  exact mul_le_mul_of_nonneg_right (by exact_mod_cast hr) (le_of_lt (ulp32_pos x))

/-- A positive normal number rounds to at least the lower end of its binade. -/
theorem binade_le_fl32 (y : ℚ) (hy : 0 < y) (he : -126 ≤ Int.log 2 |y|) :
    (2 : ℚ) ^ (Int.log 2 |y|) ≤ fl32 y := by
  have hu : ulp32 y = (2 : ℚ) ^ (Int.log 2 |y| - 23) := by
    unfold ulp32
    rw [max_eq_left he]
  have hsplit : (2 : ℚ) ^ (Int.log 2 |y|) = 8388608 * ulp32 y := by
    rw [hu]
    nth_rewrite 1 [show Int.log 2 |y| = 23 + (Int.log 2 |y| - 23) by ring]
    rw [zpow_add₀ (two_ne_zero)]
    norm_num
  have hge : (2 : ℚ) ^ (Int.log 2 |y|) ≤ y := by
    have h := Int.zpow_log_le_self (R := ℚ) (b := 2) (by norm_num) (abs_pos.mpr (ne_of_gt hy))
    rw [abs_of_pos hy] at h ⊢
    exact_mod_cast h
  have hdiv : ((8388608 : Int) : ℚ) ≤ y / ulp32 y := by
    rw [le_div_iff₀ (ulp32_pos y)]
    push_cast
    linarith
  have hr := le_roundEven _ _ hdiv
  rw [hsplit]
  unfold fl32
  exact mul_le_mul_of_nonneg_right (by exact_mod_cast hr) (le_of_lt (ulp32_pos y))

theorem fl32_mono_pos (x y : ℚ) (hx : 0 < x) (h : x ≤ y) : fl32 x ≤ fl32 y := by
  have hy : 0 < y := lt_of_lt_of_le hx h
  have hlog : Int.log 2 |x| ≤ Int.log 2 |y| := by
    rw [abs_of_pos hx, abs_of_pos hy]
    exact Int.log_mono_right hx h
  rcases lt_or_eq_of_le (max_le_max_right (-126) hlog) with hlt | heq
  · have he : -126 ≤ Int.log 2 |y| := by
      by_contra hc
      push_neg at hc
      rw [max_eq_right (le_of_lt hc)] at hlt
      have := le_max_right (Int.log 2 |x|) (-126)
      omega
    rw [max_eq_left he] at hlt
    calc fl32 x ≤ (2 : ℚ) ^ (max (Int.log 2 |x|) (-126) + 1) := fl32_le_binade x hx
      _ ≤ (2 : ℚ) ^ (Int.log 2 |y|) := zpow_le_zpow_right₀ (by norm_num) (by omega)
      _ ≤ fl32 y := binade_le_fl32 y hy he
  · have hu : ulp32 x = ulp32 y := by
      unfold ulp32
      rw [heq]
    unfold fl32
    rw [hu]
    have hdiv : x / ulp32 y ≤ y / ulp32 y := div_le_div_of_nonneg_right h (le_of_lt (ulp32_pos y))
    have hr := roundEven_mono _ _ hdiv
    exact mul_le_mul_of_nonneg_right (by exact_mod_cast hr) (le_of_lt (ulp32_pos y))

theorem fl32_mono_nonneg (x y : ℚ) (hx : 0 ≤ x) (h : x ≤ y) : fl32 x ≤ fl32 y := by
  rcases eq_or_lt_of_le hx with h0 | hpos
  · rw [← h0, fl32_zero]
    exact fl32_nonneg y (le_trans hx h)
  · exact fl32_mono_pos x y hpos h

/-- Rounding to binary32 preserves the order. -/
theorem fl32_monotone : Monotone fl32 := by
  intro x y h
  rcases le_or_lt 0 x with hx | hx
  · exact fl32_mono_nonneg x y hx h
  · rcases le_or_lt 0 y with hy | hy
    · have h1 := fl32_nonneg (-x) (by linarith)
      rw [fl32_neg] at h1
      have h2 := fl32_nonneg y hy
      linarith
    · have h1 := fl32_mono_nonneg (-y) (-x) (by linarith) (by linarith)
      rw [fl32_neg, fl32_neg] at h1
      linarith

/-! ## Ray and box in rounded arithmetic -/

/-- With the identity for rounding, the rounded body of `intersect` is the exact one. -/
theorem BoundingBox.intervalFl_id (b : BoundingBox) (r : Ray) :
    b.intervalFl id r = b.interval r := rfl

theorem BoundingBox.intersectFl_id (b : BoundingBox) (r : Ray) :
    b.intersectFl id r = b.intersect r := rfl

/-- For a ray with consistent sign entries every `bounds` index is 0 or 1, and the rounded
body of `intersect` intersects the three slab intervals as computed. -/
theorem BoundingBox.intervalFl_of_signs (fl : ℚ → ℚ) (b : BoundingBox) (r : Ray)
    (hs : r.SignsConsistent) :
    b.intervalFl fl r =
      if b.txminFl fl r > b.tymaxFl fl r ∨ b.tyminFl fl r > b.txmaxFl fl r then some none
      else if max (b.txminFl fl r) (b.tyminFl fl r) > b.tzmaxFl fl r ∨
          b.tzminFl fl r > min (b.txmaxFl fl r) (b.tymaxFl fl r) then some none
      else some (some (max (max (b.txminFl fl r) (b.tyminFl fl r)) (b.tzminFl fl r),
        min (min (b.txmaxFl fl r) (b.tymaxFl fl r)) (b.tzmaxFl fl r))) := by
  obtain ⟨hs0, hs1, hs2⟩ := hs
  unfold BoundingBox.intervalFl
  rw [hs0, hs1, hs2]
  rw [(b.boundsAt_sign r.invdirection.x).1, (b.boundsAt_sign r.invdirection.x).2,
    (b.boundsAt_sign r.invdirection.y).1, (b.boundsAt_sign r.invdirection.y).2,
    (b.boundsAt_sign r.invdirection.z).1, (b.boundsAt_sign r.invdirection.z).2]
  simp only [ite_gt_eq_max, ite_lt_eq_min]
  rfl

theorem BoundingBox.near_or (b : BoundingBox) (inv : ℚ) :
    b.near inv = b.bounds0 ∨ b.near inv = b.bounds1 := by
  unfold BoundingBox.near
  split
  · exact Or.inr rfl
  · exact Or.inl rfl

theorem BoundingBox.far_or (b : BoundingBox) (inv : ℚ) :
    b.far inv = b.bounds0 ∨ b.far inv = b.bounds1 := by
  unfold BoundingBox.far
  split
  · exact Or.inl rfl
  · exact Or.inr rfl

/-- When no operation is changed by the rounding, the six slab parameters as computed are the
exact ones. -/
theorem BoundingBox.slabs_of_exactRun (fl : ℚ → ℚ) (b : BoundingBox) (r : Ray)
    (hex : b.ExactRun fl r) :
    b.txminFl fl r = b.txmin r ∧ b.txmaxFl fl r = b.txmax r ∧
    b.tyminFl fl r = b.tymin r ∧ b.tymaxFl fl r = b.tymax r ∧
    b.tzminFl fl r = b.tzmin r ∧ b.tzmaxFl fl r = b.tzmax r := by
  have hxn := hex _ (b.near_or r.invdirection.x)
  have hxf := hex _ (b.far_or r.invdirection.x)
  have hyn := hex _ (b.near_or r.invdirection.y)
  have hyf := hex _ (b.far_or r.invdirection.y)
  have hzn := hex _ (b.near_or r.invdirection.z)
  have hzf := hex _ (b.far_or r.invdirection.z)
  unfold BoundingBox.txminFl BoundingBox.txmaxFl BoundingBox.tyminFl BoundingBox.tymaxFl
    BoundingBox.tzminFl BoundingBox.tzmaxFl BoundingBox.txmin BoundingBox.txmax
    BoundingBox.tymin BoundingBox.tymax BoundingBox.tzmin BoundingBox.tzmax
  refine ⟨?_, ?_, ?_, ?_, ?_, ?_⟩
  · rw [hxn.1, hxn.2.2.2.1]
  · rw [hxf.1, hxf.2.2.2.1]
  · rw [hyn.2.1, hyn.2.2.2.2.1]
  · rw [hyf.2.1, hyf.2.2.2.2.1]
  · rw [hzn.2.2.1, hzn.2.2.2.2.2]
  · rw [hzf.2.2.1, hzf.2.2.2.2.2]

/-- Without early return the rounded `intersect` returns the comparison of the two signs. -/
theorem BoundingBox.intersectFl_of_interval (fl : ℚ → ℚ) (b : BoundingBox) (r : Ray)
    (tmin tmax : ℚ) (h : b.intervalFl fl r = some (some (tmin, tmax))) :
    b.intersectFl fl r = some (decide (SIGN tmin = SIGN tmax)) := by
  unfold BoundingBox.intersectFl
  rw [h]

/-- When no operation is changed by the rounding, the rounded `intersect` is the exact
one. -/
theorem BoundingBox.intersectFl_of_exactRun (fl : ℚ → ℚ) (b : BoundingBox) (r : Ray)
    (hs : r.SignsConsistent) (hex : b.ExactRun fl r) :
    b.intervalFl fl r = b.interval r ∧ b.intersectFl fl r = b.intersect r := by
  have hint : b.intervalFl fl r = b.interval r := by
    obtain ⟨h1, h2, h3, h4, h5, h6⟩ := b.slabs_of_exactRun fl r hex
    rw [b.intervalFl_of_signs fl r hs, ← b.intervalFl_id r, b.intervalFl_of_signs id r hs,
      h1, h2, h3, h4, h5, h6]
    rfl
  refine ⟨hint, ?_⟩
  unfold BoundingBox.intersectFl BoundingBox.intersect
  rw [hint]

/-- With an order-preserving rounding and `min <= max` on the axis, the entry parameter of a
slab as computed is at most the exit parameter as computed. -/
theorem slab_computed_le (fl : ℚ → ℚ) (hmono : Monotone fl) (lo hi o inv : ℚ)
    (h : lo ≤ hi) :
    fl (fl ((if inv < 0 then hi else lo) - o) * inv) ≤
      fl (fl ((if inv < 0 then lo else hi) - o) * inv) := by
  apply hmono
  by_cases hneg : inv < 0
  · rw [if_pos hneg, if_pos hneg]
    exact mul_le_mul_of_nonpos_right (hmono (by linarith)) (le_of_lt hneg)
  · rw [if_neg hneg, if_neg hneg]
    exact mul_le_mul_of_nonneg_right (hmono (by linarith)) (not_lt.mp hneg)

theorem BoundingBox.slabs_computed_le (fl : ℚ → ℚ) (hmono : Monotone fl) (b : BoundingBox)
    (r : Ray) (hb : b.Ordered) :
    b.txminFl fl r ≤ b.txmaxFl fl r ∧ b.tyminFl fl r ≤ b.tymaxFl fl r ∧
    b.tzminFl fl r ≤ b.tzmaxFl fl r := by
  obtain ⟨hx, hy, hz⟩ := hb
  have h1 := slab_computed_le fl hmono b.bounds0.x b.bounds1.x r.origin.x r.invdirection.x hx
  have h2 := slab_computed_le fl hmono b.bounds0.y b.bounds1.y r.origin.y r.invdirection.y hy
  have h3 := slab_computed_le fl hmono b.bounds0.z b.bounds1.z r.origin.z r.invdirection.z hz
  unfold BoundingBox.txminFl BoundingBox.txmaxFl BoundingBox.tyminFl BoundingBox.tymaxFl
    BoundingBox.tzminFl BoundingBox.tzmaxFl BoundingBox.near BoundingBox.far
  refine ⟨?_, ?_, ?_⟩
  · by_cases hneg : r.invdirection.x < 0
    · simpa [hneg] using h1
    · simpa [hneg] using h1
  · by_cases hneg : r.invdirection.y < 0
    · simpa [hneg] using h2
    · simpa [hneg] using h2
  · by_cases hneg : r.invdirection.z < 0
    · simpa [hneg] using h3
    · simpa [hneg] using h3

/-- C21, amended: for every order-preserving rounding of the operations, a box with
`min <= max` on each axis and a ray with consistent sign entries, if `intersect` returns true
then the three per-axis parameter intervals as computed have a common point `t`, and when no
operation of the run is changed by the rounding and the inverse direction is the exact
reciprocal of a non-zero direction, `origin + t * direction` lies inside the box; when the
intervals as computed have no common point, `intersect` returns false. -/
theorem BoundingBox.intersectFl_sound (fl : ℚ → ℚ) (hmono : Monotone fl) (b : BoundingBox)
    (r : Ray) (hb : b.Ordered) (hs : r.SignsConsistent) :
    (b.intersectFl fl r = some true →
      ∃ t : ℚ, ((b.txminFl fl r ≤ t ∧ t ≤ b.txmaxFl fl r) ∧
          (b.tyminFl fl r ≤ t ∧ t ≤ b.tymaxFl fl r) ∧
          (b.tzminFl fl r ≤ t ∧ t ≤ b.tzmaxFl fl r)) ∧
        (b.ExactRun fl r → r.Consistent → b.Contains (r.pointAt t))) ∧
    ((¬∃ t : ℚ, (b.txminFl fl r ≤ t ∧ t ≤ b.txmaxFl fl r) ∧
          (b.tyminFl fl r ≤ t ∧ t ≤ b.tymaxFl fl r) ∧
          (b.tzminFl fl r ≤ t ∧ t ≤ b.tzmaxFl fl r)) →
      b.intersectFl fl r = some false) := by
  obtain ⟨hx, hy, hz⟩ := b.slabs_computed_le fl hmono r hb
  have hint := b.intervalFl_of_signs fl r hs
  have key : b.intersectFl fl r = some false ∨
      ((b.txminFl fl r ≤ max (max (b.txminFl fl r) (b.tyminFl fl r)) (b.tzminFl fl r) ∧
          max (max (b.txminFl fl r) (b.tyminFl fl r)) (b.tzminFl fl r) ≤ b.txmaxFl fl r) ∧
        (b.tyminFl fl r ≤ max (max (b.txminFl fl r) (b.tyminFl fl r)) (b.tzminFl fl r) ∧
          max (max (b.txminFl fl r) (b.tyminFl fl r)) (b.tzminFl fl r) ≤ b.tymaxFl fl r) ∧
        (b.tzminFl fl r ≤ max (max (b.txminFl fl r) (b.tyminFl fl r)) (b.tzminFl fl r) ∧
          max (max (b.txminFl fl r) (b.tyminFl fl r)) (b.tzminFl fl r) ≤
            b.tzmaxFl fl r)) := by
    by_cases e1 : b.txminFl fl r > b.tymaxFl fl r ∨ b.tyminFl fl r > b.txmaxFl fl r
    · left
      rw [if_pos e1] at hint
      unfold BoundingBox.intersectFl
      rw [hint]
    · rw [if_neg e1] at hint
      by_cases e2 : max (b.txminFl fl r) (b.tyminFl fl r) > b.tzmaxFl fl r ∨
          b.tzminFl fl r > min (b.txmaxFl fl r) (b.tymaxFl fl r)
      · left
        rw [if_pos e2] at hint
        unfold BoundingBox.intersectFl
        rw [hint]
      · right
        push_neg at e1 e2
        obtain ⟨e11, e12⟩ := e1
        obtain ⟨e21, e22⟩ := e2
        have e21x := le_trans (le_max_left _ _) e21
        have e21y := le_trans (le_max_right _ _) e21
        have e22x := le_trans e22 (min_le_left _ _)
        have e22y := le_trans e22 (min_le_right _ _)
        refine ⟨⟨le_trans (le_max_left _ _) (le_max_left _ _), ?_⟩,
          ⟨le_trans (le_max_right _ _) (le_max_left _ _), ?_⟩, ⟨le_max_right _ _, ?_⟩⟩
        · exact max_le (max_le hx e12) e22x
        · exact max_le (max_le e11 hy) e22y
        · exact max_le (max_le e21x e21y) hz
  constructor
  · intro htrue
    rcases key with h | h
    · rw [h] at htrue
      exact absurd htrue (by decide)
    · refine ⟨_, h, ?_⟩
      intro hex hr
      obtain ⟨h1, h2, h3, h4, h5, h6⟩ := b.slabs_of_exactRun fl r hex
      rw [h1, h2, h3, h4, h5, h6] at h
      rw [h1, h3, h5]
      exact (b.contains_pointAt_iff r hr _).mpr h
  · intro hnone
    rcases key with h | h
    · exact h
    · exact absurd ⟨_, h⟩ hnone

theorem fl32_one : fl32 1 = 1 :=
  fl32_of_exact 1 0 8388608 (by norm_num) (by norm_num) (by norm_num) (by norm_num)

theorem fl32_two : fl32 2 = 2 :=
  fl32_of_exact 2 1 8388608 (by norm_num) (by norm_num) (by norm_num) (by norm_num)

theorem fl32_three : fl32 3 = 3 :=
  fl32_of_exact 3 1 12582912 (by norm_num) (by norm_num) (by norm_num) (by norm_num)

theorem fl32_half : fl32 (1 / 2) = 1 / 2 :=
  fl32_of_exact (1 / 2) (-1) 8388608 (by norm_num) (by norm_num) (by norm_num) (by norm_num)

theorem fl32_three_halves : fl32 (3 / 2) = 3 / 2 :=
  fl32_of_exact (3 / 2) 0 12582912 (by norm_num) (by norm_num) (by norm_num) (by norm_num)

/-- No operation of `intersect` on `box2` and `rayCentre` is changed by binary32 rounding. -/
theorem box2_rayCentre_exactRun : box2.ExactRun fl32 rayCentre := by
  intro c hc
  rcases hc with rfl | rfl <;>
    norm_num [box2, rayCentre, fl32_neg, fl32_zero, fl32_one, fl32_two, fl32_three, fl32_half,
      fl32_three_halves]

theorem fl32_16777220 : fl32 16777220 = 16777220 :=
  fl32_of_exact 16777220 24 8388610 (by norm_num) (by norm_num) (by norm_num) (by norm_num)

theorem fl32_16777218 : fl32 16777218 = 16777218 :=
  fl32_of_exact 16777218 24 8388609 (by norm_num) (by norm_num) (by norm_num) (by norm_num)

theorem fl32_16777221 : fl32 16777221 = 16777220 := by
  rw [fl32_of_tie 16777221 24 8388610 (by norm_num) (by norm_num) (by norm_num)
    (by norm_num)]
  norm_num

theorem fl32_16777219 : fl32 16777219 = 16777220 := by
  rw [fl32_of_tie 16777219 24 8388609 (by norm_num) (by norm_num) (by norm_num)
    (by norm_num)]
  norm_num

theorem fl32_two_pow_29 : fl32 536870912 = 536870912 :=
  fl32_of_exact 536870912 29 8388608 (by norm_num) (by norm_num) (by norm_num) (by norm_num)

theorem box1_ordered : box1.Ordered := by
  unfold BoundingBox.Ordered box1
  norm_num

theorem rayGraze_consistent : rayGraze.Consistent := by
  unfold Ray.Consistent rayGraze
  norm_num

/-- The slab parameters of `box1` and `rayGraze` as computed in binary32: the exit of the `x`
slab, exactly `16777221`, and the exit of the `y` slab, exactly `16777219`, both round to
`16777220`. -/
theorem box1_rayGraze_slabs :
    box1.txminFl fl32 rayGraze = 16777220 ∧ box1.txmaxFl fl32 rayGraze = 16777220 ∧
    box1.tyminFl fl32 rayGraze = 16777218 ∧ box1.tymaxFl fl32 rayGraze = 16777220 ∧
    box1.tzminFl fl32 rayGraze = -536870912 ∧ box1.tzmaxFl fl32 rayGraze = 536870912 := by
  unfold BoundingBox.txminFl BoundingBox.txmaxFl BoundingBox.tyminFl BoundingBox.tymaxFl
    BoundingBox.tzminFl BoundingBox.tzmaxFl BoundingBox.near BoundingBox.far
  norm_num [box1, rayGraze, fl32_neg, fl32_half, fl32_16777220, fl32_16777218,
    fl32_16777221, fl32_16777219, fl32_two_pow_29]

/-- C21 fails as stated in binary32: `box1` has `min <= max`, the ray `rayGraze` has non-zero
direction components with their exact reciprocals and consistent sign entries, `intersect`
returns true, and no parameter `t` puts `origin + t * direction` inside the box: the `x` slab
is `[16777220, 16777221]`, the `y` slab `[16777218, 16777219]`. -/
theorem BoundingBox.intersectFl_sound_counterexample :
    box1.Ordered ∧ rayGraze.Consistent ∧ box1.intersectFl fl32 rayGraze = some true ∧
    ¬∃ t : ℚ, box1.Contains (rayGraze.pointAt t) := by
  refine ⟨box1_ordered, rayGraze_consistent, ?_, ?_⟩
  · have hint : box1.intervalFl fl32 rayGraze = some (some (16777220, 16777220)) := by
      obtain ⟨h1, h2, h3, h4, h5, h6⟩ := box1_rayGraze_slabs
      rw [BoundingBox.intervalFl_of_signs fl32 box1 rayGraze rayGraze_consistent.2.2,
        h1, h2, h3, h4, h5, h6, if_neg (by norm_num), if_neg (by norm_num)]
      norm_num
    rw [BoundingBox.intersectFl_of_interval fl32 box1 rayGraze _ _ hint]
    rfl
  · rintro ⟨t, ⟨hx1, hx2⟩, ⟨hy1, hy2⟩, -⟩
    unfold Ray.pointAt rayGraze box1 at hx1 hy2
    norm_num at hx1 hy2
    linarith

/-- C21 (amended) in binary32 on `box2` and the ray from `(3, -1, 0)` with direction
`(-2, 2, 1)`, for which `intersect` returns true. -/
theorem BoundingBox.intersectFl_sound_witness :
    Monotone fl32 ∧ box2.Ordered ∧ rayCentre.SignsConsistent ∧
    box2.intersectFl fl32 rayCentre = some true ∧
    ∃ t : ℚ, ((box2.txminFl fl32 rayCentre ≤ t ∧ t ≤ box2.txmaxFl fl32 rayCentre) ∧
        (box2.tyminFl fl32 rayCentre ≤ t ∧ t ≤ box2.tymaxFl fl32 rayCentre) ∧
        (box2.tzminFl fl32 rayCentre ≤ t ∧ t ≤ box2.tzmaxFl fl32 rayCentre)) ∧
      (box2.ExactRun fl32 rayCentre → rayCentre.Consistent →
        box2.Contains (rayCentre.pointAt t)) :=
  have hhit : box2.intersectFl fl32 rayCentre = some true := by
    rw [(BoundingBox.intersectFl_of_exactRun fl32 box2 rayCentre rayCentre_consistent.2.2
      box2_rayCentre_exactRun).2]
    exact box2_rayCentre_hit
  ⟨fl32_monotone, box2_ordered, rayCentre_consistent.2.2, hhit,
    (BoundingBox.intersectFl_sound fl32 fl32_monotone box2 rayCentre box2_ordered
      rayCentre_consistent.2.2).1 hhit⟩
